import Mathlib

/-!
Schedulo-Faculty: the timetable scheduler and the grid editor.

A shallow embedding of `src/utils/timetableGenerator.js` (the greedy scheduler) and of
the drag-and-drop part of `src/public/js/step6-editor.js` (the structural editor), with
the properties of the specification stated and proved over them.

Conventions of the embedding.

* JavaScript objects become structures, arrays become lists, `null`/`undefined` become
  `none`.  Objects used as string-keyed maps (`timetable`, `roomSchedule`,
  `perDayPlacement`, ...) become functions from the key.
* `Math.random` is the only source of non-determinism of the scheduler.  It is used in
  `sort(() => Math.random() - 0.5)` only, which returns the elements of the array in some
  order.  The embedding takes a stream `rand : Nat → Nat` and turns the next number of
  the stream into an order with `shuffle`; properties are proved for every stream.
* A time-of-day string such as `09:00` is kept as the two numbers it denotes.
-/

namespace Schedulo

/-! ## Data model of the scheduler -/

/-- A time of day, the string `h:m` of the source kept as its two decimal numbers. -/
structure TimeOfDay where
  h : Nat
  m : Nat
deriving DecidableEq, Repr

/-- A slot time range, the string `start-end` of the source. -/
structure SlotTime where
  start : TimeOfDay
  stop : TimeOfDay
deriving DecidableEq, Repr

/-- One unavailability window of a teacher.  A field that is missing or empty in the
source object is `none` (for `day` the empty string is also representable, and is
treated as missing, as JavaScript does). -/
structure TimeOff where
  day : Option String
  start : Option TimeOfDay
  stop : Option TimeOfDay
deriving DecidableEq, Repr

/-- One entry of `teacher.assignments`: the `_id` of its course and of its subject,
`none` when the reference or its `_id` is missing. -/
structure Assignment where
  course : Option String
  subject : Option String
deriving DecidableEq, Repr

/-- A teacher.  `timeOff` is `none` when the field is not an array. -/
structure Teacher where
  shortName : String
  name : String
  assignments : List Assignment
  timeOff : Option (List TimeOff)
deriving DecidableEq, Repr

/-- What the scheduler reads from a `capacityRange` string after `split('-')`:
`min` and `max` are `Number` of the first and second piece, `maxInt` is `parseInt` of
the second piece; `none` is `NaN`. -/
structure CapacityRange where
  min : Option Nat
  max : Option Nat
  maxInt : Option Nat
deriving DecidableEq, Repr

/-- A classroom.  `capacityRange` is `none` when the field is missing or empty. -/
structure Classroom where
  roomNumber : String
  building : String
  classOrLab : String
  capacityRange : Option CapacityRange
  labType : Option String
deriving DecidableEq, Repr

/-- A subject of a course. -/
structure Subject where
  id : Option String
  shortName : String
  fullName : String
  isLab : Bool
  count : Nat
  labType : Option String
deriving DecidableEq, Repr

/-- A course. -/
structure Course where
  id : Option String
  courseShortName : String
  strength : Option Nat
  studentStrength : Option Nat
  subjects : List Subject
deriving DecidableEq, Repr

/-- A cell of a grid as the scheduler writes it. -/
structure Cell where
  room : String
  subject : String
  teacher : String
deriving DecidableEq, Repr

/-- One row of the subject-teacher summary. -/
structure SummaryRow where
  subjectShort : String
  subjectLong : String
  teacherShort : String
  teacherLong : String
deriving DecidableEq, Repr

/-! ## Teacher availability -/

/-- `timeToMinutes` for a string `h:m`: minutes since midnight. `normalizeTime` only pads
both numbers with zeros, which `Number` ignores. For a string without a colon
`normalizeTime` raises a TypeError; `timeToMinutesE` below keeps that case. -/
def timeToMinutes (time : TimeOfDay) : Nat :=
  time.h * 60 + time.m

/-- The callback of `teacher.timeOff.some(...)` in `isTeacherAvailable`: does the window
`off` block the slot `[slotStart, slotEnd)` of `day`? -/
def timeOffBlocks (day : String) (slotStart slotEnd : Nat) (off : TimeOff) : Bool :=
  match off.day, off.start, off.stop with
  | some d, some s, some e =>
    if d = "" then false
    else if d ≠ day then false
    else decide (slotStart < timeToMinutes e) && decide (slotEnd > timeToMinutes s)
  | _, _, _ => false

/-- `isTeacherAvailable(teacher, day, slotTime)`. -/
def isTeacherAvailable (teacher : Option Teacher) (day : String) (slotTime : SlotTime) : Bool :=
  match teacher with
  | none => true
  | some t =>
    match t.timeOff with
    | none => true
    | some offs =>
      if offs.length = 0 then true
      else !(offs.any (timeOffBlocks day (timeToMinutes slotTime.start) (timeToMinutes slotTime.stop)))

/-! ## Room helpers -/

/-- `getEligibleRoomsForCourse(classrooms, courseStrength)`. A comparison with `NaN` is
false. -/
def getEligibleRoomsForCourse (classrooms : List Classroom) (courseStrength : Nat) :
    List Classroom :=
  classrooms.filter fun r =>
    if r.classOrLab ≠ "class" then false
    else match r.capacityRange with
      | none => false
      | some cr =>
        match cr.min, cr.max with
        | some mn, some mx => decide (courseStrength ≥ mn) && decide (courseStrength ≤ mx)
        | _, _ => false

/-- The fallback filter of `timetableGenerator`: class rooms whose `parseInt` maximum
is at least the strength. -/
def fallbackRooms (classrooms : List Classroom) (courseStrength : Nat) : List Classroom :=
  classrooms.filter fun r =>
    decide (r.classOrLab = "class") &&
    match r.capacityRange with
    | none => false
    | some cr =>
      match cr.maxInt with
      | some mx => decide (mx ≥ courseStrength)
      | none => false

/-- The order that `sort(() => Math.random() - 0.5)` returns for the random number `k`:
every element is inserted at a position read from `k`. -/
def shuffle {α : Type} : Nat → List α → List α
  | _, [] => []
  | k, x :: xs =>
    let rest := shuffle (k / (xs.length + 1)) xs
    rest.take (k % (xs.length + 1)) ++ x :: rest.drop (k % (xs.length + 1))

/-- The test `!labType || l.labType === labType`. -/
def labTypeMatches (labType : Option String) (l : Classroom) : Bool :=
  match labType with
  | none => true
  | some ty => decide (ty = "") || decide (l.labType = some ty)

/-- `getLabForGroup(labs, usedLabs, labType, group)`, with the random number `k` that
orders the available labs. -/
def getLabForGroup (k : Nat) (labs : List Classroom) (usedLabs : List String)
    (labType : Option String) (_group : String) : Option Classroom :=
  let availableLabs := labs.filter fun l =>
    labTypeMatches labType l && !(usedLabs.contains l.roomNumber)
  let availableLabs := shuffle k availableLabs
  match availableLabs with
  | l :: _ => some l
  | [] =>
    match labs.find? (labTypeMatches labType) with
    | some l => some l
    | none => labs.head?

/-! ## The scheduler -/

/-- The constant `days` of `timetableGenerator`. -/
def days : List String := ["Monday", "Tuesday", "Wednesday", "Thursday", "Friday"]

/-- The constant `slots` of `timetableGenerator`. -/
def slots : List SlotTime :=
  [⟨⟨9, 0⟩, ⟨10, 0⟩⟩, ⟨⟨10, 0⟩, ⟨11, 0⟩⟩, ⟨⟨11, 0⟩, ⟨12, 0⟩⟩, ⟨⟨12, 0⟩, ⟨13, 0⟩⟩,
   ⟨⟨13, 0⟩, ⟨13, 30⟩⟩,
   ⟨⟨13, 30⟩, ⟨14, 30⟩⟩, ⟨⟨14, 30⟩, ⟨15, 30⟩⟩, ⟨⟨15, 30⟩, ⟨16, 30⟩⟩, ⟨⟨16, 30⟩, ⟨17, 30⟩⟩]

/-- The constant `totalSlots`. -/
def totalSlots : Nat := slots.length

/-- The constant `firstHalfSlots`. -/
def firstHalfSlots : List Nat := [0, 1, 2, 3]

/-- The constant `secondHalfSlots` (index 4 is lunch). -/
def secondHalfSlots : List Nat := [5, 6, 7, 8]

/-- The constant `labSlotPairs`. -/
def labSlotPairs : List (Nat × Nat) := [(0, 1), (2, 3), (5, 6), (7, 8)]

/-- The expression `slots[slot]`. -/
def slotTimeAt (slot : Nat) : SlotTime :=
  slots.getD slot ⟨⟨0, 0⟩, ⟨0, 0⟩⟩

/-- The fixed lunch-break cell. -/
def breakCell : Cell := ⟨"", "Break", ""⟩

/-- The filler cell of the fill step. -/
def libraryCell : Cell := ⟨"Library", "Library", ""⟩

/-- The expression `teacher?.shortName || 'TBA'`. -/
def teacherLabel (teacher : Option Teacher) : String :=
  match teacher with
  | some t => if t.shortName = "" then "TBA" else t.shortName
  | none => "TBA"

/-- The expression `teacher?.name || 'To Be Assigned'`. -/
def teacherLongLabel (teacher : Option Teacher) : String :=
  match teacher with
  | some t => if t.name = "" then "To Be Assigned" else t.name
  | none => "To Be Assigned"

/-- The template string that labels the room of a cell. -/
def roomLabel (room : Classroom) : String :=
  room.roomNumber ++ ", " ++ room.building

/-- Record of one write of a subject cell into a grid position. It is kept beside the
state of the scheduler to state properties of the run; the scheduler never reads it.
A lab placement is recorded once for each of its two slots, with `labPair` the pair. -/
structure Placement where
  courseNo : Nat
  course : String
  subjectNo : Nat
  subject : Subject
  teacher : Option Teacher
  day : String
  slot : Nat
  room : Classroom
  labPair : Option (Nat × Nat)
  cell : Cell
deriving DecidableEq, Repr

/-- The variables of `timetableGenerator`.  `timetable`, `subjectTeachers`,
`roomSchedule` and `teacherSchedule` live for the whole run, `assignedRoomForCourse` and
`assignedLabsForGroups` are reset for every course, `scheduled` and `perDayPlacement` for
every subject.  `draws` counts the random numbers used so far.  `placements`,
`courseNo` and `subjectNo` are the record of the run and are never read by the
scheduler. -/
structure GenState where
  timetable : String → String → List (Option Cell)
  subjectTeachers : String → List SummaryRow
  roomSchedule : String → Nat → List String
  teacherSchedule : String → Nat → List String
  draws : Nat
  assignedRoomForCourse : Option String
  assignedLabsForGroups : String → Option String
  scheduled : Nat
  perDayPlacement : String → Nat
  placements : List Placement
  courseNo : Nat
  subjectNo : Nat

/-- What stays fixed while the sessions of one subject are placed. -/
structure Ctx where
  rand : Nat → Nat
  classrooms : List Classroom
  courseName : String
  eligibleRooms : List Classroom
  subject : Subject
  teacher : Option Teacher

/-- The test `row[slot] === null`. -/
def isNull (row : List (Option Cell)) (slot : Nat) : Bool :=
  match row[slot]? with
  | some none => true
  | _ => false

/-- The assignment `timetable[courseName][day][slot] = cell`. -/
def setCell (timetable : String → String → List (Option Cell)) (courseName day : String)
    (slot : Nat) (cell : Cell) : String → String → List (Option Cell) :=
  fun c d => if c = courseName ∧ d = day then (timetable courseName day).set slot (some cell)
    else timetable c d

/-- The call `schedule[day][slot].push(x)`. -/
def book (schedule : String → Nat → List String) (day : String) (slot : Nat) (x : String) :
    String → Nat → List String :=
  fun d s => if d = day ∧ s = slot then schedule day slot ++ [x] else schedule d s

/-- The success branch of a lab attempt: both positions get the cell, both registries
are marked in both slots, the counters advance by 2. -/
def placeLab (ctx : Ctx) (day : String) (slot1 slot2 : Nat) (labGroup : String)
    (room : Classroom) (st : GenState) : GenState :=
  let label := ctx.subject.shortName ++ " (" ++ labGroup ++ " (G" ++
    (if st.scheduled < 2 then "1" else "2") ++ "))"
  let cell : Cell := ⟨roomLabel room, label, teacherLabel ctx.teacher⟩
  let rec1 : Placement := ⟨st.courseNo, ctx.courseName, st.subjectNo, ctx.subject, ctx.teacher,
    day, slot1, room, some (slot1, slot2), cell⟩
  let rec2 : Placement := ⟨st.courseNo, ctx.courseName, st.subjectNo, ctx.subject, ctx.teacher,
    day, slot2, room, some (slot1, slot2), cell⟩
  { st with
    timetable := setCell (setCell st.timetable ctx.courseName day slot1 cell)
      ctx.courseName day slot2 cell
    roomSchedule := book (book st.roomSchedule day slot1 room.roomNumber) day slot2
      room.roomNumber
    teacherSchedule :=
      match ctx.teacher with
      | some t => book (book st.teacherSchedule day slot1 t.shortName) day slot2 t.shortName
      | none => st.teacherSchedule
    perDayPlacement := fun d => if d = day then st.perDayPlacement day + 2
      else st.perDayPlacement d
    scheduled := st.scheduled + 2
    placements := st.placements ++ [rec1, rec2] }

/-- The expression `scheduled < 2 ? 'Lab-1' : 'Lab-2'`. -/
def labGroupOf (scheduled : Nat) : String :=
  if scheduled < 2 then "Lab-1" else "Lab-2"

/-- The list `labs` of a lab attempt. -/
def labsOf (classrooms : List Classroom) : List Classroom :=
  classrooms.filter fun r => decide (r.classOrLab = "lab")

/-- The list `usedLabs` of a lab attempt. -/
def usedLabsOf (st : GenState) (day : String) (slot1 slot2 : Nat) : List String :=
  st.roomSchedule day slot1 ++ st.roomSchedule day slot2

/-- The room found by `if (assignedLabsForGroups[labGroup]) room = labs.find(...)`: the lab
bound to the group when it has the sub-type and is not used in the pair. -/
def stickyLab (labs : List Classroom) (usedLabs : List String) (labType : Option String)
    (bound : Option String) : Option Classroom :=
  match bound with
  | some a =>
    if a = "" then none
    else labs.find? fun l =>
      decide (l.roomNumber = a) && labTypeMatches labType l && !(usedLabs.contains l.roomNumber)
  | none => none

/-- The value of `room` before the clash checks of a lab attempt. -/
def chooseLabRoom (ctx : Ctx) (day : String) (slot1 slot2 : Nat) (st : GenState) :
    Option Classroom :=
  match stickyLab (labsOf ctx.classrooms) (usedLabsOf st day slot1 slot2) ctx.subject.labType
      (st.assignedLabsForGroups (labGroupOf st.scheduled)) with
  | some r => some r
  | none =>
    getLabForGroup (ctx.rand st.draws) (labsOf ctx.classrooms) (usedLabsOf st day slot1 slot2)
      ctx.subject.labType (labGroupOf st.scheduled)

/-- The state before the clash checks of a lab attempt: a random number is used when
`getLabForGroup` is called, and `if (room) assignedLabsForGroups[labGroup] =
room.roomNumber` binds the chosen room. -/
def afterLabChoice (ctx : Ctx) (day : String) (slot1 slot2 : Nat) (st : GenState) : GenState :=
  { st with
    draws :=
      match stickyLab (labsOf ctx.classrooms) (usedLabsOf st day slot1 slot2)
          ctx.subject.labType (st.assignedLabsForGroups (labGroupOf st.scheduled)) with
      | some _ => st.draws
      | none => st.draws + 1
    assignedLabsForGroups :=
      match chooseLabRoom ctx day slot1 slot2 st with
      | some r => fun g =>
        if g = labGroupOf st.scheduled then some r.roomNumber else st.assignedLabsForGroups g
      | none => st.assignedLabsForGroups }

/-- The value `roomFree` of a lab attempt, for a room that is not `undefined`. -/
def labRoomFree (st : GenState) (day : String) (slot1 slot2 : Nat) (room : Classroom) : Bool :=
  !((st.roomSchedule day slot1).contains room.roomNumber) &&
  !((st.roomSchedule day slot2).contains room.roomNumber)

/-- The value `teacherFree` of a lab attempt. -/
def labTeacherFree (ctx : Ctx) (st : GenState) (day : String) (slot1 slot2 : Nat) : Bool :=
  match ctx.teacher with
  | none => true
  | some t =>
    !((st.teacherSchedule day slot1).contains t.shortName) &&
    !((st.teacherSchedule day slot2).contains t.shortName) &&
    isTeacherAvailable (some t) day (slotTimeAt slot1) &&
    isTeacherAvailable (some t) day (slotTimeAt slot2)

/-- The body of the loop over `labSlotPairs` for one pair: the new state and whether the
lab was placed. -/
def tryLabPair (ctx : Ctx) (day : String) (pair : Nat × Nat) (st : GenState) :
    GenState × Bool :=
  if isNull (st.timetable ctx.courseName day) pair.1 &&
      isNull (st.timetable ctx.courseName day) pair.2 then
    match chooseLabRoom ctx day pair.1 pair.2 st with
    | none => (afterLabChoice ctx day pair.1 pair.2 st, false)
    | some room =>
      if labRoomFree (afterLabChoice ctx day pair.1 pair.2 st) day pair.1 pair.2 room &&
          labTeacherFree ctx (afterLabChoice ctx day pair.1 pair.2 st) day pair.1 pair.2 then
        (placeLab ctx day pair.1 pair.2 (labGroupOf st.scheduled) room
          (afterLabChoice ctx day pair.1 pair.2 st), true)
      else (afterLabChoice ctx day pair.1 pair.2 st, false)
  else (st, false)

/-- The loop `for (const [slot1, slot2] of labSlotPairs)`, leaving at the first pair
that is placed. -/
def tryLabPairs (ctx : Ctx) (day : String) : List (Nat × Nat) → GenState → GenState × Bool
  | [], st => (st, false)
  | pair :: rest, st =>
    match tryLabPair ctx day pair st with
    | (st1, true) => (st1, true)
    | (st1, false) => tryLabPairs ctx day rest st1

/-- The success branch of a lecture attempt. -/
def placeLecture (ctx : Ctx) (day : String) (slot : Nat) (room : Classroom)
    (st : GenState) : GenState :=
  let cell : Cell := ⟨roomLabel room, ctx.subject.shortName, teacherLabel ctx.teacher⟩
  let rec1 : Placement := ⟨st.courseNo, ctx.courseName, st.subjectNo, ctx.subject, ctx.teacher,
    day, slot, room, none, cell⟩
  { st with
    assignedRoomForCourse := some room.roomNumber
    timetable := setCell st.timetable ctx.courseName day slot cell
    roomSchedule := book st.roomSchedule day slot room.roomNumber
    teacherSchedule :=
      match ctx.teacher with
      | some t => book st.teacherSchedule day slot t.shortName
      | none => st.teacherSchedule
    perDayPlacement := fun d => if d = day then st.perDayPlacement day + 1
      else st.perDayPlacement d
    scheduled := st.scheduled + 1
    placements := st.placements ++ [rec1] }

/-- The test `!assignedRoomForCourse`. -/
def noAssignedRoom (a : Option String) : Bool :=
  match a with
  | none => true
  | some r => decide (r = "")

/-- The state after `if (!assignedRoomForCourse) assignedRoomForCourse =
eligibleRooms[0]?.roomNumber`. -/
def bindCourseRoom (ctx : Ctx) (st : GenState) : GenState :=
  if noAssignedRoom st.assignedRoomForCourse then
    { st with assignedRoomForCourse := ctx.eligibleRooms.head?.map fun r => r.roomNumber }
  else st

/-- The value of `room` before the clash checks of a lecture attempt, in the state after
`bindCourseRoom`: the bound room when free in the slot, else the first eligible room
free in the slot (the third `find` of the source repeats the second). -/
def chooseLectureRoom (ctx : Ctx) (day : String) (slot : Nat) (st : GenState) :
    Option Classroom :=
  match ctx.eligibleRooms.find? fun r =>
      decide (some r.roomNumber = st.assignedRoomForCourse) &&
        !((st.roomSchedule day slot).contains r.roomNumber) with
  | some r => some r
  | none =>
    match ctx.eligibleRooms.find? fun r =>
        !((st.roomSchedule day slot).contains r.roomNumber) with
    | some r => some r
    | none =>
      if ctx.eligibleRooms.length > 0 then
        ctx.eligibleRooms.find? fun r => !((st.roomSchedule day slot).contains r.roomNumber)
      else none

/-- The value `teacherFree` of a lecture attempt. -/
def lectureTeacherFree (ctx : Ctx) (st : GenState) (day : String) (slot : Nat) : Bool :=
  match ctx.teacher with
  | none => true
  | some t =>
    !((st.teacherSchedule day slot).contains t.shortName) &&
    isTeacherAvailable (some t) day (slotTimeAt slot)

/-- The body of the loop over `trySlots` for one slot. -/
def tryLectureSlot (ctx : Ctx) (day : String) (slot : Nat) (st : GenState) :
    GenState × Bool :=
  if isNull (st.timetable ctx.courseName day) slot then
    match chooseLectureRoom ctx day slot (bindCourseRoom ctx st) with
    | none => (bindCourseRoom ctx st, false)
    | some room =>
      if !(((bindCourseRoom ctx st).roomSchedule day slot).contains room.roomNumber) &&
          lectureTeacherFree ctx (bindCourseRoom ctx st) day slot then
        (placeLecture ctx day slot room (bindCourseRoom ctx st), true)
      else (bindCourseRoom ctx st, false)
  else (st, false)

/-- The loop `for (let i = 0; i < trySlots.length; i++)`, leaving at the first slot that
is placed. -/
def tryLectureSlots (ctx : Ctx) (day : String) : List Nat → GenState → GenState × Bool
  | [], st => (st, false)
  | slot :: rest, st =>
    match tryLectureSlot ctx day slot st with
    | (st1, true) => (st1, true)
    | (st1, false) => tryLectureSlots ctx day rest st1

/-- The loop `for (const day of shuffledDays)`: the new state and the flag `placed`. -/
def tryDays (ctx : Ctx) : List String → GenState → GenState × Bool
  | [], st => (st, false)
  | day :: rest, st =>
    if ctx.subject.isLab then
      match tryLabPairs ctx day labSlotPairs st with
      | (st1, true) => (st1, true)
      | (st1, false) => tryDays ctx rest st1
    else
      match tryLectureSlots ctx day (firstHalfSlots ++ secondHalfSlots) st with
      | (st1, true) => (st1, true)
      | (st1, false) => tryDays ctx rest st1

/-- The loop `while (scheduled < requiredSessions)`. Every turn that does not leave the
loop raises `scheduled`, so `requiredSessions` turns are always enough: the function is
called with `fuel = requiredSessions` and the case `fuel = 0` is only reached with the
loop condition false (see `sessionLoop_fuel`). -/
def sessionLoop (ctx : Ctx) : Nat → GenState → GenState
  | 0, st => st
  | fuel + 1, st =>
    if st.scheduled < ctx.subject.count then
      let availableDays := days.filter fun day => decide (st.perDayPlacement day < 2)
      if availableDays.length = 0 then st
      else
        let shuffledDays := shuffle (ctx.rand st.draws) availableDays
        match tryDays ctx shuffledDays { st with draws := st.draws + 1 } with
        | (st1, true) => sessionLoop ctx fuel st1
        | (st1, false) => st1
    else st

/-- The conversion `String(x)` of an `_id`. -/
def jsString (x : Option String) : String :=
  match x with
  | some s => s
  | none => "undefined"

/-- The lookup of the teacher assigned to a subject of a course. -/
def findTeacher (teachers : List Teacher) (course : Course) (subject : Subject) :
    Option Teacher :=
  teachers.find? fun t => t.assignments.any fun a =>
    decide (jsString a.course = jsString course.id) &&
    decide (jsString a.subject = jsString subject.id)

/-- The state at the start of the `while` loop of a subject: the summary row is pushed,
`scheduled` is 0 and `perDayPlacement` is empty. -/
def subjectStart (teachers : List Teacher) (course : Course) (subject : Subject)
    (st : GenState) : GenState :=
  { st with
    subjectTeachers := fun c =>
      if c = course.courseShortName then
        st.subjectTeachers course.courseShortName ++
          [⟨subject.shortName, subject.fullName,
            teacherLabel (findTeacher teachers course subject),
            teacherLongLabel (findTeacher teachers course subject)⟩]
      else st.subjectTeachers c
    scheduled := 0
    perDayPlacement := fun _ => 0 }

/-- What is fixed while the sessions of `subject` are placed. -/
def subjectCtx (rand : Nat → Nat) (teachers : List Teacher) (classrooms : List Classroom)
    (course : Course) (eligibleRooms : List Classroom) (subject : Subject) : Ctx :=
  ⟨rand, classrooms, course.courseShortName, eligibleRooms, subject,
    findTeacher teachers course subject⟩

/-- The body of the loop `for (const subject of shuffledSubjects)`. -/
def scheduleSubject (rand : Nat → Nat) (teachers : List Teacher) (classrooms : List Classroom)
    (course : Course) (eligibleRooms : List Classroom) (st : GenState) (subject : Subject) :
    GenState :=
  { sessionLoop (subjectCtx rand teachers classrooms course eligibleRooms subject) subject.count
      (subjectStart teachers course subject st) with
    subjectNo := (sessionLoop (subjectCtx rand teachers classrooms course eligibleRooms subject)
      subject.count (subjectStart teachers course subject st)).subjectNo + 1 }

/-- The callback of the fill step for the cell at `sIndex` of the day at `dIndex`. -/
def fillCell (dIndex sIndex : Nat) (cell : Option Cell) : Option Cell :=
  if sIndex = 4 then cell
  else if cell.isNone && decide ((sIndex + dIndex) % 2 = 0) then some libraryCell
  else
    match cell with
    | some c => some c
    | none => some libraryCell

/-- The call `row.map((cell, sIndex) => ...)` of the fill step, from index `sIndex` on. -/
def fillRow (dIndex : Nat) : Nat → List (Option Cell) → List (Option Cell)
  | _, [] => []
  | sIndex, cell :: rest => fillCell dIndex sIndex cell :: fillRow dIndex (sIndex + 1) rest

/-- The fill step `days.forEach((day, dIndex) => ...)` of one course, from day index
`dIndex` on. -/
def fillDays (courseName : String) :
    Nat → List String → (String → String → List (Option Cell)) →
      String → String → List (Option Cell)
  | _, [], timetable => timetable
  | dIndex, day :: rest, timetable =>
    fillDays courseName (dIndex + 1) rest fun c d =>
      if c = courseName ∧ d = day then fillRow dIndex 0 (timetable courseName day)
      else timetable c d

/-- The expression `course.strength || course.studentStrength || 0`. -/
def courseStrengthOf (course : Course) : Nat :=
  match course.strength with
  | some (n + 1) => n + 1
  | _ =>
    match course.studentStrength with
    | some n => n
    | none => 0

/-- The row `Array(totalSlots).fill(null)` with the lunch break at index 4. -/
def emptyRow : List (Option Cell) :=
  (List.replicate totalSlots none).set 4 (some breakCell)

/-- The list `eligibleRooms` of a course: the rooms of `getEligibleRoomsForCourse`, or
the fallback list when there is none. -/
def eligibleRoomsOf (classrooms : List Classroom) (course : Course) : List Classroom :=
  if (getEligibleRoomsForCourse classrooms (courseStrengthOf course)).length = 0 then
    fallbackRooms classrooms (courseStrengthOf course)
  else getEligibleRoomsForCourse classrooms (courseStrengthOf course)

/-- The state before the loop over the subjects of a course: the grid and the summary of
the course are created, the subjects are shuffled (one random number), no room is
bound. -/
def courseStart (course : Course) (st : GenState) : GenState :=
  { st with
    timetable := fun c d =>
      if c = course.courseShortName then (if d ∈ days then emptyRow else [])
      else st.timetable c d
    subjectTeachers := fun c => if c = course.courseShortName then [] else st.subjectTeachers c
    draws := st.draws + 1
    assignedRoomForCourse := none
    assignedLabsForGroups := fun _ => none
    subjectNo := 0 }

/-- The state of a course after the loop over its subjects, before the fill step. -/
def beforeFill (rand : Nat → Nat) (teachers : List Teacher) (classrooms : List Classroom)
    (st : GenState) (course : Course) : GenState :=
  (shuffle (rand st.draws) course.subjects).foldl
    (scheduleSubject rand teachers classrooms course (eligibleRoomsOf classrooms course))
    (courseStart course st)

/-- The body of the loop `for (const course of courses)`: the subjects are scheduled,
then the fill step runs over the grid of the course. -/
def scheduleCourse (rand : Nat → Nat) (teachers : List Teacher) (classrooms : List Classroom)
    (st : GenState) (course : Course) : GenState :=
  { beforeFill rand teachers classrooms st course with
    timetable := fillDays course.courseShortName 0 days
      (beforeFill rand teachers classrooms st course).timetable
    courseNo := (beforeFill rand teachers classrooms st course).courseNo + 1 }

/-- The state at the start of `timetableGenerator`. -/
def initialState : GenState where
  timetable := fun _ _ => []
  subjectTeachers := fun _ => []
  roomSchedule := fun _ _ => []
  teacherSchedule := fun _ _ => []
  draws := 0
  assignedRoomForCourse := none
  assignedLabsForGroups := fun _ => none
  scheduled := 0
  perDayPlacement := fun _ => 0
  placements := []
  courseNo := 0
  subjectNo := 0

/-- `timetableGenerator(courses, subjects, teachers, classrooms)` for the random stream
`rand`.  The value returned by the source is the part `timetable`, `subjectTeachers` of
the final state, with the constants `days` and `slots`. -/
def timetableGenerator (rand : Nat → Nat) (courses : List Course) (_subjects : List Subject)
    (teachers : List Teacher) (classrooms : List Classroom) : GenState :=
  courses.foldl (scheduleCourse rand teachers classrooms) initialState

/-! ## The scheduler and the error of a time string

`normalizeTime` reads `str.split(':')` into `[h, m]` and calls `m.padStart`. For a string
without a colon `m` is `undefined` and the call raises a TypeError, which nothing in the
scheduler catches. The definitions of this section follow the same lines of the source as
those of the scheduler above and keep this error: `none` is a run that ends with it.
The time strings are read where `isTeacherAvailable` reads them, from the teacher as
written (`TeacherIn`). Everything else that the scheduler does with a teacher uses the
names and the assignments only; for these steps (the summary row, the cell, the
registries, the record of the placement) the definitions above are used with the teacher
given by `TeacherIn.read`, which has the same names and assignments. -/

/-- The `start` or `end` field of a time-off window as `isTeacherAvailable` reads it:
missing or empty (`absent`, the falsy values of the guard), a string without a colon such
as `'9'` (`noColon`), or a string `h:m` of two numbers (`clock`). -/
inductive TimeField where
  | absent
  | noColon
  | clock (t : TimeOfDay)
deriving DecidableEq, Repr

/-- One unavailability window of a teacher with its time fields as they are written. -/
structure TimeOffIn where
  day : Option String
  start : TimeField
  stop : TimeField
deriving DecidableEq, Repr

/-- A teacher with the time-off windows as they are written. -/
structure TeacherIn where
  shortName : String
  name : String
  assignments : List Assignment
  timeOff : Option (List TimeOffIn)
deriving DecidableEq, Repr

/-- The time of a field that holds a string `h:m`. -/
def TimeField.read : TimeField → Option TimeOfDay
  | .clock t => some t
  | _ => none

/-- The window with the times of the fields that hold a string `h:m`. -/
def TimeOffIn.read (off : TimeOffIn) : TimeOff :=
  ⟨off.day, off.start.read, off.stop.read⟩

/-- The teacher with the times of the fields that hold a string `h:m`. The names and the
assignments are the same. -/
def TeacherIn.read (t : TeacherIn) : Teacher :=
  ⟨t.shortName, t.name, t.assignments, t.timeOff.map fun offs => offs.map TimeOffIn.read⟩

/-- `timeToMinutes(time)`; `none` is the TypeError that `normalizeTime` raises for a
value that is missing, for the empty string and for a string without a colon. -/
def timeToMinutesE : TimeField → Option Nat
  | .clock t => some (timeToMinutes t)
  | _ => none

/-- The callback of `teacher.timeOff.some(...)` in `isTeacherAvailable`: the guard for the
missing fields, the test of the day, then `timeToMinutes(off.start)` and
`timeToMinutes(off.end)`. -/
def timeOffBlocksE (day : String) (slotStart slotEnd : Nat) (off : TimeOffIn) : Option Bool :=
  match off.day with
  | none => some false
  | some d =>
    if d = "" then some false
    else if off.start = .absent then some false
    else if off.stop = .absent then some false
    else if d ≠ day then some false
    else
      match timeToMinutesE off.start with
      | none => none
      | some offStart =>
        match timeToMinutesE off.stop with
        | none => none
        | some offEnd => some (decide (slotStart < offEnd) && decide (slotEnd > offStart))

/-- The call `array.some(f)` for a callback that can raise: the elements are tested in
order, up to the first for which `f` is true. -/
def someE {α : Type} (f : α → Option Bool) : List α → Option Bool
  | [] => some false
  | x :: xs =>
    match f x with
    | none => none
    | some true => some true
    | some false => someE f xs

/-- `isTeacherAvailable(teacher, day, slotTime)`. -/
def isTeacherAvailableE (teacher : Option TeacherIn) (day : String) (slotTime : SlotTime) :
    Option Bool :=
  match teacher with
  | none => some true
  | some t =>
    match t.timeOff with
    | none => some true
    | some offs =>
      if offs.length = 0 then some true
      else
        match someE (timeOffBlocksE day (timeToMinutes slotTime.start)
            (timeToMinutes slotTime.stop)) offs with
        | none => none
        | some b => some (!b)

/-- The value `teacherFree` of a lab attempt. The operator `&&` evaluates its right side
only when the left side is true. -/
def labTeacherFreeE (teacher : Option TeacherIn) (st : GenState) (day : String)
    (slot1 slot2 : Nat) : Option Bool :=
  match teacher with
  | none => some true
  | some t =>
    if (st.teacherSchedule day slot1).contains t.shortName then some false
    else if (st.teacherSchedule day slot2).contains t.shortName then some false
    else
      match isTeacherAvailableE (some t) day (slotTimeAt slot1) with
      | none => none
      | some false => some false
      | some true => isTeacherAvailableE (some t) day (slotTimeAt slot2)

/-- The body of the loop over `labSlotPairs` for one pair. The constant `teacherFree` is
computed after the room is chosen and before the test `roomFree && teacherFree`, also
when no room was found. `ctx`
holds the teacher as read by `TeacherIn.read`, `teacher` the teacher as written. -/
def tryLabPairE (ctx : Ctx) (teacher : Option TeacherIn) (day : String) (pair : Nat × Nat)
    (st : GenState) : Option (GenState × Bool) :=
  if isNull (st.timetable ctx.courseName day) pair.1 &&
      isNull (st.timetable ctx.courseName day) pair.2 then
    match chooseLabRoom ctx day pair.1 pair.2 st with
    | none =>
      match labTeacherFreeE teacher (afterLabChoice ctx day pair.1 pair.2 st) day pair.1
          pair.2 with
      | none => none
      | some _ => some (afterLabChoice ctx day pair.1 pair.2 st, false)
    | some room =>
      match labTeacherFreeE teacher (afterLabChoice ctx day pair.1 pair.2 st) day pair.1
          pair.2 with
      | none => none
      | some teacherFree =>
        if labRoomFree (afterLabChoice ctx day pair.1 pair.2 st) day pair.1 pair.2 room &&
            teacherFree then
          some (placeLab ctx day pair.1 pair.2 (labGroupOf st.scheduled) room
            (afterLabChoice ctx day pair.1 pair.2 st), true)
        else some (afterLabChoice ctx day pair.1 pair.2 st, false)
  else some (st, false)

/-- The loop `for (const [slot1, slot2] of labSlotPairs)`. -/
def tryLabPairsE (ctx : Ctx) (teacher : Option TeacherIn) (day : String) :
    List (Nat × Nat) → GenState → Option (GenState × Bool)
  | [], st => some (st, false)
  | pair :: rest, st =>
    match tryLabPairE ctx teacher day pair st with
    | none => none
    | some (st1, true) => some (st1, true)
    | some (st1, false) => tryLabPairsE ctx teacher day rest st1

/-- The value `teacherFree` of a lecture attempt. -/
def lectureTeacherFreeE (teacher : Option TeacherIn) (st : GenState) (day : String)
    (slot : Nat) : Option Bool :=
  match teacher with
  | none => some true
  | some t =>
    if (st.teacherSchedule day slot).contains t.shortName then some false
    else isTeacherAvailableE (some t) day (slotTimeAt slot)

/-- The body of the loop over `trySlots` for one slot. The constant `teacherFree` is
computed after the room is chosen and before the test `roomFree && teacherFree`, also
when no room was found. -/
def tryLectureSlotE (ctx : Ctx) (teacher : Option TeacherIn) (day : String) (slot : Nat)
    (st : GenState) : Option (GenState × Bool) :=
  if isNull (st.timetable ctx.courseName day) slot then
    match chooseLectureRoom ctx day slot (bindCourseRoom ctx st) with
    | none =>
      match lectureTeacherFreeE teacher (bindCourseRoom ctx st) day slot with
      | none => none
      | some _ => some (bindCourseRoom ctx st, false)
    | some room =>
      match lectureTeacherFreeE teacher (bindCourseRoom ctx st) day slot with
      | none => none
      | some teacherFree =>
        if !(((bindCourseRoom ctx st).roomSchedule day slot).contains room.roomNumber) &&
            teacherFree then
          some (placeLecture ctx day slot room (bindCourseRoom ctx st), true)
        else some (bindCourseRoom ctx st, false)
  else some (st, false)

/-- The loop `for (let i = 0; i < trySlots.length; i++)`. -/
def tryLectureSlotsE (ctx : Ctx) (teacher : Option TeacherIn) (day : String) :
    List Nat → GenState → Option (GenState × Bool)
  | [], st => some (st, false)
  | slot :: rest, st =>
    match tryLectureSlotE ctx teacher day slot st with
    | none => none
    | some (st1, true) => some (st1, true)
    | some (st1, false) => tryLectureSlotsE ctx teacher day rest st1

/-- The loop `for (const day of shuffledDays)`. -/
def tryDaysE (ctx : Ctx) (teacher : Option TeacherIn) :
    List String → GenState → Option (GenState × Bool)
  | [], st => some (st, false)
  | day :: rest, st =>
    if ctx.subject.isLab then
      match tryLabPairsE ctx teacher day labSlotPairs st with
      | none => none
      | some (st1, true) => some (st1, true)
      | some (st1, false) => tryDaysE ctx teacher rest st1
    else
      match tryLectureSlotsE ctx teacher day (firstHalfSlots ++ secondHalfSlots) st with
      | none => none
      | some (st1, true) => some (st1, true)
      | some (st1, false) => tryDaysE ctx teacher rest st1

/-- The loop `while (scheduled < requiredSessions)`, with the number of turns as for
`sessionLoop`. -/
def sessionLoopE (ctx : Ctx) (teacher : Option TeacherIn) : Nat → GenState → Option GenState
  | 0, st => some st
  | fuel + 1, st =>
    if st.scheduled < ctx.subject.count then
      let availableDays := days.filter fun day => decide (st.perDayPlacement day < 2)
      if availableDays.length = 0 then some st
      else
        let shuffledDays := shuffle (ctx.rand st.draws) availableDays
        match tryDaysE ctx teacher shuffledDays { st with draws := st.draws + 1 } with
        | none => none
        | some (st1, true) => sessionLoopE ctx teacher fuel st1
        | some (st1, false) => some st1
    else some st

/-- The lookup of the teacher assigned to a subject of a course. -/
def findTeacherIn (teachers : List TeacherIn) (course : Course) (subject : Subject) :
    Option TeacherIn :=
  teachers.find? fun t => t.assignments.any fun a =>
    decide (jsString a.course = jsString course.id) &&
    decide (jsString a.subject = jsString subject.id)

/-- The body of the loop `for (const subject of shuffledSubjects)`. -/
def scheduleSubjectE (rand : Nat → Nat) (teachers : List TeacherIn)
    (classrooms : List Classroom) (course : Course) (eligibleRooms : List Classroom)
    (st : GenState) (subject : Subject) : Option GenState :=
  match sessionLoopE
      (subjectCtx rand (teachers.map TeacherIn.read) classrooms course eligibleRooms subject)
      (findTeacherIn teachers course subject) subject.count
      (subjectStart (teachers.map TeacherIn.read) course subject st) with
  | none => none
  | some st1 => some { st1 with subjectNo := st1.subjectNo + 1 }

/-- The loop `for (const subject of shuffledSubjects)`. -/
def scheduleSubjectsE (rand : Nat → Nat) (teachers : List TeacherIn)
    (classrooms : List Classroom) (course : Course) (eligibleRooms : List Classroom) :
    List Subject → GenState → Option GenState
  | [], st => some st
  | subject :: rest, st =>
    match scheduleSubjectE rand teachers classrooms course eligibleRooms st subject with
    | none => none
    | some st1 => scheduleSubjectsE rand teachers classrooms course eligibleRooms rest st1

/-- The body of the loop `for (const course of courses)`. -/
def scheduleCourseE (rand : Nat → Nat) (teachers : List TeacherIn)
    (classrooms : List Classroom) (st : GenState) (course : Course) : Option GenState :=
  match scheduleSubjectsE rand teachers classrooms course (eligibleRoomsOf classrooms course)
      (shuffle (rand st.draws) course.subjects) (courseStart course st) with
  | none => none
  | some st1 =>
    some { st1 with
      timetable := fillDays course.courseShortName 0 days st1.timetable
      courseNo := st1.courseNo + 1 }

/-- The loop `for (const course of courses)`. -/
def scheduleCoursesE (rand : Nat → Nat) (teachers : List TeacherIn)
    (classrooms : List Classroom) : List Course → GenState → Option GenState
  | [], st => some st
  | course :: rest, st =>
    match scheduleCourseE rand teachers classrooms st course with
    | none => none
    | some st1 => scheduleCoursesE rand teachers classrooms rest st1

/-- `timetableGenerator(courses, subjects, teachers, classrooms)` for the random stream
`rand`; `none` when the call raises the TypeError of `normalizeTime`. -/
def timetableGeneratorE (rand : Nat → Nat) (courses : List Course) (_subjects : List Subject)
    (teachers : List TeacherIn) (classrooms : List Classroom) : Option GenState :=
  scheduleCoursesE rand teachers classrooms courses initialState

/-- No time field of the teacher is a string without a colon. -/
def wellTimed (t : TeacherIn) : Bool :=
  match t.timeOff with
  | none => true
  | some offs => offs.all fun off =>
      decide (off.start ≠ .noColon) && decide (off.stop ≠ .noColon)

/-! ## The grid editor (src/public/js/step6-editor.js)

The page is a list of tables, one per course; a table is a list of rows, one per day; a
row has a first cell with the name of the day and then the `td` elements of the slots.
Elements are mutable objects with an identity, so they live in a store indexed by
numbers and the rows hold the numbers.  An element that has been removed from its row
stays in the store.  Of an element the embedding keeps the two classes that the editor
tests, the data attributes, the `colspan` attribute, the three lines shown in the cell
and the two highlight classes; styles, the classes `lab-cell`, `ghost-cell` and
`drag-over`, and event handlers are left out. -/

/-- A `td` element. `dataColspan` and `attrColspan` are `none` when the attribute is
missing or empty; `dataIsLab` is the test `dataset.isLab === '1'`; `shown` holds the
room, subject and teacher lines of `innerHTML`. -/
structure Td where
  classCell : Bool
  classBreak : Bool
  course : String
  day : String
  slotIndex : Nat
  dataColspan : Option Nat
  subject : String
  teacher : String
  room : String
  dataIsLab : Bool
  attrColspan : Option Nat
  shown : Cell
  red : Bool
  orange : Bool
deriving DecidableEq, Repr

/-- The object returned by `getMeta`. -/
structure CellMeta where
  course : String
  day : String
  slotIndex : Nat
  colspan : Nat
  subject : String
  teacher : String
  room : String
  isLab : Bool
deriving DecidableEq, Repr

/-- A row of a table: the text of its first cell and its `td` elements. -/
structure Row where
  dayLabel : String
  cells : List Nat
deriving DecidableEq, Repr

/-- A timetable table with its `data-course` attribute. -/
structure Table where
  course : String
  rows : List Row
deriving DecidableEq, Repr

/-- The page and the variable `dragSrc`. `nextId` is the number of the next element
that `document.createElement` returns. -/
structure Dom where
  nodes : Nat → Option Td
  tables : List Table
  nextId : Nat
  dragSrc : Option Nat

/-- `isTTCell(td)`. -/
def isTTCell (td : Option Td) : Bool :=
  match td with
  | some t => t.classCell
  | none => false

/-- `isBreakCell(td)`. -/
def isBreakCell (td : Option Td) : Bool :=
  match td with
  | some t => t.classBreak
  | none => false

/-- `getMeta(td)`. -/
def getMeta (td : Td) : Option CellMeta :=
  if !td.classCell then none
  else some
    { course := td.course
      day := td.day
      slotIndex := td.slotIndex
      colspan := td.dataColspan.getD 1
      subject := td.subject
      teacher := td.teacher
      room := td.room
      isLab := td.dataIsLab || decide ((td.attrColspan.orElse fun _ => td.dataColspan).getD 1 = 2) }

/-- `getMeta` of the element with number `id`. -/
def metaOf (dom : Dom) (id : Nat) : Option CellMeta :=
  match dom.nodes id with
  | some td => getMeta td
  | none => none

/-- The expression `meta.colspan || 1`. -/
def colspanOr1 (n : Nat) : Nat :=
  if n = 0 then 1 else n

/-- `applyMetaToCell(td, meta)` on the element itself. -/
def applyMeta (td : Td) (m : CellMeta) : Td :=
  { td with
    shown := ⟨m.room, m.subject, m.teacher⟩
    course := m.course
    day := m.day
    slotIndex := m.slotIndex
    dataColspan := some (colspanOr1 m.colspan)
    subject := m.subject
    teacher := m.teacher
    room := m.room
    dataIsLab := m.isLab
    attrColspan := some (colspanOr1 m.colspan)
    classCell := true }

/-- `applyMetaToCell(td, meta)` for the element with number `id`. -/
def applyMetaToCell (dom : Dom) (id : Nat) (m : CellMeta) : Dom :=
  { dom with nodes := fun i =>
      if i = id then (dom.nodes id).map fun td => applyMeta td m else dom.nodes i }

/-- The element that `document.createElement('td')` returns. -/
def blankTd : Td :=
  { classCell := false, classBreak := false, course := "", day := "", slotIndex := 0,
    dataColspan := none, subject := "", teacher := "", room := "", dataIsLab := false,
    attrColspan := none, shown := ⟨"", "", ""⟩, red := false, orange := false }

/-- The element that `createLibraryCellFrom(refTd, slotIndex)` returns. -/
def libraryTd (refTd : Td) (slotIndex : Nat) : Td :=
  { blankTd with
    classCell := true
    course := refTd.course
    day := refTd.day
    slotIndex := slotIndex
    dataColspan := some 1
    subject := "Library"
    teacher := ""
    room := ""
    dataIsLab := false
    shown := ⟨"Library", "Library", ""⟩ }

/-- A new element is put into the store; its number is the old `nextId`. -/
def alloc (dom : Dom) (td : Td) : Dom :=
  { dom with
    nodes := fun i => if i = dom.nextId then some td else dom.nodes i
    nextId := dom.nextId + 1 }

/-- `tr.insertBefore(new, ref)` on the list of the elements of the row; `ref = none` is
`null` and appends. -/
def insertBefore (new : Nat) (ref : Option Nat) : List Nat → List Nat
  | [] => [new]
  | x :: xs => if some x = ref then new :: x :: xs else x :: insertBefore new ref xs

/-- `td.nextElementSibling` within the list of the elements of the row. -/
def nextSibling (id : Nat) : List Nat → Option Nat
  | [] => none
  | x :: xs => if x = id then xs.head? else nextSibling id xs

/-- `tr.removeChild(td)` on the list of the elements of the row. -/
def removeChild (id : Nat) (cells : List Nat) : List Nat :=
  cells.filter fun x => decide (x ≠ id)

/-- Is the element in a row of the page, that is `td.parentElement` is not `null`? -/
def attached (dom : Dom) (id : Nat) : Bool :=
  dom.tables.any fun t => t.rows.any fun r => r.cells.contains id

/-- The row of the element is replaced by `f` of it (the rows are those of
`td.parentElement`). -/
def modifyParent (dom : Dom) (id : Nat) (f : List Nat → List Nat) : Dom :=
  { dom with tables := dom.tables.map fun t =>
      { t with rows := t.rows.map fun r =>
          if r.cells.contains id then { r with cells := f r.cells } else r } }

/-- The three calls `tr.insertBefore(left, labTd); tr.insertBefore(right,
labTd.nextSibling); tr.removeChild(labTd)`. -/
def replaceByTwo (labTd left right : Nat) (cells : List Nat) : List Nat :=
  removeChild labTd
    (insertBefore right (nextSibling labTd (insertBefore left (some labTd) cells))
      (insertBefore left (some labTd) cells))

/-- `clearHighlights()`: the two highlight classes are removed from the elements of the
page. -/
def clearHighlights (dom : Dom) : Dom :=
  { dom with nodes := fun i =>
      if attached dom i then (dom.nodes i).map fun td => { td with red := false, orange := false }
      else dom.nodes i }

/-- `swapCells(a, b)`; `none` when `getMeta` of one of them is `null` and reading its
fields raises a TypeError. -/
def swapCells (dom : Dom) (a b : Nat) : Option Dom :=
  match metaOf dom a, metaOf dom b with
  | some am, some bm =>
    let dom1 := applyMetaToCell dom a
      { bm with day := am.day, slotIndex := am.slotIndex, course := am.course }
    some (applyMetaToCell dom1 b
      { am with day := bm.day, slotIndex := bm.slotIndex, course := bm.course })
  | _, _ => none

/-- `splitLabIntoTwoSinglesWithMeta(labTd, metaLeft, metaRight)`; `none` when `labTd` has
no parent and `tr.insertBefore` raises a TypeError (the two new elements are then in no
row, the page is unchanged). -/
def splitLabIntoTwoSinglesWithMeta (dom : Dom) (labTd : Nat) (metaLeft metaRight : CellMeta) :
    Option Dom :=
  if attached dom labTd then
    let dom1 := alloc dom (applyMeta blankTd { metaLeft with colspan := 1, isLab := false })
    let dom2 := alloc dom1 (applyMeta blankTd { metaRight with colspan := 1, isLab := false })
    some (modifyParent dom2 labTd (replaceByTwo labTd dom.nextId (dom.nextId + 1)))
  else none

/-- `splitLabIntoTwoLibraries(labTd)`; `none` when a TypeError is raised, because
`getMeta(labTd)` is `null` or `labTd` has no parent. -/
def splitLabIntoTwoLibraries (dom : Dom) (labTd : Nat) : Option Dom :=
  match dom.nodes labTd with
  | none => none
  | some td =>
    match getMeta td with
    | none => none
    | some m =>
      if attached dom labTd then
        let dom1 := alloc dom (libraryTd td m.slotIndex)
        let dom2 := alloc dom1 (libraryTd td (m.slotIndex + 1))
        some (modifyParent dom2 labTd (replaceByTwo labTd dom.nextId (dom.nextId + 1)))
      else none

/-- `splitLabIntoTwoSingles(labTd)`: the new page and the number of the element `left`
(`right` is the next number); `none` when a TypeError is raised. -/
def splitLabIntoTwoSingles (dom : Dom) (labTd : Nat) : Option (Dom × Nat) :=
  match dom.nodes labTd with
  | none => none
  | some td =>
    match getMeta td with
    | none => none
    | some m =>
      if attached dom labTd then
        let dom1 := alloc dom
          (applyMeta (libraryTd td m.slotIndex) { m with colspan := 1, isLab := false })
        let dom2 := alloc dom1 (libraryTd td (m.slotIndex + 1))
        some (modifyParent dom2 labTd (replaceByTwo labTd dom.nextId (dom.nextId + 1)),
          dom.nextId)
      else none

/-- How a call of a function of the editor ends: normally with the new page, or with a
TypeError raised at a page (changes made before the error stay). -/
inductive Run where
  | done (dom : Dom)
  | raised (dom : Dom)

/-- `mergeSinglesIntoLab(left, right, labMeta)`. The element `right` is in a row (it is
the next sibling of `left`), and `left` and `right` are timetable cells in every call of
the source; for other elements `getMeta` is `null` and the source goes on with empty
metadata, which the embedding does not follow (last branch). -/
def mergeSinglesIntoLab (dom : Dom) (left right : Nat) (labMeta : CellMeta) : Run :=
  match dom.nodes left, metaOf dom left, metaOf dom right with
  | some leftTd, some leftMeta, some rightMeta =>
    let dom1 := applyMetaToCell dom left
      { labMeta with
        day := leftTd.day, slotIndex := leftTd.slotIndex, course := leftTd.course,
        colspan := 2, isLab := true }
    let dom2 := modifyParent dom1 right (removeChild right)
    match dom2.dragSrc with
    | some src =>
      match splitLabIntoTwoSinglesWithMeta dom2 src leftMeta rightMeta with
      | some dom3 => Run.done dom3
      | none => Run.raised dom2
    | none => Run.done dom2
  | _, _, _ => Run.raised dom

/-- The call `.replace(/^ \/ /, '')`: a leading separator is removed. -/
def stripLead : List Char → List Char
  | ' ' :: '/' :: ' ' :: rest => rest
  | l => l

/-- The call `.replace(/ \/ $/, '')`: a trailing separator is removed. -/
def stripTrail (l : List Char) : List Char :=
  (stripLead l.reverse).reverse

/-- The expression of the MERGE case for the fields `room` and `teacher`: the two values
joined by the separator, then a leading and a trailing separator removed. -/
def joinStripped (a b : String) : String :=
  String.mk (stripTrail (stripLead (a ++ " / " ++ b).data))

/-- `target.nextElementSibling`: the next element in the row of `target`, `none` when
there is none. -/
def rightNeighbor (dom : Dom) (target : Nat) : Option Nat :=
  dom.tables.findSome? fun t => t.rows.findSome? fun r =>
    if r.cells.contains target then nextSibling target r.cells else none

/-- The answers that the user gives to the two `confirm` dialogs of `onDrop`: continue in
spite of a clash, and merge rather than exchange two labs. The text of the dialogs is not
modelled. -/
structure Answers where
  clash : Bool
  merge : Bool

/-- How `onDrop` ends. -/
inductive Outcome where
  | ignored
  | declined
  | rejected
  | merged
  | exchanged
  | labMoved
  | singleMoved
  | swapped
  | typeError
deriving DecidableEq, Repr

/-- `onDrop(e)` for `e.currentTarget = target`: the new page and how the call ends. -/
def onDrop (ans : Answers) (target : Nat) (dom : Dom) : Dom × Outcome :=
  match dom.dragSrc with
  | none => (clearHighlights dom, Outcome.ignored)
  | some src =>
    if src = target then (clearHighlights dom, Outcome.ignored)
    else if !isTTCell (dom.nodes target) then (clearHighlights dom, Outcome.ignored)
    else
      match metaOf dom src, metaOf dom target, dom.nodes target with
      | some srcMeta, some tgtMeta, some tgt =>
        if tgt.orange && !ans.clash then (clearHighlights dom, Outcome.declined)
        else if srcMeta.isLab && tgtMeta.isLab then
          if ans.merge then
            let dom1 := applyMetaToCell dom target
              { tgtMeta with
                subject := tgtMeta.subject ++ " / " ++ srcMeta.subject
                room := joinStripped tgtMeta.room srcMeta.room
                teacher := joinStripped tgtMeta.teacher srcMeta.teacher
                isLab := true
                colspan := 2 }
            match splitLabIntoTwoLibraries dom1 src with
            | some dom2 => (clearHighlights dom2, Outcome.merged)
            | none => (dom1, Outcome.typeError)
          else
            match swapCells dom src target with
            | some dom1 => (clearHighlights dom1, Outcome.exchanged)
            | none => (dom, Outcome.typeError)
        else if srcMeta.isLab && !tgtMeta.isLab then
          match rightNeighbor dom target with
          | none => (clearHighlights dom, Outcome.rejected)
          | some rightId =>
            if !isTTCell (dom.nodes rightId) then (clearHighlights dom, Outcome.rejected)
            else if !isTTCell (dom.nodes rightId) || tgt.classBreak ||
                isBreakCell (dom.nodes rightId) then
              (clearHighlights dom, Outcome.rejected)
            else
              match mergeSinglesIntoLab dom target rightId srcMeta with
              | Run.raised dom1 => (dom1, Outcome.typeError)
              | Run.done dom1 =>
                match splitLabIntoTwoLibraries dom1 src with
                | some dom2 => (clearHighlights dom2, Outcome.labMoved)
                | none => (dom1, Outcome.typeError)
        else if !srcMeta.isLab && tgtMeta.isLab then
          match splitLabIntoTwoSingles dom target with
          | none => (dom, Outcome.typeError)
          | some (dom1, newLeft) =>
            match metaOf dom1 newLeft with
            | none => (dom1, Outcome.typeError)
            | some leftOld =>
              let dom2 := applyMetaToCell dom1 newLeft
                { leftOld with
                  subject := srcMeta.subject, teacher := srcMeta.teacher, room := srcMeta.room,
                  colspan := 1, isLab := false }
              let dom3 := applyMetaToCell dom2 src
                { srcMeta with
                  subject := leftOld.subject, teacher := leftOld.teacher, room := leftOld.room,
                  colspan := 1, isLab := false }
              (clearHighlights dom3, Outcome.singleMoved)
        else
          match swapCells dom src target with
          | some dom1 => (clearHighlights dom1, Outcome.swapped)
          | none => (dom, Outcome.typeError)
      | _, _, _ => (dom, Outcome.typeError)

/-- The element without its two highlight classes. -/
def plain (td : Td) : Td :=
  { td with red := false, orange := false }

/-- The cells of the rows of the page as `getMeta` reads them, table by table and row
by row (`none` for a cell that is not a timetable cell, such as the Break cell). -/
def pageView (dom : Dom) : List (List (List (Option CellMeta))) :=
  dom.tables.map fun t => t.rows.map fun r => r.cells.map fun id => metaOf dom id

/-- What the browser guarantees about the page: an element is in a row at most once,
and the elements of the rows and of the store were created before `nextId`. -/
structure WellFormed (dom : Dom) : Prop where
  nodup : ∀ t ∈ dom.tables, ∀ r ∈ t.rows, r.cells.Nodup
  rows_lt : ∀ t ∈ dom.tables, ∀ r ∈ t.rows, ∀ id ∈ r.cells, id < dom.nextId
  nodes_lt : ∀ id, dom.nodes id ≠ none → id < dom.nextId

/-- The row in which the element `labTd` is replaced, at its place, by the two elements
`left` and `right`. -/
def substTwo (labTd left right : Nat) (cells : List Nat) : List Nat :=
  cells.flatMap fun id => if id = labTd then [left, right] else [id]

/-- Metadata as the editor writes it: the span is at least one, and a cell read with
span two is read as a lab. -/
def Regular (m : CellMeta) : Prop :=
  m.colspan ≠ 0 ∧ (m.colspan = 2 → m.isLab = true)

/-! ## The grid editor: conflict highlighting and serialization -/

/-- The characters that `String.prototype.trim` removes (WhiteSpace and LineTerminator of
the language standard). -/
def jsWhiteSpace (c : Char) : Bool :=
  [0x09, 0x0A, 0x0B, 0x0C, 0x0D, 0x20, 0xA0, 0x1680, 0x2000, 0x2001, 0x2002, 0x2003,
    0x2004, 0x2005, 0x2006, 0x2007, 0x2008, 0x2009, 0x200A, 0x2028, 0x2029, 0x202F,
    0x205F, 0x3000, 0xFEFF].contains c.toNat

/-- `s.trim()`. -/
def jsTrim (s : String) : String :=
  String.mk ((s.data.dropWhile jsWhiteSpace).reverse.dropWhile jsWhiteSpace).reverse

/-- `norm(s)` for a string: `s.trim().toLowerCase()`. The built-in `toLowerCase` of the
language, which lower-cases by the case table of Unicode, is a parameter of the embedding
of the editor: what is proved holds for every function in its place. -/
def norm (toLowerCase : String → String) (s : String) : String :=
  toLowerCase (jsTrim s)

/-- Lower-casing of the letters A to Z. On a string without cased letters outside ASCII
this is `toLowerCase`; it stands for it on the example pages, whose strings are ASCII. -/
def asciiLower (s : String) : String :=
  String.mk (s.data.map Char.toLower)

/-- Is the element in a row of the table? -/
def inTable (t : Table) (id : Nat) : Bool :=
  t.rows.any fun r => r.cells.contains id

/-- `findRowForDay(table, dayName)`: the first row whose first cell reads the day. -/
def findRowForDay (toLowerCase : String → String) (t : Table) (dayName : String) : Option Row :=
  t.rows.find? fun r => norm toLowerCase r.dayLabel == norm toLowerCase dayName

/-- `cellCoversSlot(td, slot)`. -/
def cellCoversSlot (td : Option Td) (slot : Nat) : Bool :=
  match td with
  | none => false
  | some t =>
    match getMeta t with
    | none => false
    | some m =>
      decide (slot ≥ m.slotIndex) && decide (slot ≤ m.slotIndex + colspanOr1 m.colspan - 1)

/-- The slots `slotIndex + s` for `s < (colspan || 1)` that a cell covers. -/
def slotsCovered (m : CellMeta) : List Nat :=
  (List.range (colspanOr1 m.colspan)).map fun s => m.slotIndex + s

/-- The test of the red pass of `onCellClick` for a cell of another table: `teacher` and
`room` are the normalized values of the selected cell. -/
def redMatch (toLowerCase : String → String) (teacher room : String) (td : Option Td) : Bool :=
  match td with
  | none => false
  | some t =>
    if t.classBreak || !t.classCell then false
    else
      match getMeta t with
      | none => false
      | some cm =>
        (teacher != "" && norm toLowerCase cm.teacher == teacher) ||
          (room != "" && norm toLowerCase cm.room == room)

/-- The `for` loop over the cells of a row of another table in the orange pass of
`onCellClick`: Break cells, cells that are no timetable cells and cells that do not cover
the slot are passed over, and the first other cell decides. -/
def busyInRow (toLowerCase : String → String) (dom : Dom) (teacher room : String) (isLab : Bool)
    (slot : Nat) :
    List Nat → Bool
  | [] => false
  | oc :: rest =>
    if isBreakCell (dom.nodes oc) || !isTTCell (dom.nodes oc) then
      busyInRow toLowerCase dom teacher room isLab slot rest
    else if !cellCoversSlot (dom.nodes oc) slot then
      busyInRow toLowerCase dom teacher room isLab slot rest
    else
      match metaOf dom oc with
      | none => false
      | some om =>
        (teacher != "" && norm toLowerCase om.teacher == teacher) ||
          (room != "" && norm toLowerCase om.room == room) || (isLab && om.isLab)

/-- The value `overlapsBusy` of the orange pass of `onCellClick` for a cell with metadata
`cm` of the selected table. -/
def overlapsBusy (toLowerCase : String → String) (dom : Dom) (otherTables : List Table)
    (teacher room : String)
    (isLab : Bool) (cm : CellMeta) : Bool :=
  (slotsCovered cm).any fun slot =>
    otherTables.any fun ot =>
      match findRowForDay toLowerCase ot cm.day with
      | none => false
      | some row => busyInRow toLowerCase dom teacher room isLab slot row.cells

/-- The class `highlight-red` is added to the elements for which `p` holds. -/
def addRed (dom : Dom) (p : Nat → Bool) : Dom :=
  { dom with nodes := fun i =>
      if (p i) then (dom.nodes i).map fun td => { td with red := true } else dom.nodes i }

/-- The class `highlight-orange` is added to the elements for which `p` holds. -/
def addOrange (dom : Dom) (p : Nat → Bool) : Dom :=
  { dom with nodes := fun i =>
      if (p i) then (dom.nodes i).map fun td => { td with orange := true } else dom.nodes i }

/-- The tables other than the table of the element `td`: an element is in one table
only, so these are the tables (`t !== table`) that do not hold `td`. -/
def otherTables (dom : Dom) (td : Nat) : List Table :=
  dom.tables.filter fun t => !inTable t td

/-- The red pass of `onCellClick` for the selected cell `td` with metadata `m`: in the
rows of the other tables the cells that match get the class `highlight-red`. -/
def redPass (toLowerCase : String → String) (dom : Dom) (td : Nat) (m : CellMeta) : Dom :=
  addRed dom fun i =>
    (otherTables dom td).any (fun ot => inTable ot i) &&
      redMatch toLowerCase (norm toLowerCase m.teacher) (norm toLowerCase m.room) (dom.nodes i)

/-- The orange pass of `onCellClick` for the selected cell `td` with metadata `m`: the
timetable cells of the table of `td` for which `overlapsBusy` holds get the class
`highlight-orange`. -/
def orangePass (toLowerCase : String → String) (dom : Dom) (td : Nat) (m : CellMeta) : Dom :=
  addOrange dom fun i =>
    dom.tables.any (fun t => inTable t td && inTable t i) &&
      isTTCell (dom.nodes i) &&
      match metaOf dom i with
      | none => false
      | some cm =>
        overlapsBusy toLowerCase dom (otherTables dom td) (norm toLowerCase m.teacher)
            (norm toLowerCase m.room) m.isLab cm

/-- `onCellClick(e)` for `e.currentTarget = td`; `none` when `getMeta(td)` is `null` and
reading its fields raises a TypeError. Nothing happens when `td` is in no table. -/
def onCellClick (toLowerCase : String → String) (dom : Dom) (td : Nat) : Option Dom :=
  if !attached dom td then some dom
  else
    let dom0 := clearHighlights dom
    match metaOf dom0 td with
    | none => none
    | some m =>
      let dom1 := redPass toLowerCase dom0 td m
      if norm toLowerCase m.teacher != "" || norm toLowerCase m.room != "" || m.isLab then
        some (orangePass toLowerCase dom1 td m)
      else some dom1

/-- The day array that `serializeTimetableFromDOM` builds for a row: one entry for the
Break cell and, for every other cell, as many entries with the data of the cell as
`parseInt` reads from its `colspan` attribute (1 when there is none). Of an entry the
embedding keeps the number of the element whose data it holds, `none` for the entry
`{subject: 'Break'}`. -/
def serializeRow (dom : Dom) (cells : List Nat) : List (Option Nat) :=
  cells.flatMap fun id =>
    match dom.nodes id with
    | none => []
    | some td =>
      if td.classBreak then [none]
      else List.replicate (td.attrColspan.getD 1) (some id)

/-- The two pages hold the same elements up to the highlight classes. -/
def SameCells (d1 d2 : Dom) : Prop :=
  ∀ i, (d1.nodes i).map plain = (d2.nodes i).map plain

/-- No element is in two tables of the page. -/
def Separate (dom : Dom) : Prop :=
  dom.tables.Pairwise fun t1 t2 => ∀ x, inTable t1 x = true → inTable t2 x = false

/-- The first cell of a row of another table that the orange pass of `onCellClick`
examines for a slot: the first timetable cell that is no Break cell and covers the slot. -/
def firstCovering (dom : Dom) (slot : Nat) (cells : List Nat) : Option Nat :=
  cells.find? fun oc =>
    !(isBreakCell (dom.nodes oc) || !isTTCell (dom.nodes oc)) &&
      cellCoversSlot (dom.nodes oc) slot
/-- The highlight classes (red, orange) of the elements `0` to `n - 1` after a call of
`onCellClick`. -/
def flagsAfter (dom : Option Dom) (n : Nat) : List (Option (Bool × Bool)) :=
  match dom with
  | none => []
  | some d => (List.range n).map fun i => (d.nodes i).map fun td => (td.red, td.orange)
/-- The rule of claim C16 in the words of the specification, for the selected cell `c` on
day `d` and a cell `c2` of its table: the slots of `c2` overlap, on day `d`, the slots of
a cell of another table that has the teacher of `c`, or the room of `c`, or is a lab when
`c2` is a lab. -/
def orangeAsStated (toLowerCase : String → String) (dom : Dom) (c c2 : Nat) : Bool :=
  match metaOf dom c, metaOf dom c2 with
  | some m, some m2 =>
    (norm toLowerCase m2.day == norm toLowerCase m.day) &&
    (otherTables dom c).any fun ot => ot.rows.any fun row =>
      (norm toLowerCase row.dayLabel == norm toLowerCase m.day) && row.cells.any fun oc =>
        match metaOf dom oc with
        | none => false
        | some om =>
          (slotsCovered m2).any (fun s => (slotsCovered om).contains s) &&
            ((norm toLowerCase om.teacher == norm toLowerCase m.teacher) ||
                (norm toLowerCase om.room == norm toLowerCase m.room) ||
              (m2.isLab && om.isLab))
  | _, _ => false

/-- The number of slots that an element of a row covers: `colspan || 1` of its metadata
for a timetable cell, one for the Break cell. -/
def spanOf (dom : Dom) (id : Nat) : Nat :=
  match metaOf dom id with
  | some m => colspanOr1 m.colspan
  | none => 1

/-- The positional invariant for the cells of a row from the slot `k` on: a timetable cell
records the course of the table, the day of the row (as `findRowForDay` compares days) and,
as its slot index, the number of slots covered by the cells before it. -/
def positionedRow (toLowerCase : String → String) (dom : Dom) (course dayLabel : String) : Nat →
    List Nat → Bool
  | _, [] => true
  | k, id :: rest =>
    (match metaOf dom id with
      | some m =>
        decide (m.course = course) && decide (norm toLowerCase m.day = norm toLowerCase dayLabel) &&
          decide (m.slotIndex = k)
      | none => true) &&
    positionedRow toLowerCase dom course dayLabel (k + spanOf dom id) rest

/-- The positional invariant of the page. -/
def positioned (toLowerCase : String → String) (dom : Dom) : Bool :=
  dom.tables.all fun t => t.rows.all fun r => positionedRow toLowerCase dom t.course r.dayLabel 0 r.cells

/-- The room of every recorded lecture is one of the rooms that `timetableGenerator`
computes for a course of `courses` with the short name of the lecture. -/
def LectureRoomsOf (classrooms : List Classroom) (courses : List Course) (st : GenState) :
    Prop :=
  ∀ p ∈ st.placements, p.labPair = none →
    ∃ course ∈ courses, p.course = course.courseShortName ∧
      p.room ∈ eligibleRoomsOf classrooms course

/-! ## Predicates used in the statements about the scheduler -/

/-- The checks that guard the success branch of a lab attempt, as facts about the state
in which the lab is placed. -/
structure LabGuard (ctx : Ctx) (day : String) (slot1 slot2 : Nat) (room : Classroom)
    (st : GenState) : Prop where
  day_mem : day ∈ days
  null1 : isNull (st.timetable ctx.courseName day) slot1 = true
  null2 : isNull (st.timetable ctx.courseName day) slot2 = true
  room1 : room.roomNumber ∉ st.roomSchedule day slot1
  room2 : room.roomNumber ∉ st.roomSchedule day slot2
  teacher : ∀ t, ctx.teacher = some t →
    t.shortName ∉ st.teacherSchedule day slot1 ∧ t.shortName ∉ st.teacherSchedule day slot2 ∧
    isTeacherAvailable (some t) day (slotTimeAt slot1) = true ∧
    isTeacherAvailable (some t) day (slotTimeAt slot2) = true
  room_mem : room ∈ labsOf ctx.classrooms

/-- The checks that guard the success branch of a lecture attempt. -/
structure LectureGuard (ctx : Ctx) (day : String) (slot : Nat) (room : Classroom)
    (st : GenState) : Prop where
  day_mem : day ∈ days
  null : isNull (st.timetable ctx.courseName day) slot = true
  room_mem : room ∈ ctx.eligibleRooms
  room : room.roomNumber ∉ st.roomSchedule day slot
  teacher : ∀ t, ctx.teacher = some t →
    t.shortName ∉ st.teacherSchedule day slot ∧
    isTeacherAvailable (some t) day (slotTimeAt slot) = true

/-- Two states that differ at most in the number of random draws and in the room
bindings (`assignedRoomForCourse`, `assignedLabsForGroups`). -/
structure Tweak (st st1 : GenState) : Prop where
  timetable : st1.timetable = st.timetable
  subjectTeachers : st1.subjectTeachers = st.subjectTeachers
  roomSchedule : st1.roomSchedule = st.roomSchedule
  teacherSchedule : st1.teacherSchedule = st.teacherSchedule
  scheduled : st1.scheduled = st.scheduled
  perDayPlacement : st1.perDayPlacement = st.perDayPlacement
  placements : st1.placements = st.placements
  courseNo : st1.courseNo = st.courseNo
  subjectNo : st1.subjectNo = st.subjectNo

/-- A property of the state that every step of the placement loops keeps: it does not
depend on the draws and the bindings, and both success branches keep it when their
checks hold. -/
structure StepClosed (ctx : Ctx) (P : GenState → Prop) : Prop where
  frame : ∀ st st1, Tweak st st1 → P st → P st1
  lab : ∀ st day pair group room, pair ∈ labSlotPairs →
    LabGuard ctx day pair.1 pair.2 room st → P st →
    P (placeLab ctx day pair.1 pair.2 group room st)
  lecture : ∀ st day slot room, slot ∈ firstHalfSlots ++ secondHalfSlots →
    LectureGuard ctx day slot room st → P st → P (placeLecture ctx day slot room st)

/-- Two placements are apart when, if they are at the same day and slot, they use
different room numbers and, if both subjects have a teacher, different teacher short
names. -/
def Apart (p q : Placement) : Prop :=
  p.day = q.day → p.slot = q.slot →
    p.room.roomNumber ≠ q.room.roomNumber ∧
    ∀ t u, p.teacher = some t → q.teacher = some u → t.shortName ≠ u.shortName

/-- What the record of a placement says about its own fields. -/
structure WellPlaced (p : Placement) : Prop where
  day_mem : p.day ∈ days
  slot_mem : p.slot ∈ firstHalfSlots ++ secondHalfSlots
  room : p.cell.room = roomLabel p.room
  teacher : p.cell.teacher = teacherLabel p.teacher
  lecture : p.labPair = none → p.cell.subject = p.subject.shortName
  lab : ∀ a b, p.labPair = some (a, b) → (a, b) ∈ labSlotPairs ∧ (p.slot = a ∨ p.slot = b)

/-- The invariant of a run that ties the registries and the grids to the placements
made so far. -/
structure Inv (st : GenState) : Prop where
  roomIn : ∀ p ∈ st.placements, p.room.roomNumber ∈ st.roomSchedule p.day p.slot
  teacherIn : ∀ p ∈ st.placements, ∀ t, p.teacher = some t →
    t.shortName ∈ st.teacherSchedule p.day p.slot
  roomFrom : ∀ d s x, x ∈ st.roomSchedule d s →
    ∃ p ∈ st.placements, p.day = d ∧ p.slot = s ∧ p.room.roomNumber = x
  teacherFrom : ∀ d s x, x ∈ st.teacherSchedule d s →
    ∃ p ∈ st.placements, p.day = d ∧ p.slot = s ∧ ∃ t, p.teacher = some t ∧ t.shortName = x
  distinct : st.placements.Pairwise Apart
  avail : ∀ p ∈ st.placements, ∀ t, p.teacher = some t →
    isTeacherAvailable (some t) p.day (slotTimeAt p.slot) = true
  wellPlaced : ∀ p ∈ st.placements, WellPlaced p
  origin : ∀ c d s cell, (st.timetable c d)[s]? = some (some cell) →
    (s = 4 ∧ cell = breakCell) ∨ cell = libraryCell ∨
    ∃ p ∈ st.placements, p.course = c ∧ p.day = d ∧ p.slot = s ∧ p.cell = cell

/-- A property of the grids, the registries, the placements and the number of the
course that the scheduling of the subjects of the course named `courseName` keeps. -/
structure CoreClosed (courseName : String) (P : GenState → Prop) : Prop where
  congr : ∀ st st1 : GenState, st1.timetable = st.timetable →
    st1.roomSchedule = st.roomSchedule → st1.teacherSchedule = st.teacherSchedule →
    st1.placements = st.placements → st1.courseNo = st.courseNo → P st → P st1
  lab : ∀ ctx : Ctx, ctx.courseName = courseName →
    ∀ st day pair group room, pair ∈ labSlotPairs →
    LabGuard ctx day pair.1 pair.2 room st → P st →
    P (placeLab ctx day pair.1 pair.2 group room st)
  lecture : ∀ ctx : Ctx, ctx.courseName = courseName →
    ∀ st day slot room, slot ∈ firstHalfSlots ++ secondHalfSlots →
    LectureGuard ctx day slot room st → P st → P (placeLecture ctx day slot room st)

/-- The effect of a success branch on the grids: the placements `news` are recorded,
each of them is written into a position of the grid of `courseName` that was `null`, and
every other position of every grid is as before. -/
structure Written (courseName : String) (st st1 : GenState) (news : List Placement) :
    Prop where
  placements : st1.placements = st.placements ++ news
  courseNo : st1.courseNo = st.courseNo
  course : ∀ q ∈ news, q.course = courseName
  number : ∀ q ∈ news, q.courseNo = st.courseNo
  slot : ∀ q ∈ news, q.slot ∈ firstHalfSlots ++ secondHalfSlots
  wasNull : ∀ q ∈ news, (st.timetable courseName q.day)[q.slot]? = some none
  written : ∀ q ∈ news, (st1.timetable courseName q.day)[q.slot]? = some (some q.cell)
  partner : ∀ q ∈ news, ∀ a b, q.labPair = some (a, b) →
    (st1.timetable courseName q.day)[a]? = some (some q.cell) ∧
    (st1.timetable courseName q.day)[b]? = some (some q.cell)
  kept : ∀ c d i, (¬ ∃ q ∈ news, c = courseName ∧ q.day = d ∧ q.slot = i) →
    (st1.timetable c d)[i]? = (st.timetable c d)[i]?
  length : ∀ c d, (st1.timetable c d).length = (st.timetable c d).length

/-- The grid of `course` has, on each day, 9 positions and the Break marker at index 4. -/
def Shape (course : String) (st : GenState) : Prop :=
  ∀ d ∈ days, (st.timetable course d).length = 9 ∧
    (st.timetable course d)[4]? = some (some breakCell)

/-- The grid of `course` has the shape of a finished grid: 9 positions on each day, the
Break marker at index 4, a cell at every position. -/
def Filled (course : String) (st : GenState) : Prop :=
  ∀ d ∈ days, (st.timetable course d).length = 9 ∧
    (st.timetable course d)[4]? = some (some breakCell) ∧
    ∀ i, i < 9 → ∃ cell, (st.timetable course d)[i]? = some (some cell)

/-- The placement `p` is in its grid: its position holds its cell, and for a lab both
positions of its pair hold its cell. -/
def LiveAt (st : GenState) (p : Placement) : Prop :=
  (st.timetable p.course p.day)[p.slot]? = some (some p.cell) ∧
  ∀ a b, p.labPair = some (a, b) →
    (st.timetable p.course p.day)[a]? = some (some p.cell) ∧
    (st.timetable p.course p.day)[b]? = some (some p.cell)

/-- The grid into which `p` was written is returned: among the courses with the short
names `names`, in the order of the input, none after the course of `p` has the short
name of the course of `p` (a later course with the same short name replaces the grid,
since the grids are kept by short name). -/
def Returned (names : List String) (p : Placement) : Prop :=
  ∀ j, p.courseNo < j → names[j]? ≠ some p.course

/-- The placements made for the courses `done` and for the course `name` that is being
scheduled carry the number and the short name of their course. -/
def Numbered (done : List String) (name : String) (st : GenState) : Prop :=
  st.courseNo = done.length ∧
  ∀ p ∈ st.placements,
    (p.courseNo < done.length ∧ done[p.courseNo]? = some p.course) ∨
    (p.courseNo = done.length ∧ p.course = name)

/-- After the courses `done`: the placements carry the number and the short name of
their course, and those whose grid has not been replaced are in their grid. -/
def Kept (done : List String) (st : GenState) : Prop :=
  st.courseNo = done.length ∧
  (∀ p ∈ st.placements, p.courseNo < done.length ∧ done[p.courseNo]? = some p.course) ∧
  ∀ p ∈ st.placements, Returned done p → LiveAt st p

/-- The cell that a lecture attempt of the subject of `ctx` writes for the room `r`. -/
def lectureCell (ctx : Ctx) (r : Classroom) : Cell :=
  ⟨roomLabel r, ctx.subject.shortName, teacherLabel ctx.teacher⟩

/-- The number of positions of the grid of `course` that hold `cell`, over the five
days. -/
def countCells (st : GenState) (course : String) (cell : Cell) : Nat :=
  (days.map fun d => (st.timetable course d).count (some cell)).sum

/-- The state of a run in which only the lecture subject of `ctx` has been placed so
far, always in the room `r`: every position of the grid is empty or holds the cell of the
subject, the counters agree with the grid, and the registries are empty wherever the
grid is. -/
structure LectureRun (ctx : Ctx) (r : Classroom) (st : GenState) : Prop where
  rows : ∀ d ∈ days, (st.timetable ctx.courseName d).length = 9 ∧
    (st.timetable ctx.courseName d)[4]? = some (some breakCell) ∧
    ∀ i, i < 9 → i ≠ 4 →
      (st.timetable ctx.courseName d)[i]? = some none ∨
      (st.timetable ctx.courseName d)[i]? = some (some (lectureCell ctx r))
  perDay : ∀ d ∈ days,
    st.perDayPlacement d = (st.timetable ctx.courseName d).count (some (lectureCell ctx r)) ∧
    st.perDayPlacement d ≤ 2
  sched : st.scheduled = (days.map st.perDayPlacement).sum
  free : ∀ d s, isNull (st.timetable ctx.courseName d) s = true →
    st.roomSchedule d s = [] ∧ st.teacherSchedule d s = []
  assigned : st.assignedRoomForCourse = none ∨ st.assignedRoomForCourse = some r.roomNumber
  placed : st.placements.length = st.scheduled ∧
    ∀ p ∈ st.placements, p.room = r ∧ p.cell = lectureCell ctx r

/-- What the flag returned by a placement loop says about `scheduled`: without a
placement it is unchanged, with a placement it has grown. -/
def Progress (st : GenState) (res : GenState × Bool) : Prop :=
  (res.2 = false ∧ res.1.scheduled = st.scheduled) ∨
  (res.2 = true ∧ st.scheduled < res.1.scheduled)

/-- The placements of a run made at `day` and `slot`. -/
def placementsAt (ps : List Placement) (day : String) (slot : Nat) : List Placement :=
  ps.filter fun p => decide (p.day = day) && decide (p.slot = slot)

/-- The cell at `slot` of the grid of `course` on `day`, when the position holds one. -/
def cellAt (st : GenState) (course day : String) (slot : Nat) : Option Cell :=
  match (st.timetable course day)[slot]? with
  | some (some cell) => some cell
  | _ => none

/-- The property of the specification, as it is written: two cells other than the Break
marker found at the same day and slot in the grids of two different courses share
neither a non-empty teacher label nor a non-empty room label. -/
def NoSharedLabel (st : GenState) : Prop :=
  ∀ (c1 c2 d : String) (s : Nat) (x y : Cell), c1 ≠ c2 →
    cellAt st c1 d s = some x → cellAt st c2 d s = some y →
    x ≠ breakCell → y ≠ breakCell →
    ¬ (x.teacher ≠ "" ∧ x.teacher = y.teacher) ∧ ¬ (x.room ≠ "" ∧ x.room = y.room)

/-- The rooms of the recorded placements come from the lists that the scheduler reads: the
room of a lecture is an eligible room or a fallback room for some strength, the room of a
lab is a lab of the input. -/
def RoomsFrom (classrooms : List Classroom) (st : GenState) : Prop :=
  ∀ p ∈ st.placements,
    (p.labPair = none →
      ∃ n, p.room ∈ getEligibleRoomsForCourse classrooms n ∨ p.room ∈ fallbackRooms classrooms n) ∧
    (p.labPair ≠ none → p.room ∈ labsOf classrooms)

/-- The row that `subjectTeachers[courseName].push(...)` adds for a subject. -/
def summaryRowOf (teachers : List Teacher) (course : Course) (subject : Subject) : SummaryRow :=
  ⟨subject.shortName, subject.fullName, teacherLabel (findTeacher teachers course subject),
    teacherLongLabel (findTeacher teachers course subject)⟩

/-- A property of the state that every turn of the `while` loop of a subject keeps: like
`StepClosed`, but the success branches need keep it only where the loops reach them, that
is for a day with fewer than two placements of the subject, while sessions are missing,
and in the branch of the kind of the subject. -/
structure TurnClosed (ctx : Ctx) (P : GenState → Prop) : Prop where
  frame : ∀ st st1, Tweak st st1 → P st → P st1
  lab : ∀ st day pair group room, pair ∈ labSlotPairs →
    LabGuard ctx day pair.1 pair.2 room st → ctx.subject.isLab = true →
    st.perDayPlacement day < 2 → st.scheduled < ctx.subject.count → P st →
    P (placeLab ctx day pair.1 pair.2 group room st)
  lecture : ∀ st day slot room, slot ∈ firstHalfSlots ++ secondHalfSlots →
    LectureGuard ctx day slot room st → ctx.subject.isLab = false →
    st.perDayPlacement day < 2 → st.scheduled < ctx.subject.count → P st →
    P (placeLecture ctx day slot room st)

/-- The number of positions recorded for the subject number `sn` of the course number `cn`
on the day `d`. -/
def tallyDay (st : GenState) (cn sn : Nat) (d : String) : Nat :=
  st.placements.countP fun p =>
    decide (p.courseNo = cn) && decide (p.subjectNo = sn) && decide (p.day = d)

/-- The number of positions recorded for the subject number `sn` of the course number
`cn` over the week. -/
def tally (st : GenState) (cn sn : Nat) : Nat :=
  st.placements.countP fun p => decide (p.courseNo = cn) && decide (p.subjectNo = sn)

/-- The bound on the positions recorded for the subject of the placement `p`: the
required sessions for a lecture subject; for a lab subject, which is placed two positions
at a time, an even number below the required sessions plus two. -/
def Bounded (st : GenState) (p : Placement) : Prop :=
  (p.subject.isLab = false → tally st p.courseNo p.subjectNo ≤ p.subject.count) ∧
  (p.subject.isLab = true →
    tally st p.courseNo p.subjectNo ≤ p.subject.count + 1 ∧
    tally st p.courseNo p.subjectNo % 2 = 0)

/-- The counters of the subject that is being scheduled agree with the record, and the
subjects scheduled before keep their bounds. -/
structure Tally (ctx : Ctx) (st : GenState) : Prop where
  perDay : ∀ cn sn d, tallyDay st cn sn d ≤ 2
  today : ∀ d, tallyDay st st.courseNo st.subjectNo d = st.perDayPlacement d
  labDay : ctx.subject.isLab = true → ∀ d, st.perDayPlacement d ≠ 1
  total : tally st st.courseNo st.subjectNo = st.scheduled
  lecture : ctx.subject.isLab = false → st.scheduled ≤ ctx.subject.count
  lab : ctx.subject.isLab = true →
    st.scheduled ≤ ctx.subject.count + 1 ∧ st.scheduled % 2 = 0
  own : ∀ p ∈ st.placements, p.courseNo = st.courseNo → p.subjectNo = st.subjectNo →
    p.subject = ctx.subject
  past : ∀ p ∈ st.placements, (p.courseNo ≠ st.courseNo ∨ p.subjectNo ≠ st.subjectNo) →
    Bounded st p
  order : ∀ p ∈ st.placements,
    p.courseNo < st.courseNo ∨ (p.courseNo = st.courseNo ∧ p.subjectNo ≤ st.subjectNo)

/-- Between two subjects: every recorded subject keeps its bounds and was scheduled
before the subject that comes next. -/
structure Tallied (st : GenState) : Prop where
  perDay : ∀ cn sn d, tallyDay st cn sn d ≤ 2
  bounded : ∀ p ∈ st.placements, Bounded st p
  order : ∀ p ∈ st.placements,
    p.courseNo < st.courseNo ∨ (p.courseNo = st.courseNo ∧ p.subjectNo < st.subjectNo)

/-! ## Inputs of the examples -/

/-- Two class rooms whose labels coincide although their numbers differ. -/
def exampleRooms : List Classroom :=
  [⟨"A", "B, C", "class", some ⟨some 0, some 100, some 100⟩, none⟩,
   ⟨"A, B", "C", "class", some ⟨some 0, some 100, some 100⟩, none⟩]

/-- Two courses with one lecture subject each and no teacher. -/
def exampleCourses : List Course :=
  [⟨some "c1", "CS1", some 60, none, [⟨some "s1", "Maths", "Mathematics", false, 1, none⟩]⟩,
   ⟨some "c2", "CS2", some 50, none, [⟨some "s2", "Physics", "Physics", false, 1, none⟩]⟩]

/-- A teacher of the subject `s1` of the course `c1`, away on Monday morning. -/
def exampleTeacher : Teacher :=
  ⟨"DS", "Dr. Smith", [⟨some "c1", some "s1"⟩],
    some [⟨some "Monday", some ⟨9, 0⟩, some ⟨10, 30⟩⟩]⟩

/-- The random stream of the examples: every order is the order of the input. -/
def exampleRand : Nat → Nat := fun _ => 0

/-- A lab room. -/
def exampleLab : Classroom := ⟨"L1", "Block", "lab", none, none⟩

/-- A course with one lab subject of two sessions. -/
def exampleLabCourses : List Course :=
  [⟨some "c3", "CS3", some 30, none, [⟨some "s3", "Chem", "Chemistry", true, 2, none⟩]⟩]

/-- The record of the first slot of the lab placed in the run of `exampleLabCourses`. -/
def exampleLabPlacement : Placement :=
  ⟨0, "CS3", 0, ⟨some "s3", "Chem", "Chemistry", true, 2, none⟩, none, "Monday", 0, exampleLab,
    some (0, 1), ⟨"L1, Block", "Chem (Lab-1 (G1))", "TBA"⟩⟩

/-- Scenario 1 of the specification: the room R1 with capacity 40-80. -/
def scenarioRoom : Classroom := ⟨"R1", "Main", "class", some ⟨some 40, some 80, some 80⟩, none⟩

/-- Scenario 1 of the specification: the lecture subject Maths with 3 sessions. -/
def scenarioSubject : Subject := ⟨some "s1", "Maths", "Mathematics", false, 3, none⟩

/-- Scenario 1 of the specification: the course CS1 of strength 60. -/
def scenarioCourse : Course := ⟨some "c1", "CS1", some 60, none, [scenarioSubject]⟩

/-- A random stream that changes the order of the days from turn to turn. -/
def scenarioRand : Nat → Nat := fun n => 7 * n + 3

/-- A single cell of the page as `applyMetaToCell` leaves it. -/
def singleTd (course day : String) (slotIndex : Nat) (subject teacher room : String) : Td :=
  { classCell := true, classBreak := false, course := course, day := day,
    slotIndex := slotIndex, dataColspan := some 1, subject := subject, teacher := teacher,
    room := room, dataIsLab := false, attrColspan := some 1,
    shown := ⟨room, subject, teacher⟩, red := false, orange := false }

/-- A lab cell of the page, spanning two slots. -/
def labTd (course day : String) (slotIndex : Nat) (subject teacher room : String) : Td :=
  { classCell := true, classBreak := false, course := course, day := day,
    slotIndex := slotIndex, dataColspan := some 2, subject := subject, teacher := teacher,
    room := room, dataIsLab := true, attrColspan := some 2,
    shown := ⟨room, subject, teacher⟩, red := false, orange := false }

/-- The Break cell of a row. -/
def breakTd : Td :=
  { blankTd with classBreak := true, shown := ⟨"", "Break", ""⟩ }

/-- A page with one table and one row: two single cells, a lab, the Break cell and a
single cell; the lab is being dragged. -/
def examplePage : Dom :=
  { nodes := fun i =>
      if i = 0 then some (singleTd "CS1" "Monday" 0 "Maths" "T2" "R1")
      else if i = 1 then some (singleTd "CS1" "Monday" 1 "Eng" "T3" "R1")
      else if i = 2 then some (labTd "CS1" "Monday" 2 "Chem Lab" "T4" "L1")
      else if i = 3 then some breakTd
      else if i = 4 then some (singleTd "CS1" "Monday" 5 "Phy" "T1" "R2")
      else none
    tables := [⟨"CS1", [⟨"Monday", [0, 1, 2, 3, 4]⟩]⟩]
    nextId := 5
    dragSrc := some 2 }

/-- A page with one row in which a single cell stands right before the Break cell; the
lab of the row is being dragged. -/
def examplePage3 : Dom :=
  { nodes := fun i =>
      if i = 0 then some (labTd "CS1" "Monday" 0 "Chem Lab" "T4" "L1")
      else if i = 1 then some (singleTd "CS1" "Monday" 2 "Maths" "T2" "R1")
      else if i = 2 then some (singleTd "CS1" "Monday" 3 "Eng" "T3" "R1")
      else if i = 3 then some breakTd
      else none
    tables := [⟨"CS1", [⟨"Monday", [0, 1, 2, 3]⟩]⟩]
    nextId := 4
    dragSrc := some 0 }

/-- The example page with the last single cell (Phy, T1) being dragged. -/
def examplePage2 : Dom :=
  { examplePage with dragSrc := some 4 }

/-- The placement of the lecture of `exampleTeacher` in the run of the examples. -/
def examplePlacement : Placement :=
  ⟨0, "CS1", 0, ⟨some "s1", "Maths", "Mathematics", false, 1, none⟩, some exampleTeacher,
    "Monday", 2, ⟨"A", "B, C", "class", some ⟨some 0, some 100, some 100⟩, none⟩, none,
    ⟨"A, B, C", "Maths", "DS"⟩⟩


/-- The example page with no element being dragged. -/
def examplePageIdle : Dom :=
  { examplePage with dragSrc := none }

/-- A page with the tables of two courses. The first has the row of Monday: a single cell
of Dr. Smith, a single cell, a lab and the Break cell. The second has the rows of Monday
and Tuesday with a cell of Dr. Smith each, written differently, and a lab on Monday at
the slots of the lab of the first table. -/
def examplePages : Dom :=
  { nodes := fun i =>
      if i = 0 then some (singleTd "CS1" "Monday" 0 "Maths" "Dr. Smith" "R1")
      else if i = 1 then some (singleTd "CS1" "Monday" 1 "Eng" "T3" "R1")
      else if i = 2 then some (labTd "CS1" "Monday" 2 "Chem Lab" "T4" "L1")
      else if i = 3 then some breakTd
      else if i = 4 then some (singleTd "CS2" "Monday" 0 "Phy" " dr. SMITH " "R2")
      else if i = 5 then some (singleTd "CS2" "Monday" 1 "Bio" "T5" "R3")
      else if i = 6 then some (labTd "CS2" "Monday" 2 "Phy Lab" "T6" "L2")
      else if i = 7 then some breakTd
      else if i = 8 then some (singleTd "CS2" "Tuesday" 5 "Stat" "DR. SMITH" "R4")
      else none
    tables := [⟨"CS1", [⟨"Monday", [0, 1, 2, 3]⟩]⟩,
      ⟨"CS2", [⟨"Monday", [4, 5, 6, 7]⟩, ⟨"Tuesday", [8]⟩]⟩]
    nextId := 9
    dragSrc := none }

/-- A page with one row of two labs and the Break cell; the second lab has no subject and
no teacher and is being dragged. -/
def examplePageLabs : Dom :=
  { nodes := fun i =>
      if i = 0 then some (labTd "CS1" "Monday" 0 "Chem Lab" "T4" "L1")
      else if i = 1 then some (labTd "CS1" "Monday" 2 "" "" "L2")
      else if i = 2 then some breakTd
      else none
    tables := [⟨"CS1", [⟨"Monday", [0, 1, 2]⟩]⟩]
    nextId := 3
    dragSrc := some 1 }

/-- Scenario 4 of the specification: the Physics labs L1 and L2 and the Chemistry lab
L3. -/
def scenarioLabs : List Classroom :=
  [⟨"L1", "Block", "lab", none, some "Physics"⟩,
   ⟨"L2", "Block", "lab", none, some "Physics"⟩,
   ⟨"L3", "Block", "lab", none, some "Chemistry"⟩]

/-- Scenario 4 of the specification: a lab subject that requires a Physics lab. -/
def scenarioLabCtx : Ctx :=
  ⟨exampleRand, scenarioLabs, "CS1", [],
    ⟨some "s1", "Phy Lab", "Physics Lab", true, 4, some "Physics"⟩, none⟩

/-- Scenario 4 of the specification: the group Lab-1 is bound to L1, and L1 is booked on
Monday in the first slot. -/
def scenarioLabState : GenState :=
  { courseStart ⟨some "c1", "CS1", some 30, none, []⟩ initialState with
    assignedLabsForGroups := fun g => if g = "Lab-1" then some "L1" else none
    roomSchedule := fun d s => if d = "Monday" ∧ s = 0 then ["L1"] else [] }

/-- A state in which both Physics labs are booked on Monday in the first slot and no lab
is bound. -/
def scenarioLabState2 : GenState :=
  { courseStart ⟨some "c1", "CS1", some 30, none, []⟩ initialState with
    roomSchedule := fun d s => if d = "Monday" ∧ s = 0 then ["L1", "L2"] else [] }

/-- A class room whose capacity range is the string `abc`: neither piece is a number. -/
def unparsableRoom : Classroom := ⟨"R9", "Main", "class", some ⟨none, none, none⟩, none⟩

/-- A class room with the capacity range 70-90. -/
def largeRoom : Classroom := ⟨"R7", "Main", "class", some ⟨some 70, some 90, some 90⟩, none⟩

/-- A course with one lab subject for which one session is required. -/
def oddLabCourses : List Course :=
  [⟨some "c3", "CS3", some 30, none, [⟨some "s3", "Chem", "Chemistry", true, 1, none⟩]⟩]

/-- A teacher of the subject `s1` of the course `c1` whose time-off window on Monday has
the start `'9'` and the end `'10:00'`. -/
def hastyTeacher : TeacherIn :=
  ⟨"DS", "Dr. Smith", [⟨some "c1", some "s1"⟩],
    some [⟨some "Monday", .noColon, .clock ⟨10, 0⟩⟩]⟩

/-- The teacher of the examples with the window `'9:00'` to `'10:30'` on Monday. -/
def exampleTeacherIn : TeacherIn :=
  ⟨"DS", "Dr. Smith", [⟨some "c1", some "s1"⟩],
    some [⟨some "Monday", .clock ⟨9, 0⟩, .clock ⟨10, 30⟩⟩]⟩

/-- Two courses with the same short name: the first has two subjects, the second one. -/
def namesakeCourses : List Course :=
  [⟨some "c1", "CS1", some 60, none,
      [⟨some "s1", "Maths", "Mathematics", false, 1, none⟩,
       ⟨some "s2", "Eng", "English", false, 1, none⟩]⟩,
   ⟨some "c2", "CS1", some 50, none, [⟨some "s3", "Physics", "Physics", false, 1, none⟩]⟩]

/-- A page with one row of two single cells; the first has the attribute
`data-colspan="0"`. -/
def examplePageZero : Dom :=
  { nodes := fun i =>
      if i = 0 then
        some { singleTd "CS1" "Monday" 0 "Maths" "T2" "R1" with dataColspan := some 0 }
      else if i = 1 then some (singleTd "CS1" "Monday" 1 "Eng" "T3" "R1")
      else none
    tables := [⟨"CS1", [⟨"Monday", [0, 1]⟩]⟩]
    nextId := 2
    dragSrc := none }

/-- A class room with the capacity range `'40-80 seats'`: `Number` reads the second piece
as `NaN`, `parseInt` reads it as 80. -/
def seatsRoom : Classroom := ⟨"R5", "Main", "class", some ⟨some 40, none, some 80⟩, none⟩

/-! ## Teacher availability: the overlap test -/

/-- The window test of `isTeacherAvailable` written out. -/
theorem timeOffBlocks_iff (day : String) (a b : Nat) (off : TimeOff) :
    timeOffBlocks day a b off = true ↔
      ∃ d s e, off.day = some d ∧ off.start = some s ∧ off.stop = some e ∧ d ≠ "" ∧ d = day ∧
        a < timeToMinutes e ∧ b > timeToMinutes s := by
  obtain ⟨od, os, oe⟩ := off
  cases od <;> cases os <;> cases oe <;> simp [timeOffBlocks]

theorem isTeacherAvailable_noTimeOff (t : Teacher) (day : String) (slotTime : SlotTime)
    (ht : t.timeOff = none ∨ t.timeOff = some []) :
    isTeacherAvailable (some t) day slotTime = true := by
  rcases ht with ht | ht <;> simp [isTeacherAvailable, ht]

/-- Claim C7. `isTeacherAvailable` is true for a missing teacher and for a teacher without
windows; otherwise it is false exactly when some window with day, start and end present
has the day of the argument and, in minutes `h*60+m`, `slotStart < windowEnd` and
`slotEnd > windowStart`.  For non-empty ranges this is intersection of the half-open
intervals, so a window that ends at the slot start or starts at the slot end does not
block. -/
theorem isTeacherAvailable_spec (day : String) (slotTime : SlotTime) :
    isTeacherAvailable none day slotTime = true ∧
    (∀ t : Teacher, t.timeOff = none ∨ t.timeOff = some [] →
      isTeacherAvailable (some t) day slotTime = true) ∧
    (∀ (t : Teacher) (offs : List TimeOff), t.timeOff = some offs → offs ≠ [] →
      (isTeacherAvailable (some t) day slotTime = false ↔
        ∃ off ∈ offs, ∃ d s e, off.day = some d ∧ off.start = some s ∧ off.stop = some e ∧
          d ≠ "" ∧ d = day ∧
          timeToMinutes slotTime.start < timeToMinutes e ∧
          timeToMinutes slotTime.stop > timeToMinutes s)) ∧
    (∀ h m : Nat, timeToMinutes ⟨h, m⟩ = h * 60 + m) ∧
    (∀ s e : TimeOfDay, timeToMinutes slotTime.start < timeToMinutes slotTime.stop →
      timeToMinutes s < timeToMinutes e →
      ((timeToMinutes slotTime.start < timeToMinutes e ∧
          timeToMinutes slotTime.stop > timeToMinutes s) ↔
        ∃ x : Nat, timeToMinutes slotTime.start ≤ x ∧ x < timeToMinutes slotTime.stop ∧
          timeToMinutes s ≤ x ∧ x < timeToMinutes e)) ∧
    (∀ (d : Option String) (s e : Option TimeOfDay),
      e = some slotTime.start ∨ s = some slotTime.stop →
      timeOffBlocks day (timeToMinutes slotTime.start) (timeToMinutes slotTime.stop) ⟨d, s, e⟩
        = false) := by
  refine ⟨rfl, ?_, ?_, fun _ _ => rfl, ?_, ?_⟩
  · intro t ht
    rcases ht with ht | ht <;> simp [isTeacherAvailable, ht]
  · intro t offs ht hne
    have hlen : offs.length ≠ 0 := by
      intro h
      exact hne (List.length_eq_zero.mp h)
    simp only [isTeacherAvailable, ht, hlen, if_false, Bool.not_eq_false_eq_eq_true,
      Bool.not_eq_false', List.any_eq_true, timeOffBlocks_iff]
  · intro s e h1 h2
    constructor
    · rintro ⟨h3, h4⟩
      exact ⟨max (timeToMinutes slotTime.start) (timeToMinutes s), by omega, by omega, by omega,
        by omega⟩
    · rintro ⟨x, h3, h4, h5, h6⟩
      exact ⟨by omega, by omega⟩
  · intro d s e h
    cases hb : timeOffBlocks day (timeToMinutes slotTime.start) (timeToMinutes slotTime.stop)
      ⟨d, s, e⟩
    · rfl
    · rw [timeOffBlocks_iff] at hb
      obtain ⟨d1, s1, e1, -, hs, he, -, -, h1, h2⟩ := hb
      simp only at hs he
      rcases h with h | h
      · rw [h] at he
        cases he
        omega
      · rw [h] at hs
        cases hs
        omega


/-! ## The placement loops keep every step-closed property -/

theorem shuffle_perm {α : Type} (l : List α) : ∀ k, (shuffle k l).Perm l := by
  induction l with
  | nil => intro k; simp [shuffle]
  | cons x xs ih =>
    intro k
    simp only [shuffle]
    refine List.perm_middle.trans (List.Perm.cons x ?_)
    rw [List.take_append_drop]
    exact ih _

theorem mem_shuffle {α : Type} (k : Nat) (l : List α) (x : α) : x ∈ shuffle k l ↔ x ∈ l :=
  (shuffle_perm l k).mem_iff

/-- Every order of the list is the shuffle for some random number: the random stream
can produce any order that `sort` with a random comparator returns. -/
theorem shuffle_surjective {α : Type} (l : List α) :
    ∀ l1 : List α, l1.Perm l → ∃ k, shuffle k l = l1 := by
  induction l with
  | nil =>
    intro l1 h
    exact ⟨0, by rw [List.Perm.eq_nil h]; rfl⟩
  | cons x xs ih =>
    intro l1 h
    have hx : x ∈ l1 := h.symm.subset (List.mem_cons_self _ _)
    obtain ⟨a, b, rfl⟩ := List.append_of_mem hx
    have hab : (a ++ b).Perm xs := by
      have h2 : (x :: (a ++ b)).Perm (x :: xs) := List.perm_middle.symm.trans h
      exact (List.perm_cons x).mp h2
    obtain ⟨k1, hk1⟩ := ih (a ++ b) hab
    have hlen : a.length < xs.length + 1 := by
      have := hab.length_eq
      rw [List.length_append] at this
      omega
    refine ⟨k1 * (xs.length + 1) + a.length, ?_⟩
    have hdiv : (k1 * (xs.length + 1) + a.length) / (xs.length + 1) = k1 := by
      rw [Nat.add_comm, Nat.add_mul_div_right _ _ (Nat.succ_pos _), Nat.div_eq_of_lt hlen,
        Nat.zero_add]
    have hmod : (k1 * (xs.length + 1) + a.length) % (xs.length + 1) = a.length := by
      rw [Nat.add_comm, Nat.add_mul_mod_self_right, Nat.mod_eq_of_lt hlen]
    simp only [shuffle, hdiv, hmod, hk1]
    simp

theorem Tweak.refl (st : GenState) : Tweak st st :=
  ⟨rfl, rfl, rfl, rfl, rfl, rfl, rfl, rfl, rfl⟩

theorem contains_false_iff (l : List String) (a : String) : l.contains a = false ↔ a ∉ l := by
  simp

theorem afterLabChoice_tweak (ctx : Ctx) (day : String) (slot1 slot2 : Nat) (st : GenState) :
    Tweak st (afterLabChoice ctx day slot1 slot2 st) :=
  ⟨rfl, rfl, rfl, rfl, rfl, rfl, rfl, rfl, rfl⟩

theorem bindCourseRoom_tweak (ctx : Ctx) (st : GenState) : Tweak st (bindCourseRoom ctx st) := by
  unfold bindCourseRoom
  split
  · exact ⟨rfl, rfl, rfl, rfl, rfl, rfl, rfl, rfl, rfl⟩
  · exact Tweak.refl st

theorem getLabForGroup_mem {k : Nat} {labs : List Classroom} {usedLabs : List String}
    {labType : Option String} {group : String} {room : Classroom}
    (h : getLabForGroup k labs usedLabs labType group = some room) : room ∈ labs := by
  unfold getLabForGroup at h
  dsimp only at h
  split at h
  · rename_i l rest he
    cases h
    have hm : room ∈ shuffle k (labs.filter fun l =>
        labTypeMatches labType l && !(usedLabs.contains l.roomNumber)) := by
      rw [he]
      exact List.mem_cons_self _ _
    exact List.mem_of_mem_filter ((mem_shuffle _ _ _).mp hm)
  · split at h
    · rename_i l hl
      cases h
      exact List.mem_of_find?_eq_some hl
    · exact List.mem_of_mem_head? h

/-- The room chosen for a lab attempt is one of the labs of the input. -/
theorem chooseLabRoom_mem {ctx : Ctx} {day : String} {slot1 slot2 : Nat} {st : GenState}
    {room : Classroom} (h : chooseLabRoom ctx day slot1 slot2 st = some room) :
    room ∈ labsOf ctx.classrooms := by
  unfold chooseLabRoom at h
  split at h
  · rename_i r hr
    cases h
    unfold stickyLab at hr
    split at hr
    · split at hr
      · cases hr
      · exact List.mem_of_find?_eq_some hr
    · cases hr
  · exact getLabForGroup_mem h

theorem tryLabPair_cases (ctx : Ctx) (day : String) (hday : day ∈ days) (pair : Nat × Nat)
    (st : GenState) :
    (∃ st1, Tweak st st1 ∧ tryLabPair ctx day pair st = (st1, false)) ∨
    (∃ st1 room, Tweak st st1 ∧ LabGuard ctx day pair.1 pair.2 room st1 ∧
      tryLabPair ctx day pair st =
        (placeLab ctx day pair.1 pair.2 (labGroupOf st.scheduled) room st1, true)) := by
  unfold tryLabPair
  split
  · rename_i hnull
    rw [Bool.and_eq_true] at hnull
    split
    · exact Or.inl ⟨_, afterLabChoice_tweak ctx day pair.1 pair.2 st, rfl⟩
    · rename_i room hroom
      split
      · rename_i hfree
        refine Or.inr ⟨_, room, afterLabChoice_tweak ctx day pair.1 pair.2 st, ?_, rfl⟩
        simp only [labRoomFree, labTeacherFree, Bool.and_eq_true, Bool.not_eq_true',
          contains_false_iff, decide_eq_false_iff_not] at hfree
        refine ⟨hday, hnull.1, hnull.2, hfree.1.1, hfree.1.2, ?_, chooseLabRoom_mem hroom⟩
        intro t ht
        have h2 := hfree.2
        simp only [ht, Bool.and_eq_true, Bool.not_eq_true', contains_false_iff,
          decide_eq_false_iff_not] at h2
        exact ⟨h2.1.1.1, h2.1.1.2, h2.1.2, h2.2⟩
      · exact Or.inl ⟨_, afterLabChoice_tweak ctx day pair.1 pair.2 st, rfl⟩
  · exact Or.inl ⟨st, Tweak.refl st, rfl⟩

theorem tryLectureSlot_cases (ctx : Ctx) (day : String) (hday : day ∈ days) (slot : Nat)
    (st : GenState) :
    (∃ st1, Tweak st st1 ∧ tryLectureSlot ctx day slot st = (st1, false)) ∨
    (∃ st1 room, Tweak st st1 ∧ LectureGuard ctx day slot room st1 ∧
      tryLectureSlot ctx day slot st = (placeLecture ctx day slot room st1, true)) := by
  unfold tryLectureSlot
  split
  · rename_i hnull
    split
    · exact Or.inl ⟨_, bindCourseRoom_tweak ctx st, rfl⟩
    · rename_i room hroom
      split
      · rename_i hfree
        refine Or.inr ⟨_, room, bindCourseRoom_tweak ctx st, ?_, rfl⟩
        simp only [lectureTeacherFree, Bool.and_eq_true, Bool.not_eq_true',
          contains_false_iff, decide_eq_false_iff_not] at hfree
        have hmem : room ∈ ctx.eligibleRooms := by
          unfold chooseLectureRoom at hroom
          split at hroom
          · rename_i r hr
            cases hroom
            exact List.mem_of_find?_eq_some hr
          · split at hroom
            · rename_i r hr
              cases hroom
              exact List.mem_of_find?_eq_some hr
            · split at hroom
              · exact List.mem_of_find?_eq_some hroom
              · cases hroom
        refine ⟨hday, ?_, hmem, hfree.1, ?_⟩
        · rw [(bindCourseRoom_tweak ctx st).timetable]
          exact hnull
        · intro t ht
          have h2 := hfree.2
          simp only [ht, Bool.and_eq_true, Bool.not_eq_true', contains_false_iff,
            decide_eq_false_iff_not] at h2
          exact h2
      · exact Or.inl ⟨_, bindCourseRoom_tweak ctx st, rfl⟩
  · exact Or.inl ⟨st, Tweak.refl st, rfl⟩

theorem tryLabPair_closed {ctx : Ctx} {P : GenState → Prop} (hP : StepClosed ctx P)
    {day : String} (hday : day ∈ days) {pair : Nat × Nat} (hpair : pair ∈ labSlotPairs)
    {st : GenState} (h : P st) : P (tryLabPair ctx day pair st).1 := by
  rcases tryLabPair_cases ctx day hday pair st with ⟨st1, ht, he⟩ | ⟨st1, room, ht, hg, he⟩
  · rw [he]
    exact hP.frame st st1 ht h
  · rw [he]
    exact hP.lab st1 day pair _ room hpair hg (hP.frame st st1 ht h)

theorem tryLabPairs_closed {ctx : Ctx} {P : GenState → Prop} (hP : StepClosed ctx P)
    {day : String} (hday : day ∈ days) (l : List (Nat × Nat))
    (hl : ∀ pair ∈ l, pair ∈ labSlotPairs) :
    ∀ st : GenState, P st → P (tryLabPairs ctx day l st).1 := by
  induction l with
  | nil => intro st h; exact h
  | cons pair rest ih =>
    intro st h
    have h1 := tryLabPair_closed hP hday (hl pair (List.mem_cons_self _ _)) h
    unfold tryLabPairs
    split
    · rename_i st1 he
      rw [he] at h1
      exact h1
    · rename_i st1 he
      rw [he] at h1
      exact ih (fun q hq => hl q (List.mem_cons_of_mem _ hq)) st1 h1

theorem tryLectureSlot_closed {ctx : Ctx} {P : GenState → Prop} (hP : StepClosed ctx P)
    {day : String} (hday : day ∈ days) {slot : Nat}
    (hslot : slot ∈ firstHalfSlots ++ secondHalfSlots)
    {st : GenState} (h : P st) : P (tryLectureSlot ctx day slot st).1 := by
  rcases tryLectureSlot_cases ctx day hday slot st with ⟨st1, ht, he⟩ | ⟨st1, room, ht, hg, he⟩
  · rw [he]
    exact hP.frame st st1 ht h
  · rw [he]
    exact hP.lecture st1 day slot room hslot hg (hP.frame st st1 ht h)

theorem tryLectureSlots_closed {ctx : Ctx} {P : GenState → Prop} (hP : StepClosed ctx P)
    {day : String} (hday : day ∈ days) (l : List Nat)
    (hl : ∀ slot ∈ l, slot ∈ firstHalfSlots ++ secondHalfSlots) :
    ∀ st : GenState, P st → P (tryLectureSlots ctx day l st).1 := by
  induction l with
  | nil => intro st h; exact h
  | cons slot rest ih =>
    intro st h
    have h1 := tryLectureSlot_closed hP hday (hl slot (List.mem_cons_self _ _)) h
    unfold tryLectureSlots
    split
    · rename_i st1 he
      rw [he] at h1
      exact h1
    · rename_i st1 he
      rw [he] at h1
      exact ih (fun q hq => hl q (List.mem_cons_of_mem _ hq)) st1 h1

theorem tryDays_closed {ctx : Ctx} {P : GenState → Prop} (hP : StepClosed ctx P)
    (l : List String) (hl : ∀ day ∈ l, day ∈ days) :
    ∀ st : GenState, P st → P (tryDays ctx l st).1 := by
  induction l with
  | nil => intro st h; exact h
  | cons day rest ih =>
    intro st h
    have hday := hl day (List.mem_cons_self _ _)
    have hrest : ∀ d ∈ rest, d ∈ days := fun d hd => hl d (List.mem_cons_of_mem _ hd)
    unfold tryDays
    split
    · have h1 := tryLabPairs_closed hP hday labSlotPairs (fun _ hq => hq) st h
      split
      · rename_i st1 he
        rw [he] at h1
        exact h1
      · rename_i st1 he
        rw [he] at h1
        exact ih hrest st1 h1
    · have h1 := tryLectureSlots_closed hP hday (firstHalfSlots ++ secondHalfSlots)
        (fun _ hq => hq) st h
      split
      · rename_i st1 he
        rw [he] at h1
        exact h1
      · rename_i st1 he
        rw [he] at h1
        exact ih hrest st1 h1

theorem sessionLoop_closed {ctx : Ctx} {P : GenState → Prop} (hP : StepClosed ctx P)
    (fuel : Nat) : ∀ st : GenState, P st → P (sessionLoop ctx fuel st) := by
  induction fuel with
  | zero => intro st h; exact h
  | succ fuel ih =>
    intro st h
    unfold sessionLoop
    dsimp only
    split
    · split
      · exact h
      · have h0 : P { st with draws := st.draws + 1 } :=
          hP.frame st _ ⟨rfl, rfl, rfl, rfl, rfl, rfl, rfl, rfl, rfl⟩ h
        have h1 := tryDays_closed hP
          (shuffle (ctx.rand st.draws)
            (days.filter fun day => decide (st.perDayPlacement day < 2)))
          (fun d hd => List.mem_of_mem_filter ((mem_shuffle _ _ d).mp hd)) _ h0
        split
        · rename_i st1 he
          rw [he] at h1
          exact ih st1 h1
        · rename_i st1 he
          rw [he] at h1
          exact h1
    · exact h

/-! ## The `while` loop never runs out of turns -/

theorem Progress.trans_false {st st1 : GenState} {res : GenState × Bool}
    (h1 : st1.scheduled = st.scheduled) (h2 : Progress st1 res) : Progress st res := by
  unfold Progress at h2 ⊢
  rw [← h1]
  exact h2

theorem tryLabPair_progress (ctx : Ctx) (day : String) (hday : day ∈ days) (pair : Nat × Nat)
    (st : GenState) : Progress st (tryLabPair ctx day pair st) := by
  rcases tryLabPair_cases ctx day hday pair st with ⟨st1, ht, he⟩ | ⟨st1, room, ht, -, he⟩
  · rw [he]
    exact Or.inl ⟨rfl, ht.scheduled⟩
  · rw [he]
    refine Or.inr ⟨rfl, ?_⟩
    simp only [placeLab, ht.scheduled]
    omega

theorem tryLectureSlot_progress (ctx : Ctx) (day : String) (hday : day ∈ days) (slot : Nat)
    (st : GenState) : Progress st (tryLectureSlot ctx day slot st) := by
  rcases tryLectureSlot_cases ctx day hday slot st with ⟨st1, ht, he⟩ | ⟨st1, room, ht, -, he⟩
  · rw [he]
    exact Or.inl ⟨rfl, ht.scheduled⟩
  · rw [he]
    refine Or.inr ⟨rfl, ?_⟩
    simp only [placeLecture, ht.scheduled]
    omega

theorem tryLabPairs_progress (ctx : Ctx) (day : String) (hday : day ∈ days)
    (l : List (Nat × Nat)) : ∀ st : GenState, Progress st (tryLabPairs ctx day l st) := by
  induction l with
  | nil => intro st; exact Or.inl ⟨rfl, rfl⟩
  | cons pair rest ih =>
    intro st
    have h1 := tryLabPair_progress ctx day hday pair st
    unfold tryLabPairs
    split
    · rename_i st1 he
      rw [he] at h1
      exact h1
    · rename_i st1 he
      rw [he] at h1
      rcases h1 with ⟨-, h2⟩ | ⟨h2, -⟩
      · exact Progress.trans_false h2 (ih st1)
      · cases h2

theorem tryLectureSlots_progress (ctx : Ctx) (day : String) (hday : day ∈ days)
    (l : List Nat) : ∀ st : GenState, Progress st (tryLectureSlots ctx day l st) := by
  induction l with
  | nil => intro st; exact Or.inl ⟨rfl, rfl⟩
  | cons slot rest ih =>
    intro st
    have h1 := tryLectureSlot_progress ctx day hday slot st
    unfold tryLectureSlots
    split
    · rename_i st1 he
      rw [he] at h1
      exact h1
    · rename_i st1 he
      rw [he] at h1
      rcases h1 with ⟨-, h2⟩ | ⟨h2, -⟩
      · exact Progress.trans_false h2 (ih st1)
      · cases h2

theorem tryDays_progress (ctx : Ctx) (l : List String) (hl : ∀ day ∈ l, day ∈ days) :
    ∀ st : GenState, Progress st (tryDays ctx l st) := by
  induction l with
  | nil => intro st; exact Or.inl ⟨rfl, rfl⟩
  | cons day rest ih =>
    intro st
    have hday := hl day (List.mem_cons_self _ _)
    have hrest : ∀ d ∈ rest, d ∈ days := fun d hd => hl d (List.mem_cons_of_mem _ hd)
    unfold tryDays
    split
    · have h1 := tryLabPairs_progress ctx day hday labSlotPairs st
      split
      · rename_i st1 he
        rw [he] at h1
        exact h1
      · rename_i st1 he
        rw [he] at h1
        rcases h1 with ⟨-, h2⟩ | ⟨h2, -⟩
        · exact Progress.trans_false h2 (ih hrest st1)
        · cases h2
    · have h1 := tryLectureSlots_progress ctx day hday (firstHalfSlots ++ secondHalfSlots) st
      split
      · rename_i st1 he
        rw [he] at h1
        exact h1
      · rename_i st1 he
        rw [he] at h1
        rcases h1 with ⟨-, h2⟩ | ⟨h2, -⟩
        · exact Progress.trans_false h2 (ih hrest st1)
        · cases h2

/-- The number of turns given to the `while` loop does not matter once it is at least
`requiredSessions - scheduled`: the loop of the model is never cut short. -/
theorem sessionLoop_fuel (ctx : Ctx) (fuel : Nat) :
    ∀ (k : Nat) (st : GenState), ctx.subject.count ≤ st.scheduled + fuel →
      sessionLoop ctx (fuel + k) st = sessionLoop ctx fuel st := by
  induction fuel with
  | zero =>
    intro k st h
    cases k with
    | zero => rfl
    | succ k =>
      have hn : ¬ st.scheduled < ctx.subject.count := by omega
      simp only [Nat.zero_add, sessionLoop, hn, if_false]
  | succ fuel ih =>
    intro k st h
    have hk : fuel + 1 + k = (fuel + k) + 1 := by omega
    rw [hk]
    unfold sessionLoop
    dsimp only
    split
    · split
      · rfl
      · have hp := tryDays_progress ctx
          (shuffle (ctx.rand st.draws)
            (days.filter fun day => decide (st.perDayPlacement day < 2)))
          (fun d hd => List.mem_of_mem_filter ((mem_shuffle _ _ d).mp hd))
          { st with draws := st.draws + 1 }
        split
        · rename_i st1 he
          rw [he] at hp
          rcases hp with ⟨h2, -⟩ | ⟨-, h2⟩
          · cases h2
          · have h3 : st.scheduled < st1.scheduled := h2
            exact ih k st1 (by omega)
        · rfl
    · rfl

/-! ## The invariant of a run -/

theorem isNull_iff (row : List (Option Cell)) (s : Nat) :
    isNull row s = true ↔ row[s]? = some none := by
  unfold isNull
  split
  · rename_i h
    simp [h]
  · rename_i h
    constructor
    · intro h1
      cases h1
    · intro h1
      exact absurd h1 h

theorem getElem?_setCell (tt : String → String → List (Option Cell)) (c d : String) (s : Nat)
    (cell : Cell) (hnull : isNull (tt c d) s = true) (c1 d1 : String) (i : Nat) (x : Cell) :
    (setCell tt c d s cell c1 d1)[i]? = some (some x) ↔
      (c1 = c ∧ d1 = d ∧ i = s ∧ x = cell) ∨ (tt c1 d1)[i]? = some (some x) := by
  rw [isNull_iff] at hnull
  have hlt : s < (tt c d).length := (List.getElem?_eq_some.mp hnull).1
  unfold setCell
  by_cases hcd : c1 = c ∧ d1 = d
  · obtain ⟨rfl, rfl⟩ := hcd
    simp only [and_self, if_true, true_and]
    rw [List.getElem?_set]
    by_cases hi : s = i
    · subst hi
      simp only [if_true, hlt, hnull, Option.some.injEq, reduceCtorEq, or_false]
      constructor
      · intro h; exact ⟨trivial, h.symm⟩
      · intro h; exact h.2.symm
    · have hi2 : ¬ i = s := fun h => hi h.symm
      simp [hi, hi2]
  · simp only [hcd, if_false, false_and, false_or]
    have : ¬ (c1 = c ∧ d1 = d ∧ i = s ∧ x = cell) := fun h => hcd ⟨h.1, h.2.1⟩
    simp [this]

theorem isNull_setCell (tt : String → String → List (Option Cell)) (c d : String) (s : Nat)
    (cell : Cell) (c1 d1 : String) (i : Nat) (hne : s ≠ i) :
    isNull (setCell tt c d s cell c1 d1) i = isNull (tt c1 d1) i := by
  unfold isNull setCell
  by_cases hcd : c1 = c ∧ d1 = d
  · obtain ⟨rfl, rfl⟩ := hcd
    simp only [and_self, if_true]
    rw [List.getElem?_set_ne hne]
  · simp only [hcd, if_false]

theorem mem_book (schedule : String → Nat → List String) (day : String) (slot : Nat)
    (x : String) (d : String) (s : Nat) (y : String) :
    y ∈ book schedule day slot x d s ↔ y ∈ schedule d s ∨ (d = day ∧ s = slot ∧ y = x) := by
  unfold book
  by_cases h : d = day ∧ s = slot
  · obtain ⟨rfl, rfl⟩ := h
    simp
  · simp only [h, if_false]
    constructor
    · intro hy; exact Or.inl hy
    · rintro (hy | ⟨h1, h2, -⟩)
      · exact hy
      · exact absurd ⟨h1, h2⟩ h

theorem Inv_initial : Inv initialState where
  roomIn := by intro p hp; cases hp
  teacherIn := by intro p hp; cases hp
  roomFrom := by intro d s x hx; cases hx
  teacherFrom := by intro d s x hx; cases hx
  distinct := List.Pairwise.nil
  avail := by intro p hp; cases hp
  wellPlaced := by intro p hp; cases hp
  origin := by
    intro c d s cell h
    simp [initialState] at h

/-- The invariant is kept when new placements are recorded whose rooms and teachers
were free, and the registries and grids change accordingly. -/
theorem Inv_extend {st st1 : GenState} (news : List Placement) (h : Inv st)
    (hps : st1.placements = st.placements ++ news)
    (hrs : ∀ d s y, y ∈ st1.roomSchedule d s ↔
      y ∈ st.roomSchedule d s ∨ ∃ q ∈ news, q.day = d ∧ q.slot = s ∧ q.room.roomNumber = y)
    (hts : ∀ d s y, y ∈ st1.teacherSchedule d s ↔
      y ∈ st.teacherSchedule d s ∨
        ∃ q ∈ news, q.day = d ∧ q.slot = s ∧ ∃ t, q.teacher = some t ∧ t.shortName = y)
    (hnews : news.Pairwise Apart)
    (hroom : ∀ q ∈ news, q.room.roomNumber ∉ st.roomSchedule q.day q.slot)
    (hteacher : ∀ q ∈ news, ∀ t, q.teacher = some t →
      t.shortName ∉ st.teacherSchedule q.day q.slot ∧
      isTeacherAvailable (some t) q.day (slotTimeAt q.slot) = true)
    (hwell : ∀ q ∈ news, WellPlaced q)
    (htt : ∀ c d s cell, (st1.timetable c d)[s]? = some (some cell) →
      (s = 4 ∧ cell = breakCell) ∨ cell = libraryCell ∨
      (st.timetable c d)[s]? = some (some cell) ∨
        ∃ q ∈ news, q.course = c ∧ q.day = d ∧ q.slot = s ∧ q.cell = cell) :
    Inv st1 where
  roomIn := by
    intro p hp
    rw [hps, List.mem_append] at hp
    rcases hp with hp | hp
    · exact (hrs _ _ _).mpr (Or.inl (h.roomIn p hp))
    · exact (hrs _ _ _).mpr (Or.inr ⟨p, hp, rfl, rfl, rfl⟩)
  teacherIn := by
    intro p hp t ht
    rw [hps, List.mem_append] at hp
    rcases hp with hp | hp
    · exact (hts _ _ _).mpr (Or.inl (h.teacherIn p hp t ht))
    · exact (hts _ _ _).mpr (Or.inr ⟨p, hp, rfl, rfl, t, ht, rfl⟩)
  roomFrom := by
    intro d s x hx
    rcases (hrs d s x).mp hx with hx | ⟨q, hq, h1, h2, h3⟩
    · obtain ⟨p, hp, hp1⟩ := h.roomFrom d s x hx
      exact ⟨p, by rw [hps]; exact List.mem_append_left _ hp, hp1⟩
    · exact ⟨q, by rw [hps]; exact List.mem_append_right _ hq, h1, h2, h3⟩
  teacherFrom := by
    intro d s x hx
    rcases (hts d s x).mp hx with hx | ⟨q, hq, h1, h2, h3⟩
    · obtain ⟨p, hp, hp1⟩ := h.teacherFrom d s x hx
      exact ⟨p, by rw [hps]; exact List.mem_append_left _ hp, hp1⟩
    · exact ⟨q, by rw [hps]; exact List.mem_append_right _ hq, h1, h2, h3⟩
  distinct := by
    rw [hps, List.pairwise_append]
    refine ⟨h.distinct, hnews, ?_⟩
    intro a ha b hb hd hs
    constructor
    · intro heq
      apply hroom b hb
      rw [← hd, ← hs, ← heq]
      exact h.roomIn a ha
    · intro t u ht hu heq
      apply (hteacher b hb u hu).1
      rw [← hd, ← hs, ← heq]
      exact h.teacherIn a ha t ht
  avail := by
    intro p hp t ht
    rw [hps, List.mem_append] at hp
    rcases hp with hp | hp
    · exact h.avail p hp t ht
    · exact (hteacher p hp t ht).2
  wellPlaced := by
    intro p hp
    rw [hps, List.mem_append] at hp
    rcases hp with hp | hp
    · exact h.wellPlaced p hp
    · exact hwell p hp
  origin := by
    intro c d s cell hc
    rcases htt c d s cell hc with hc | hc | hc | ⟨q, hq, hq1⟩
    · exact Or.inl hc
    · exact Or.inr (Or.inl hc)
    · rcases h.origin c d s cell hc with h1 | h1 | ⟨p, hp, hp1⟩
      · exact Or.inl h1
      · exact Or.inr (Or.inl h1)
      · exact Or.inr (Or.inr ⟨p, by rw [hps]; exact List.mem_append_left _ hp, hp1⟩)
    · exact Or.inr (Or.inr ⟨q, by rw [hps]; exact List.mem_append_right _ hq, hq1⟩)

theorem Inv_frame {st st1 : GenState} (ht : Tweak st st1) (h : Inv st) : Inv st1 := by
  refine Inv_extend [] h ?_ ?_ ?_ List.Pairwise.nil ?_ ?_ ?_ ?_
  · rw [ht.placements, List.append_nil]
  · intro d s y
    rw [ht.roomSchedule]
    simp
  · intro d s y
    rw [ht.teacherSchedule]
    simp
  · intro q hq; cases hq
  · intro q hq; cases hq
  · intro q hq; cases hq
  · intro c d s cell hc
    rw [ht.timetable] at hc
    exact Or.inr (Or.inr (Or.inl hc))

theorem mem_slots_ne {a b : Nat} (h : (a, b) ∈ labSlotPairs) :
    a ≠ b ∧ a ∈ firstHalfSlots ++ secondHalfSlots ∧ b ∈ firstHalfSlots ++ secondHalfSlots := by
  simp only [labSlotPairs, List.mem_cons, Prod.mk.injEq, List.mem_singleton, List.not_mem_nil,
    or_false] at h
  rcases h with ⟨rfl, rfl⟩ | ⟨rfl, rfl⟩ | ⟨rfl, rfl⟩ | ⟨rfl, rfl⟩ <;> decide

theorem Inv_lecture (ctx : Ctx) (st : GenState) (day : String) (slot : Nat) (room : Classroom)
    (hslot : slot ∈ firstHalfSlots ++ secondHalfSlots)
    (hg : LectureGuard ctx day slot room st) (h : Inv st) :
    Inv (placeLecture ctx day slot room st) := by
  refine Inv_extend [⟨st.courseNo, ctx.courseName, st.subjectNo, ctx.subject, ctx.teacher,
    day, slot, room, none, ⟨roomLabel room, ctx.subject.shortName, teacherLabel ctx.teacher⟩⟩]
    h rfl ?_ ?_ (List.pairwise_singleton _ _) ?_ ?_ ?_ ?_
  · intro d s y
    simp only [placeLecture, mem_book, List.mem_singleton, exists_eq_left]
    constructor
    · rintro (hy | ⟨h1, h2, h3⟩)
      · exact Or.inl hy
      · exact Or.inr ⟨h1.symm, h2.symm, h3.symm⟩
    · rintro (hy | ⟨h1, h2, h3⟩)
      · exact Or.inl hy
      · exact Or.inr ⟨h1.symm, h2.symm, h3.symm⟩
  · intro d s y
    simp only [placeLecture, List.mem_singleton, exists_eq_left]
    cases hT : ctx.teacher with
    | none => simp
    | some t =>
      simp only [mem_book, Option.some.injEq, exists_eq_left']
      constructor
      · rintro (hy | ⟨h1, h2, h3⟩)
        · exact Or.inl hy
        · exact Or.inr ⟨h1.symm, h2.symm, h3.symm⟩
      · rintro (hy | ⟨h1, h2, h3⟩)
        · exact Or.inl hy
        · exact Or.inr ⟨h1.symm, h2.symm, h3.symm⟩
  · intro q hq
    rw [List.mem_singleton] at hq
    subst hq
    exact hg.room
  · intro q hq t ht
    rw [List.mem_singleton] at hq
    subst hq
    exact hg.teacher t ht
  · intro q hq
    rw [List.mem_singleton] at hq
    subst hq
    exact ⟨hg.day_mem, hslot, rfl, rfl, fun _ => rfl, fun a b hab => by cases hab⟩
  · intro c d s cell hc
    simp only [placeLecture] at hc
    rw [getElem?_setCell _ _ _ _ _ hg.null] at hc
    rcases hc with ⟨h1, h2, h3, h4⟩ | hc
    · exact Or.inr (Or.inr (Or.inr
        ⟨_, List.mem_singleton_self _, h1.symm, h2.symm, h3.symm, h4.symm⟩))
    · exact Or.inr (Or.inr (Or.inl hc))

theorem Inv_lab (ctx : Ctx) (st : GenState) (day : String) (pair : Nat × Nat) (group : String)
    (room : Classroom) (hpair : pair ∈ labSlotPairs)
    (hg : LabGuard ctx day pair.1 pair.2 room st) (h : Inv st) :
    Inv (placeLab ctx day pair.1 pair.2 group room st) := by
  obtain ⟨slot1, slot2⟩ := pair
  obtain ⟨hne, hs1, hs2⟩ := mem_slots_ne hpair
  have hne2 : ¬ slot2 = slot1 := fun e => hne e.symm
  refine Inv_extend
    [⟨st.courseNo, ctx.courseName, st.subjectNo, ctx.subject, ctx.teacher, day, slot1, room,
        some (slot1, slot2), ⟨roomLabel room, ctx.subject.shortName ++ " (" ++ group ++ " (G" ++
          (if st.scheduled < 2 then "1" else "2") ++ "))", teacherLabel ctx.teacher⟩⟩,
      ⟨st.courseNo, ctx.courseName, st.subjectNo, ctx.subject, ctx.teacher, day, slot2, room,
        some (slot1, slot2), ⟨roomLabel room, ctx.subject.shortName ++ " (" ++ group ++ " (G" ++
          (if st.scheduled < 2 then "1" else "2") ++ "))", teacherLabel ctx.teacher⟩⟩]
    h rfl ?_ ?_ ?_ ?_ ?_ ?_ ?_
  · intro d s y
    simp only [placeLab, mem_book, List.mem_cons, List.mem_singleton, exists_eq_or_imp,
      exists_eq_left, List.not_mem_nil, false_and, exists_false, or_false]
    constructor
    · rintro ((hy | ⟨h1, h2, h3⟩) | ⟨h1, h2, h3⟩)
      · exact Or.inl hy
      · exact Or.inr (Or.inl ⟨h1.symm, h2.symm, h3.symm⟩)
      · exact Or.inr (Or.inr ⟨h1.symm, h2.symm, h3.symm⟩)
    · rintro (hy | ⟨h1, h2, h3⟩ | ⟨h1, h2, h3⟩)
      · exact Or.inl (Or.inl hy)
      · exact Or.inl (Or.inr ⟨h1.symm, h2.symm, h3.symm⟩)
      · exact Or.inr ⟨h1.symm, h2.symm, h3.symm⟩
  · intro d s y
    simp only [placeLab, List.mem_cons, List.mem_singleton, exists_eq_or_imp,
      exists_eq_left, List.not_mem_nil, false_and, exists_false, or_false]
    cases hT : ctx.teacher with
    | none => simp
    | some t =>
      simp only [mem_book, Option.some.injEq, exists_eq_left']
      constructor
      · rintro ((hy | ⟨h1, h2, h3⟩) | ⟨h1, h2, h3⟩)
        · exact Or.inl hy
        · exact Or.inr (Or.inl ⟨h1.symm, h2.symm, h3.symm⟩)
        · exact Or.inr (Or.inr ⟨h1.symm, h2.symm, h3.symm⟩)
      · rintro (hy | ⟨h1, h2, h3⟩ | ⟨h1, h2, h3⟩)
        · exact Or.inl (Or.inl hy)
        · exact Or.inl (Or.inr ⟨h1.symm, h2.symm, h3.symm⟩)
        · exact Or.inr ⟨h1.symm, h2.symm, h3.symm⟩
  · rw [List.pairwise_cons]
    refine ⟨?_, List.pairwise_singleton _ _⟩
    intro q hq
    rw [List.mem_singleton] at hq
    subst hq
    intro _ hslot
    exact absurd hslot hne
  · intro q hq
    simp only [List.mem_cons, List.mem_singleton, List.not_mem_nil, or_false] at hq
    rcases hq with rfl | rfl
    · exact hg.room1
    · exact hg.room2
  · intro q hq t ht
    simp only [List.mem_cons, List.mem_singleton, List.not_mem_nil, or_false] at hq
    rcases hq with rfl | rfl
    · exact ⟨(hg.teacher t ht).1, (hg.teacher t ht).2.2.1⟩
    · exact ⟨(hg.teacher t ht).2.1, (hg.teacher t ht).2.2.2⟩
  · intro q hq
    simp only [List.mem_cons, List.mem_singleton, List.not_mem_nil, or_false] at hq
    rcases hq with rfl | rfl
    · refine ⟨hg.day_mem, hs1, rfl, rfl, (fun hn => by cases hn), ?_⟩
      intro a b hab
      cases hab
      exact ⟨hpair, Or.inl rfl⟩
    · refine ⟨hg.day_mem, hs2, rfl, rfl, (fun hn => by cases hn), ?_⟩
      intro a b hab
      cases hab
      exact ⟨hpair, Or.inr rfl⟩
  · intro c d s cell hc
    simp only [placeLab] at hc
    have hnull2 : isNull (setCell st.timetable ctx.courseName day slot1
        ⟨roomLabel room, ctx.subject.shortName ++ " (" ++ group ++ " (G" ++
          (if st.scheduled < 2 then "1" else "2") ++ "))", teacherLabel ctx.teacher⟩
        ctx.courseName day) slot2 = true := by
      rw [isNull_setCell _ _ _ _ _ _ _ _ hne]
      exact hg.null2
    rw [getElem?_setCell _ _ _ _ _ hnull2, getElem?_setCell _ _ _ _ _ hg.null1] at hc
    rcases hc with ⟨h1, h2, h3, h4⟩ | ⟨h1, h2, h3, h4⟩ | hc
    · exact Or.inr (Or.inr (Or.inr ⟨_, List.mem_cons_of_mem _ (List.mem_singleton_self _),
        h1.symm, h2.symm, h3.symm, h4.symm⟩))
    · exact Or.inr (Or.inr (Or.inr
        ⟨_, List.mem_cons_self _ _, h1.symm, h2.symm, h3.symm, h4.symm⟩))
    · exact Or.inr (Or.inr (Or.inl hc))

theorem Inv_stepClosed (ctx : Ctx) : StepClosed ctx Inv where
  frame := fun _ _ ht h => Inv_frame ht h
  lab := fun st day pair group room hpair hg h => Inv_lab ctx st day pair group room hpair hg h
  lecture := fun st day slot room hslot hg h => Inv_lecture ctx st day slot room hslot hg h

theorem CoreClosed.stepClosed {courseName : String} {P : GenState → Prop}
    (hP : CoreClosed courseName P) (ctx : Ctx) (hc : ctx.courseName = courseName) :
    StepClosed ctx P where
  frame := fun st st1 ht h =>
    hP.congr st st1 ht.timetable ht.roomSchedule ht.teacherSchedule ht.placements
      ht.courseNo h
  lab := hP.lab ctx hc
  lecture := hP.lecture ctx hc

theorem scheduleSubject_closed {P : GenState → Prop} (rand : Nat → Nat)
    (teachers : List Teacher) (classrooms : List Classroom) (course : Course)
    (eligibleRooms : List Classroom) (hP : CoreClosed course.courseShortName P)
    (st : GenState) (subject : Subject) (h : P st) :
    P (scheduleSubject rand teachers classrooms course eligibleRooms st subject) := by
  have h0 : P (subjectStart teachers course subject st) :=
    hP.congr st (subjectStart teachers course subject st) rfl rfl rfl rfl rfl h
  have h1 := sessionLoop_closed
    (hP.stepClosed (subjectCtx rand teachers classrooms course eligibleRooms subject) rfl)
    subject.count _ h0
  exact hP.congr (sessionLoop (subjectCtx rand teachers classrooms course eligibleRooms subject)
      subject.count (subjectStart teachers course subject st))
    (scheduleSubject rand teachers classrooms course eligibleRooms st subject)
    rfl rfl rfl rfl rfl h1

theorem foldl_scheduleSubject_closed {P : GenState → Prop} (rand : Nat → Nat)
    (teachers : List Teacher) (classrooms : List Classroom) (course : Course)
    (eligibleRooms : List Classroom) (hP : CoreClosed course.courseShortName P)
    (subjects : List Subject) :
    ∀ st : GenState, P st →
      P (subjects.foldl (scheduleSubject rand teachers classrooms course eligibleRooms) st) := by
  induction subjects with
  | nil => intro st h; exact h
  | cons subject rest ih =>
    intro st h
    rw [List.foldl_cons]
    exact ih _ (scheduleSubject_closed rand teachers classrooms course eligibleRooms hP st
      subject h)

theorem Inv_congr {st st1 : GenState} (h1 : st1.timetable = st.timetable)
    (h2 : st1.roomSchedule = st.roomSchedule) (h3 : st1.teacherSchedule = st.teacherSchedule)
    (h4 : st1.placements = st.placements) (h : Inv st) : Inv st1 := by
  refine Inv_extend [] h ?_ ?_ ?_ List.Pairwise.nil ?_ ?_ ?_ ?_
  · rw [h4, List.append_nil]
  · intro d s y
    rw [h2]
    simp
  · intro d s y
    rw [h3]
    simp
  · intro q hq; cases hq
  · intro q hq; cases hq
  · intro q hq; cases hq
  · intro c d s cell hc
    rw [h1] at hc
    exact Or.inr (Or.inr (Or.inl hc))

theorem Inv_coreClosed (courseName : String) : CoreClosed courseName Inv where
  congr := fun _ _ h1 h2 h3 h4 _ h => Inv_congr h1 h2 h3 h4 h
  lab := fun ctx _ st day pair group room hpair hg h =>
    Inv_lab ctx st day pair group room hpair hg h
  lecture := fun ctx _ st day slot room hslot hg h => Inv_lecture ctx st day slot room hslot hg h

/-! ## The fill step -/

theorem fillCell_eq (dIndex sIndex : Nat) (cell : Option Cell) :
    fillCell dIndex sIndex cell =
      if sIndex = 4 then cell else some (cell.getD libraryCell) := by
  unfold fillCell
  by_cases h4 : sIndex = 4
  · simp [h4]
  · cases cell <;> simp [h4]

theorem getElem?_fillRow (dIndex : Nat) (row : List (Option Cell)) :
    ∀ (k i : Nat), (fillRow dIndex k row)[i]? = (row[i]?).map (fillCell dIndex (k + i)) := by
  induction row with
  | nil => intro k i; simp [fillRow]
  | cons cell rest ih =>
    intro k i
    cases i with
    | zero => simp [fillRow]
    | succ i =>
      simp only [fillRow, List.getElem?_cons_succ]
      rw [ih (k + 1) i]
      have hk : k + 1 + i = k + (i + 1) := by omega
      rw [hk]

theorem length_fillRow (dIndex : Nat) (row : List (Option Cell)) :
    ∀ k : Nat, (fillRow dIndex k row).length = row.length := by
  induction row with
  | nil => intro k; rfl
  | cons cell rest ih => intro k; simp [fillRow, ih]

theorem fillRow_dIndex (dIndex : Nat) (row : List (Option Cell)) (k : Nat) :
    fillRow dIndex k row = fillRow 0 k row := by
  apply List.ext_getElem?
  intro i
  have hf : fillCell dIndex (k + i) = fillCell 0 (k + i) :=
    funext fun c => by rw [fillCell_eq, fillCell_eq]
  rw [getElem?_fillRow, getElem?_fillRow, hf]

theorem fillRow_idem (row : List (Option Cell)) :
    fillRow 0 0 (fillRow 0 0 row) = fillRow 0 0 row := by
  apply List.ext_getElem?
  intro i
  rw [getElem?_fillRow, getElem?_fillRow]
  cases row[i]? with
  | none => rfl
  | some cell =>
    simp only [Option.map_some', fillCell_eq, Nat.zero_add]
    by_cases h4 : i = 4 <;> simp [h4]

theorem fillDays_eq (courseName : String) (ds : List String) :
    ∀ (k : Nat) (tt : String → String → List (Option Cell)) (c d : String),
      fillDays courseName k ds tt c d =
        if c = courseName ∧ d ∈ ds then fillRow 0 0 (tt c d) else tt c d := by
  induction ds with
  | nil => intro k tt c d; simp [fillDays]
  | cons day rest ih =>
    intro k tt c d
    rw [fillDays, ih]
    by_cases hc : c = courseName
    · subst hc
      by_cases hd : d = day
      · subst hd
        by_cases hr : d ∈ rest
        · simp [hr, fillRow_dIndex k, fillRow_idem]
        · simp [hr, fillRow_dIndex k]
      · by_cases hr : d ∈ rest
        · simp [hr, hd]
        · simp [hr, hd]
    · simp [hc]

/-! ## The invariant holds for the result -/

theorem emptyRow_eq :
    emptyRow = [none, none, none, none, some breakCell, none, none, none, none] := rfl

theorem getElem?_emptyRow (s : Nat) (cell : Cell) (h : emptyRow[s]? = some (some cell)) :
    s = 4 ∧ cell = breakCell := by
  rw [emptyRow_eq] at h
  rcases s with _ | _ | _ | _ | _ | _ | _ | _ | _ | s <;> simp at h
  exact ⟨rfl, h.symm⟩

theorem Inv_courseStart (course : Course) {st : GenState} (h : Inv st) :
    Inv (courseStart course st) := by
  refine Inv_extend [] h ?_ ?_ ?_ List.Pairwise.nil ?_ ?_ ?_ ?_
  · simp [courseStart]
  · intro d s y
    simp [courseStart]
  · intro d s y
    simp [courseStart]
  · intro q hq; cases hq
  · intro q hq; cases hq
  · intro q hq; cases hq
  · intro c d s cell hc
    simp only [courseStart] at hc
    by_cases hcn : c = course.courseShortName
    · simp only [hcn, if_true] at hc
      by_cases hd : d ∈ days
      · simp only [hd, if_true] at hc
        exact Or.inl (getElem?_emptyRow s cell hc)
      · simp [hd] at hc
    · simp only [hcn, if_false] at hc
      exact Or.inr (Or.inr (Or.inl hc))

theorem Inv_beforeFill (rand : Nat → Nat) (teachers : List Teacher)
    (classrooms : List Classroom) (course : Course) {st : GenState} (h : Inv st) :
    Inv (beforeFill rand teachers classrooms st course) :=
  foldl_scheduleSubject_closed rand teachers classrooms course _
    (Inv_coreClosed course.courseShortName) _ _ (Inv_courseStart course h)

theorem Inv_scheduleCourse (rand : Nat → Nat) (teachers : List Teacher)
    (classrooms : List Classroom) (course : Course) {st : GenState} (h : Inv st) :
    Inv (scheduleCourse rand teachers classrooms st course) := by
  refine Inv_extend [] (Inv_beforeFill rand teachers classrooms course h) ?_ ?_ ?_
    List.Pairwise.nil ?_ ?_ ?_ ?_
  · simp [scheduleCourse]
  · intro d s y
    simp [scheduleCourse]
  · intro d s y
    simp [scheduleCourse]
  · intro q hq; cases hq
  · intro q hq; cases hq
  · intro q hq; cases hq
  · intro c d s cell hc
    simp only [scheduleCourse, fillDays_eq] at hc
    split at hc
    · rw [getElem?_fillRow] at hc
      cases hrow : ((beforeFill rand teachers classrooms st course).timetable c d)[s]? with
      | none => rw [hrow] at hc; cases hc
      | some x =>
        rw [hrow] at hc
        simp only [Option.map_some', Nat.zero_add, Option.some.injEq, fillCell_eq] at hc
        by_cases h4 : s = 4
        · simp only [h4, if_true] at hc
          subst hc
          exact Or.inr (Or.inr (Or.inl rfl))
        · simp only [h4, if_false, Option.some.injEq] at hc
          cases x with
          | none =>
            simp only [Option.getD_none] at hc
            exact Or.inr (Or.inl hc.symm)
          | some y =>
            simp only [Option.getD_some] at hc
            subst hc
            exact Or.inr (Or.inr (Or.inl rfl))
    · exact Or.inr (Or.inr (Or.inl hc))

theorem Inv_foldl_scheduleCourse (rand : Nat → Nat) (teachers : List Teacher)
    (classrooms : List Classroom) (courses : List Course) :
    ∀ st : GenState, Inv st →
      Inv (courses.foldl (scheduleCourse rand teachers classrooms) st) := by
  induction courses with
  | nil => intro st h; exact h
  | cons course rest ih =>
    intro st h
    rw [List.foldl_cons]
    exact ih _ (Inv_scheduleCourse rand teachers classrooms course h)

theorem Inv_timetableGenerator (rand : Nat → Nat) (courses : List Course)
    (subjects : List Subject) (teachers : List Teacher) (classrooms : List Classroom) :
    Inv (timetableGenerator rand courses subjects teachers classrooms) :=
  Inv_foldl_scheduleCourse rand teachers classrooms courses initialState Inv_initial

/-! ## Claims about the registries -/

theorem cellAt_eq_some (st : GenState) (c d : String) (s : Nat) (x : Cell) :
    cellAt st c d s = some x ↔ (st.timetable c d)[s]? = some (some x) := by
  unfold cellAt
  split
  · rename_i cell h
    rw [h]
    simp
  · rename_i h
    constructor
    · intro h1; cases h1
    · intro h1; exact absurd h1 (h x)

theorem Apart.symm {p q : Placement} (h : Apart p q) : Apart q p := by
  intro hd hs
  obtain ⟨h1, h2⟩ := h hd.symm hs.symm
  exact ⟨fun e => h1 e.symm, fun t u ht hu e => h2 u t hu ht e.symm⟩

/-- Claim C2. Within one run, for every day and slot the placements made there use
pairwise different room numbers, and those with an assigned teacher use pairwise
different teacher short names; a lab placement is recorded at both of its slots. The
two registries hold, at that day and slot, exactly the room numbers and the teacher
short names of these placements. -/
theorem registry_no_double_booking (rand : Nat → Nat) (courses : List Course)
    (subjects : List Subject) (teachers : List Teacher) (classrooms : List Classroom)
    (day : String) (slot : Nat) :
    ((placementsAt (timetableGenerator rand courses subjects teachers classrooms).placements
      day slot).map fun p => p.room.roomNumber).Nodup ∧
    ((placementsAt (timetableGenerator rand courses subjects teachers classrooms).placements
      day slot).filterMap fun p => p.teacher.map fun t => t.shortName).Nodup ∧
    (∀ x, x ∈ (timetableGenerator rand courses subjects teachers classrooms).roomSchedule
        day slot ↔
      ∃ p ∈ placementsAt
        (timetableGenerator rand courses subjects teachers classrooms).placements day slot,
        p.room.roomNumber = x) ∧
    (∀ x, x ∈ (timetableGenerator rand courses subjects teachers classrooms).teacherSchedule
        day slot ↔
      ∃ p ∈ placementsAt
        (timetableGenerator rand courses subjects teachers classrooms).placements day slot,
        ∃ t, p.teacher = some t ∧ t.shortName = x) := by
  have hinv := Inv_timetableGenerator rand courses subjects teachers classrooms
  have hpw : (placementsAt
      (timetableGenerator rand courses subjects teachers classrooms).placements day slot).Pairwise
      Apart := hinv.distinct.filter _
  have hat : ∀ p ∈ placementsAt
      (timetableGenerator rand courses subjects teachers classrooms).placements day slot,
      p.day = day ∧ p.slot = slot := by
    intro p hp
    have h2 := (List.mem_filter.mp hp).2
    simpa using h2
  have hin : ∀ p ∈ (timetableGenerator rand courses subjects teachers classrooms).placements,
      p.day = day → p.slot = slot → p ∈ placementsAt
        (timetableGenerator rand courses subjects teachers classrooms).placements day slot := by
    intro p hp h1 h2
    exact List.mem_filter.mpr ⟨hp, by simp [h1, h2]⟩
  refine ⟨?_, ?_, ?_, ?_⟩
  · unfold List.Nodup
    rw [List.pairwise_map]
    refine hpw.imp_of_mem ?_
    intro p q hp hq hpq
    exact (hpq ((hat p hp).1.trans (hat q hq).1.symm) ((hat p hp).2.trans (hat q hq).2.symm)).1
  · unfold List.Nodup
    rw [List.pairwise_filterMap]
    refine hpw.imp_of_mem ?_
    intro p q hp hq hpq x hx y hy
    have h2 := (hpq ((hat p hp).1.trans (hat q hq).1.symm)
      ((hat p hp).2.trans (hat q hq).2.symm)).2
    rw [Option.mem_def, Option.map_eq_some'] at hx hy
    obtain ⟨t, ht, rfl⟩ := hx
    obtain ⟨u, hu, rfl⟩ := hy
    exact h2 t u ht hu
  · intro x
    constructor
    · intro hx
      obtain ⟨p, hp, h1, h2, h3⟩ := hinv.roomFrom day slot x hx
      exact ⟨p, hin p hp h1 h2, h3⟩
    · rintro ⟨p, hp, rfl⟩
      have h1 := hinv.roomIn p (List.mem_of_mem_filter hp)
      rw [(hat p hp).1, (hat p hp).2] at h1
      exact h1
  · intro x
    constructor
    · intro hx
      obtain ⟨p, hp, h1, h2, h3⟩ := hinv.teacherFrom day slot x hx
      exact ⟨p, hin p hp h1 h2, h3⟩
    · rintro ⟨p, hp, t, ht, rfl⟩
      have h1 := hinv.teacherIn p (List.mem_of_mem_filter hp) t ht
      rw [(hat p hp).1, (hat p hp).2] at h1
      exact h1

/-- Claim C4. Every cell placed for a subject with assigned teacher `t` at day `d` and
slot `s` (each of the two slots of a lab) was placed with
`isTeacherAvailable(t, d, slots[s])` true. -/
theorem placed_teacher_available (rand : Nat → Nat) (courses : List Course)
    (subjects : List Subject) (teachers : List Teacher) (classrooms : List Classroom)
    (p : Placement)
    (hp : p ∈ (timetableGenerator rand courses subjects teachers classrooms).placements)
    (t : Teacher) (ht : p.teacher = some t) :
    isTeacherAvailable (some t) p.day (slotTimeAt p.slot) = true :=
  (Inv_timetableGenerator rand courses subjects teachers classrooms).avail p hp t ht

/-- Witness of claim C4: the teacher of the example is away on Monday from 9:00 to
10:30, the lecture is placed on Monday in the third slot, where the teacher is
available. -/
theorem placed_teacher_available_witness :
    examplePlacement ∈
      (timetableGenerator exampleRand exampleCourses [] [exampleTeacher]
        exampleRooms).placements ∧
    isTeacherAvailable (some exampleTeacher) "Monday" (slotTimeAt 2) = true :=
  ⟨by decide, placed_teacher_available exampleRand exampleCourses [] [exampleTeacher]
    exampleRooms examplePlacement (by decide) exampleTeacher rfl⟩

/-! ## Claim C1: cells of different courses at the same day and slot -/

theorem teacherLabel_ne_TBA (teacher : Option Teacher) (h : teacherLabel teacher ≠ "TBA") :
    ∃ t, teacher = some t ∧ t.shortName = teacherLabel teacher := by
  cases teacher with
  | none => exact absurd rfl h
  | some t =>
    refine ⟨t, rfl, ?_⟩
    unfold teacherLabel at h ⊢
    by_cases he : t.shortName = ""
    · simp [he] at h
    · simp [he]

/-- Counterexample to claim C1 as written. In the run of the example the grids of CS1
and CS2 hold, on Monday in the second slot, two Library fillers, which share the room
label Library; in the first slot they hold two placed cells that share the teacher
label TBA and the room label of two rooms with different numbers. -/
theorem noSharedLabel_counterexample :
    cellAt (timetableGenerator exampleRand exampleCourses [] [] exampleRooms) "CS1" "Monday" 1
      = some libraryCell ∧
    cellAt (timetableGenerator exampleRand exampleCourses [] [] exampleRooms) "CS2" "Monday" 1
      = some libraryCell ∧
    cellAt (timetableGenerator exampleRand exampleCourses [] [] exampleRooms) "CS1" "Monday" 0
      = some ⟨"A, B, C", "Maths", "TBA"⟩ ∧
    cellAt (timetableGenerator exampleRand exampleCourses [] [] exampleRooms) "CS2" "Monday" 0
      = some ⟨"A, B, C", "Physics", "TBA"⟩ ∧
    ¬ NoSharedLabel (timetableGenerator exampleRand exampleCourses [] [] exampleRooms) := by
  refine ⟨by decide, by decide, by decide, by decide, ?_⟩
  intro h
  have h1 := h "CS1" "CS2" "Monday" 1 libraryCell libraryCell (by decide) (by decide)
    (by decide) (by decide) (by decide)
  exact h1.2 ⟨by decide, rfl⟩

/-- Claim C1, amended. In every result, for two different courses, a day and a slot, two
cells found there that are neither the Break marker nor the Library filler were written
by two placements that use different room numbers, and when the two cells carry the
same teacher label, that label is the placeholder TBA. -/
theorem placed_cells_apart (rand : Nat → Nat) (courses : List Course)
    (subjects : List Subject) (teachers : List Teacher) (classrooms : List Classroom)
    (c1 c2 d : String) (s : Nat) (x y : Cell) (hne : c1 ≠ c2)
    (hx : cellAt (timetableGenerator rand courses subjects teachers classrooms) c1 d s = some x)
    (hy : cellAt (timetableGenerator rand courses subjects teachers classrooms) c2 d s = some y)
    (hxb : x ≠ breakCell) (hyb : y ≠ breakCell)
    (hxl : x ≠ libraryCell) (hyl : y ≠ libraryCell) :
    (∃ p ∈ (timetableGenerator rand courses subjects teachers classrooms).placements,
      ∃ q ∈ (timetableGenerator rand courses subjects teachers classrooms).placements,
        p.course = c1 ∧ q.course = c2 ∧ p.day = d ∧ q.day = d ∧ p.slot = s ∧ q.slot = s ∧
        p.cell = x ∧ q.cell = y ∧ p.room.roomNumber ≠ q.room.roomNumber) ∧
    (x.teacher = y.teacher → x.teacher = "TBA") := by
  have hinv := Inv_timetableGenerator rand courses subjects teachers classrooms
  rw [cellAt_eq_some] at hx hy
  rcases hinv.origin c1 d s x hx with h1 | h1 | ⟨p, hp, hpc, hpd, hps, hpx⟩
  · exact absurd h1.2 hxb
  · exact absurd h1 hxl
  rcases hinv.origin c2 d s y hy with h2 | h2 | ⟨q, hq, hqc, hqd, hqs, hqy⟩
  · exact absurd h2.2 hyb
  · exact absurd h2 hyl
  have hpq : p ≠ q := by
    intro e
    apply hne
    rw [← hpc, ← hqc, e]
  have hap : Apart p q :=
    hinv.distinct.forall (fun _ _ h => Apart.symm h) hp hq hpq
  obtain ⟨hroom, hteach⟩ := hap (hpd.trans hqd.symm) (hps.trans hqs.symm)
  refine ⟨⟨p, hp, q, hq, hpc, hqc, hpd, hqd, hps, hqs, hpx, hqy, hroom⟩, ?_⟩
  intro hxy
  by_contra hT
  have hxt : x.teacher = teacherLabel p.teacher := by
    rw [← hpx]; exact (hinv.wellPlaced p hp).teacher
  have hyt : y.teacher = teacherLabel q.teacher := by
    rw [← hqy]; exact (hinv.wellPlaced q hq).teacher
  obtain ⟨t, ht, ht2⟩ := teacherLabel_ne_TBA p.teacher (by rw [← hxt]; exact hT)
  obtain ⟨u, hu, hu2⟩ := teacherLabel_ne_TBA q.teacher (by rw [← hyt, ← hxy]; exact hT)
  apply hteach t u ht hu
  rw [ht2, hu2, ← hxt, ← hyt]
  exact hxy

/-- Witness of the amended claim C1: the two placed cells of the example on Monday in
the first slot. -/
theorem placed_cells_apart_witness :
    (∃ p ∈ (timetableGenerator exampleRand exampleCourses [] [] exampleRooms).placements,
      ∃ q ∈ (timetableGenerator exampleRand exampleCourses [] [] exampleRooms).placements,
        p.course = "CS1" ∧ q.course = "CS2" ∧ p.day = "Monday" ∧ q.day = "Monday" ∧
        p.slot = 0 ∧ q.slot = 0 ∧
        p.cell = ⟨"A, B, C", "Maths", "TBA"⟩ ∧ q.cell = ⟨"A, B, C", "Physics", "TBA"⟩ ∧
        p.room.roomNumber ≠ q.room.roomNumber) ∧
    ((⟨"A, B, C", "Maths", "TBA"⟩ : Cell).teacher = (⟨"A, B, C", "Physics", "TBA"⟩ : Cell).teacher →
      (⟨"A, B, C", "Maths", "TBA"⟩ : Cell).teacher = "TBA") :=
  placed_cells_apart exampleRand exampleCourses [] [] exampleRooms "CS1" "CS2" "Monday" 0
    ⟨"A, B, C", "Maths", "TBA"⟩ ⟨"A, B, C", "Physics", "TBA"⟩ (by decide) (by decide)
    (by decide) (by decide) (by decide) (by decide) (by decide)

/-! ## The effect of a placement on the grids -/

theorem length_setCell (tt : String → String → List (Option Cell)) (c d : String) (s : Nat)
    (cell : Cell) (c1 d1 : String) :
    (setCell tt c d s cell c1 d1).length = (tt c1 d1).length := by
  unfold setCell
  by_cases hcd : c1 = c ∧ d1 = d
  · obtain ⟨rfl, rfl⟩ := hcd
    simp
  · simp [hcd]

theorem getElem?_setCell_ne (tt : String → String → List (Option Cell)) (c d : String)
    (s : Nat) (cell : Cell) (c1 d1 : String) (i : Nat) (h : ¬ (c1 = c ∧ d1 = d ∧ i = s)) :
    (setCell tt c d s cell c1 d1)[i]? = (tt c1 d1)[i]? := by
  unfold setCell
  by_cases hcd : c1 = c ∧ d1 = d
  · obtain ⟨rfl, rfl⟩ := hcd
    have hi : s ≠ i := fun e => h ⟨rfl, rfl, e.symm⟩
    simp only [and_self, if_true]
    rw [List.getElem?_set_ne hi]
  · simp [hcd]

theorem getElem?_setCell_self (tt : String → String → List (Option Cell)) (c d : String)
    (s : Nat) (cell : Cell) (h : s < (tt c d).length) :
    (setCell tt c d s cell c d)[s]? = some (some cell) := by
  unfold setCell
  simp only [and_self, if_true]
  rw [List.getElem?_set]
  simp [h]

theorem lt_length_of_isNull {row : List (Option Cell)} {s : Nat} (h : isNull row s = true) :
    s < row.length :=
  (List.getElem?_eq_some.mp ((isNull_iff row s).mp h)).1

theorem placeLecture_written (ctx : Ctx) (st : GenState) (day : String) (slot : Nat)
    (room : Classroom) (hslot : slot ∈ firstHalfSlots ++ secondHalfSlots)
    (hg : LectureGuard ctx day slot room st) :
    Written ctx.courseName st (placeLecture ctx day slot room st)
      [⟨st.courseNo, ctx.courseName, st.subjectNo, ctx.subject, ctx.teacher,
        day, slot, room, none,
        ⟨roomLabel room, ctx.subject.shortName, teacherLabel ctx.teacher⟩⟩] where
  placements := rfl
  courseNo := rfl
  course := by
    intro q hq
    rw [List.mem_singleton] at hq
    subst hq
    rfl
  number := by
    intro q hq
    rw [List.mem_singleton] at hq
    subst hq
    rfl
  slot := by
    intro q hq
    rw [List.mem_singleton] at hq
    subst hq
    exact hslot
  wasNull := by
    intro q hq
    rw [List.mem_singleton] at hq
    subst hq
    exact (isNull_iff _ _).mp hg.null
  written := by
    intro q hq
    rw [List.mem_singleton] at hq
    subst hq
    exact getElem?_setCell_self _ _ _ _ _ (lt_length_of_isNull hg.null)
  partner := by
    intro q hq a b hab
    rw [List.mem_singleton] at hq
    subst hq
    cases hab
  kept := by
    intro c d i hn
    apply getElem?_setCell_ne
    intro h
    exact hn ⟨_, List.mem_singleton_self _, h.1, h.2.1.symm, h.2.2.symm⟩
  length := fun c d => length_setCell _ _ _ _ _ c d

theorem placeLab_written (ctx : Ctx) (st : GenState) (day : String) (pair : Nat × Nat)
    (group : String) (room : Classroom) (hpair : pair ∈ labSlotPairs)
    (hg : LabGuard ctx day pair.1 pair.2 room st) :
    Written ctx.courseName st (placeLab ctx day pair.1 pair.2 group room st)
      [⟨st.courseNo, ctx.courseName, st.subjectNo, ctx.subject, ctx.teacher, day, pair.1, room,
        some (pair.1, pair.2), ⟨roomLabel room, ctx.subject.shortName ++ " (" ++ group ++
          " (G" ++ (if st.scheduled < 2 then "1" else "2") ++ "))", teacherLabel ctx.teacher⟩⟩,
      ⟨st.courseNo, ctx.courseName, st.subjectNo, ctx.subject, ctx.teacher, day, pair.2, room,
        some (pair.1, pair.2), ⟨roomLabel room, ctx.subject.shortName ++ " (" ++ group ++
          " (G" ++ (if st.scheduled < 2 then "1" else "2") ++ "))",
          teacherLabel ctx.teacher⟩⟩] := by
  obtain ⟨slot1, slot2⟩ := pair
  obtain ⟨hne, hs1, hs2⟩ := mem_slots_ne hpair
  have hw1 : ∀ cell : Cell,
      (setCell (setCell st.timetable ctx.courseName day slot1 cell) ctx.courseName day slot2 cell
        ctx.courseName day)[slot1]? = some (some cell) := by
    intro cell
    rw [getElem?_setCell_ne _ _ _ _ _ _ _ _ (fun h => hne h.2.2)]
    exact getElem?_setCell_self _ _ _ _ _ (lt_length_of_isNull hg.null1)
  have hw2 : ∀ cell : Cell,
      (setCell (setCell st.timetable ctx.courseName day slot1 cell) ctx.courseName day slot2 cell
        ctx.courseName day)[slot2]? = some (some cell) := by
    intro cell
    apply getElem?_setCell_self
    rw [length_setCell]
    exact lt_length_of_isNull hg.null2
  refine ⟨rfl, rfl, ?_, ?_, ?_, ?_, ?_, ?_, ?_, ?_⟩
  · intro q hq
    simp only [List.mem_cons, List.mem_singleton, List.not_mem_nil, or_false] at hq
    rcases hq with rfl | rfl <;> rfl
  · intro q hq
    simp only [List.mem_cons, List.mem_singleton, List.not_mem_nil, or_false] at hq
    rcases hq with rfl | rfl <;> rfl
  · intro q hq
    simp only [List.mem_cons, List.mem_singleton, List.not_mem_nil, or_false] at hq
    rcases hq with rfl | rfl
    · exact hs1
    · exact hs2
  · intro q hq
    simp only [List.mem_cons, List.mem_singleton, List.not_mem_nil, or_false] at hq
    rcases hq with rfl | rfl
    · exact (isNull_iff _ _).mp hg.null1
    · exact (isNull_iff _ _).mp hg.null2
  · intro q hq
    simp only [List.mem_cons, List.mem_singleton, List.not_mem_nil, or_false] at hq
    rcases hq with rfl | rfl
    · exact hw1 _
    · exact hw2 _
  · intro q hq a b hab
    simp only [List.mem_cons, List.mem_singleton, List.not_mem_nil, or_false] at hq
    rcases hq with rfl | rfl
    · cases hab
      exact ⟨hw1 _, hw2 _⟩
    · cases hab
      exact ⟨hw1 _, hw2 _⟩
  · intro c d i hn
    simp only [placeLab]
    rw [getElem?_setCell_ne, getElem?_setCell_ne]
    · intro h
      exact hn ⟨_, List.mem_cons_self _ _, h.1, h.2.1.symm, h.2.2.symm⟩
    · intro h
      exact hn ⟨_, List.mem_cons_of_mem _ (List.mem_singleton_self _), h.1, h.2.1.symm,
        h.2.2.symm⟩
  · intro c d
    simp only [placeLab]
    rw [length_setCell, length_setCell]

/-- A property is kept by the scheduling of the subjects of a course when it depends on
the grids, the registries and the placements only and every write keeps it. -/
theorem CoreClosed.of_written {courseName : String} {P : GenState → Prop}
    (hcongr : ∀ st st1 : GenState, st1.timetable = st.timetable →
      st1.roomSchedule = st.roomSchedule → st1.teacherSchedule = st.teacherSchedule →
      st1.placements = st.placements → st1.courseNo = st.courseNo → P st → P st1)
    (hstep : ∀ (st st1 : GenState) (news : List Placement),
      Written courseName st st1 news → P st → P st1) :
    CoreClosed courseName P where
  congr := hcongr
  lab := by
    intro ctx hc st day pair group room hpair hg h
    have hw := placeLab_written ctx st day pair group room hpair hg
    rw [hc] at hw
    exact hstep _ _ _ hw h
  lecture := by
    intro ctx hc st day slot room hslot hg h
    have hw := placeLecture_written ctx st day slot room hslot hg
    rw [hc] at hw
    exact hstep _ _ _ hw h

/-! ## The shape of the grids -/

theorem four_not_mem_slots : 4 ∉ firstHalfSlots ++ secondHalfSlots := by decide

theorem Shape_coreClosed (courseName c : String) : CoreClosed courseName (Shape c) := by
  apply CoreClosed.of_written
  · intro st st1 h1 _ _ _ _ h
    unfold Shape
    rw [h1]
    exact h
  · intro st st1 news hw h d hd
    rw [hw.length, hw.kept]
    · exact h d hd
    · rintro ⟨q, hq, -, -, h4⟩
      apply four_not_mem_slots
      rw [← h4]
      exact hw.slot q hq

theorem other_coreClosed (courseName c : String) (hc : c ≠ courseName)
    (f : String → List (Option Cell)) :
    CoreClosed courseName (fun st => st.timetable c = f) := by
  apply CoreClosed.of_written
  · intro st st1 h1 _ _ _ _ h
    rw [h1]
    exact h
  · intro st st1 news hw h
    rw [← h]
    funext d
    apply List.ext_getElem?
    intro i
    apply hw.kept
    rintro ⟨q, -, h1, -⟩
    exact hc h1

theorem scheduleCourse_other (rand : Nat → Nat) (teachers : List Teacher)
    (classrooms : List Classroom) (st : GenState) (course : Course) (c : String)
    (hc : c ≠ course.courseShortName) :
    (scheduleCourse rand teachers classrooms st course).timetable c = st.timetable c := by
  have h0 : (courseStart course st).timetable c = st.timetable c := by
    funext d
    simp [courseStart, hc]
  have h1 : (beforeFill rand teachers classrooms st course).timetable c = st.timetable c :=
    foldl_scheduleSubject_closed rand teachers classrooms course _
      (other_coreClosed course.courseShortName c hc (st.timetable c)) _ _ h0
  funext d
  simp only [scheduleCourse, fillDays_eq, hc, false_and, if_false]
  rw [h1]

theorem Shape_beforeFill (rand : Nat → Nat) (teachers : List Teacher)
    (classrooms : List Classroom) (st : GenState) (course : Course) :
    Shape course.courseShortName (beforeFill rand teachers classrooms st course) := by
  refine foldl_scheduleSubject_closed rand teachers classrooms course _
    (Shape_coreClosed course.courseShortName course.courseShortName) _ _ ?_
  intro d hd
  simp only [courseStart, if_true, hd]
  rw [emptyRow_eq]
  exact ⟨rfl, rfl⟩

theorem Filled_scheduleCourse_self (rand : Nat → Nat) (teachers : List Teacher)
    (classrooms : List Classroom) (st : GenState) (course : Course) :
    Filled course.courseShortName (scheduleCourse rand teachers classrooms st course) := by
  intro d hd
  obtain ⟨hlen, h4⟩ := Shape_beforeFill rand teachers classrooms st course d hd
  simp only [scheduleCourse, fillDays_eq, hd, and_self, if_true]
  refine ⟨by rw [length_fillRow]; exact hlen, ?_, ?_⟩
  · rw [getElem?_fillRow, h4]
    rfl
  · intro i hi
    rw [getElem?_fillRow]
    have hlt : i < ((beforeFill rand teachers classrooms st course).timetable
        course.courseShortName d).length := by rw [hlen]; exact hi
    rw [List.getElem?_eq_getElem hlt]
    simp only [Option.map_some', Nat.zero_add, fillCell_eq]
    by_cases hi4 : i = 4
    · subst hi4
      rw [List.getElem?_eq_getElem hlt] at h4
      simp only [Option.some.injEq] at h4
      exact ⟨breakCell, by simp [h4]⟩
    · refine ⟨(((beforeFill rand teachers classrooms st course).timetable
        course.courseShortName d)[i]).getD libraryCell, ?_⟩
      simp only [hi4, if_false]

theorem Filled_scheduleCourse (rand : Nat → Nat) (teachers : List Teacher)
    (classrooms : List Classroom) (st : GenState) (course : Course) (c : String)
    (h : Filled c st) : Filled c (scheduleCourse rand teachers classrooms st course) := by
  by_cases hc : c = course.courseShortName
  · rw [hc]
    exact Filled_scheduleCourse_self rand teachers classrooms st course
  · unfold Filled
    rw [scheduleCourse_other rand teachers classrooms st course c hc]
    exact h

theorem Filled_foldl (rand : Nat → Nat) (teachers : List Teacher)
    (classrooms : List Classroom) (c : String) (courses : List Course) :
    ∀ st : GenState, Filled c st →
      Filled c (courses.foldl (scheduleCourse rand teachers classrooms) st) := by
  induction courses with
  | nil => intro st h; exact h
  | cons course rest ih =>
    intro st h
    rw [List.foldl_cons]
    exact ih _ (Filled_scheduleCourse rand teachers classrooms st course c h)

theorem Filled_foldl_mem (rand : Nat → Nat) (teachers : List Teacher)
    (classrooms : List Classroom) (courses : List Course) :
    ∀ st : GenState, ∀ course ∈ courses,
      Filled course.courseShortName
        (courses.foldl (scheduleCourse rand teachers classrooms) st) := by
  induction courses with
  | nil => intro st course hc; cases hc
  | cons c0 rest ih =>
    intro st course hc
    rw [List.foldl_cons]
    by_cases hr : course ∈ rest
    · exact ih _ course hr
    · have : course = c0 := by
        rcases List.mem_cons.mp hc with h | h
        · exact h
        · exact absurd h hr
      subst this
      exact Filled_foldl rand teachers classrooms _ rest _
        (Filled_scheduleCourse_self rand teachers classrooms st course)

theorem fill_keeps (rand : Nat → Nat) (teachers : List Teacher)
    (classrooms : List Classroom) (st : GenState) (course : Course) (c d : String) (i : Nat)
    (cell : Cell)
    (h : ((beforeFill rand teachers classrooms st course).timetable c d)[i]? =
      some (some cell)) :
    ((scheduleCourse rand teachers classrooms st course).timetable c d)[i]? =
      some (some cell) := by
  simp only [scheduleCourse, fillDays_eq]
  split
  · rw [getElem?_fillRow, h]
    simp only [Option.map_some', Nat.zero_add, fillCell_eq]
    by_cases hi4 : i = 4 <;> simp [hi4]
  · exact h

/-- Claim C3. For every course of the input and each of the five days the returned grid
has 9 entries, the entry at index 4 is the Break marker, every other entry is a cell,
either the Library filler or the cell of a recorded placement at that position; and the
fill step of a course keeps every cell that was in a grid before it. -/
theorem grid_filled (rand : Nat → Nat) (courses : List Course)
    (subjects : List Subject) (teachers : List Teacher) (classrooms : List Classroom) :
    (∀ course ∈ courses, ∀ day ∈ days,
      ((timetableGenerator rand courses subjects teachers classrooms).timetable
        course.courseShortName day).length = 9 ∧
      cellAt (timetableGenerator rand courses subjects teachers classrooms)
        course.courseShortName day 4 = some breakCell ∧
      ∀ i, i < 9 → i ≠ 4 →
        ∃ cell, cellAt (timetableGenerator rand courses subjects teachers classrooms)
          course.courseShortName day i = some cell ∧
          (cell = libraryCell ∨
            ∃ p ∈ (timetableGenerator rand courses subjects teachers classrooms).placements,
              p.course = course.courseShortName ∧ p.day = day ∧ p.slot = i ∧ p.cell = cell)) ∧
    days.length = 5 ∧
    breakCell = ⟨"", "Break", ""⟩ ∧ libraryCell = ⟨"Library", "Library", ""⟩ ∧
    (∀ (st : GenState) (course : Course) (c d : String) (i : Nat) (cell : Cell),
      cellAt (beforeFill rand teachers classrooms st course) c d i = some cell →
      cellAt (scheduleCourse rand teachers classrooms st course) c d i = some cell) := by
  refine ⟨?_, rfl, rfl, rfl, ?_⟩
  · intro course hc day hd
    have hinv := Inv_timetableGenerator rand courses subjects teachers classrooms
    obtain ⟨hlen, h4, hall⟩ :=
      Filled_foldl_mem rand teachers classrooms courses initialState course hc day hd
    refine ⟨hlen, (cellAt_eq_some _ _ _ _ _).mpr h4, ?_⟩
    intro i hi hi4
    obtain ⟨cell, hcell⟩ := hall i hi
    refine ⟨cell, (cellAt_eq_some _ _ _ _ _).mpr hcell, ?_⟩
    rcases hinv.origin _ _ _ _ hcell with h1 | h1 | h1
    · exact absurd h1.1 hi4
    · exact Or.inl h1
    · exact Or.inr h1
  · intro st course c d i cell h
    rw [cellAt_eq_some] at h ⊢
    exact fill_keeps rand teachers classrooms st course c d i cell h

/-- Witness of claim C3: the grid of the first course of the example on Monday. -/
theorem grid_filled_witness :
    ((timetableGenerator exampleRand exampleCourses [] [] exampleRooms).timetable
      "CS1" "Monday").length = 9 ∧
    cellAt (timetableGenerator exampleRand exampleCourses [] [] exampleRooms) "CS1" "Monday" 4
      = some breakCell :=
  ⟨((grid_filled exampleRand exampleCourses [] [] exampleRooms).1
      ⟨some "c1", "CS1", some 60, none, [⟨some "s1", "Maths", "Mathematics", false, 1, none⟩]⟩
      (by decide) "Monday" (by decide)).1,
    ((grid_filled exampleRand exampleCourses [] [] exampleRooms).1
      ⟨some "c1", "CS1", some 60, none, [⟨some "s1", "Maths", "Mathematics", false, 1, none⟩]⟩
      (by decide) "Monday" (by decide)).2.1⟩

/-! ## Recorded placements stay in their grid -/

theorem LiveIf_coreClosed (courseName : String) (C : Placement → Prop) :
    CoreClosed courseName (fun st => ∀ p ∈ st.placements, C p → LiveAt st p) := by
  apply CoreClosed.of_written
  · intro st st1 h1 _ _ h4 _ h
    unfold LiveAt
    rw [h1, h4]
    exact h
  · intro st st1 news hw h p hp hC
    rw [hw.placements, List.mem_append] at hp
    have hkeep : ∀ (i : Nat) (x : Cell),
        (st.timetable p.course p.day)[i]? = some (some x) →
        (st1.timetable p.course p.day)[i]? = some (some x) := by
      intro i x hx
      rw [hw.kept]
      · exact hx
      · rintro ⟨q, hq, h1, h2, h3⟩
        have hn := hw.wasNull q hq
        rw [h2, h3, ← h1, hx] at hn
        cases hn
    rcases hp with hp | hp
    · obtain ⟨h1, h2⟩ := h p hp hC
      refine ⟨hkeep _ _ h1, ?_⟩
      intro a b hab
      exact ⟨hkeep _ _ (h2 a b hab).1, hkeep _ _ (h2 a b hab).2⟩
    · unfold LiveAt
      rw [hw.course p hp]
      exact ⟨hw.written p hp, hw.partner p hp⟩

theorem Numbered_coreClosed (done : List String) (name : String) :
    CoreClosed name (Numbered done name) := by
  apply CoreClosed.of_written
  · intro st st1 _ _ _ h4 h5 h
    unfold Numbered
    rw [h4, h5]
    exact h
  · intro st st1 news hw h
    refine ⟨hw.courseNo.trans h.1, ?_⟩
    intro p hp
    rw [hw.placements, List.mem_append] at hp
    rcases hp with hp | hp
    · exact h.2 p hp
    · exact Or.inr ⟨(hw.number p hp).trans h.1, hw.course p hp⟩

theorem Returned_of_append {done : List String} {name : String} {p : Placement}
    (hlt : p.courseNo < done.length) (h : Returned (done ++ [name]) p) :
    Returned done p ∧ p.course ≠ name := by
  constructor
  · intro j hj e
    have hjl : j < done.length := by
      by_contra hge
      rw [List.getElem?_eq_none (by omega)] at e
      cases e
    apply h j hj
    rw [List.getElem?_append_left hjl]
    exact e
  · intro e
    apply h done.length hlt
    rw [List.getElem?_concat_length, e]

theorem Kept_scheduleCourse (rand : Nat → Nat) (teachers : List Teacher)
    (classrooms : List Classroom) (done : List String) (st : GenState) (course : Course)
    (h : Kept done st) :
    Kept (done ++ [course.courseShortName])
      (scheduleCourse rand teachers classrooms st course) := by
  obtain ⟨hno, hnum, hlive⟩ := h
  have h0 : ∀ p ∈ (courseStart course st).placements,
      Returned (done ++ [course.courseShortName]) p → LiveAt (courseStart course st) p := by
    intro p hp hret
    have hp1 : p ∈ st.placements := hp
    obtain ⟨hr, hne⟩ := Returned_of_append (hnum p hp1).1 hret
    unfold LiveAt
    simp only [courseStart, hne, if_false]
    exact hlive p hp1 hr
  have h1 : ∀ p ∈ (beforeFill rand teachers classrooms st course).placements,
      Returned (done ++ [course.courseShortName]) p →
      LiveAt (beforeFill rand teachers classrooms st course) p :=
    foldl_scheduleSubject_closed rand teachers classrooms course _
      (LiveIf_coreClosed course.courseShortName _) _ _ h0
  have h2 : Numbered done course.courseShortName
      (beforeFill rand teachers classrooms st course) :=
    foldl_scheduleSubject_closed rand teachers classrooms course _
      (Numbered_coreClosed done course.courseShortName) _ _
      ⟨hno, fun p hp => Or.inl (hnum p hp)⟩
  refine ⟨?_, ?_, ?_⟩
  · simp only [scheduleCourse, List.length_append, List.length_singleton]
    rw [h2.1]
  · intro p hp
    have hp1 : p ∈ (beforeFill rand teachers classrooms st course).placements := hp
    rw [List.length_append, List.length_singleton]
    rcases h2.2 p hp1 with ⟨hlt, hget⟩ | ⟨heq, hname⟩
    · refine ⟨by omega, ?_⟩
      rw [List.getElem?_append_left hlt]
      exact hget
    · refine ⟨by omega, ?_⟩
      rw [heq, List.getElem?_concat_length, hname]
  · intro p hp hret
    have hp1 : p ∈ (beforeFill rand teachers classrooms st course).placements := hp
    obtain ⟨h3, h4⟩ := h1 p hp1 hret
    refine ⟨fill_keeps rand teachers classrooms st course _ _ _ _ h3, ?_⟩
    intro a b hab
    exact ⟨fill_keeps rand teachers classrooms st course _ _ _ _ (h4 a b hab).1,
      fill_keeps rand teachers classrooms st course _ _ _ _ (h4 a b hab).2⟩

theorem Kept_foldl (rand : Nat → Nat) (teachers : List Teacher)
    (classrooms : List Classroom) (courses : List Course) :
    ∀ (done : List String) (st : GenState), Kept done st →
      Kept (done ++ courses.map fun c => c.courseShortName)
        (courses.foldl (scheduleCourse rand teachers classrooms) st) := by
  induction courses with
  | nil =>
    intro done st h
    rw [List.map_nil, List.append_nil]
    exact h
  | cons course rest ih =>
    intro done st h
    rw [List.foldl_cons, List.map_cons]
    have h1 := ih _ _ (Kept_scheduleCourse rand teachers classrooms done st course h)
    rw [List.append_assoc] at h1
    exact h1

theorem Kept_timetableGenerator (rand : Nat → Nat) (courses : List Course)
    (subjects : List Subject) (teachers : List Teacher) (classrooms : List Classroom) :
    Kept (courses.map fun c => c.courseShortName)
      (timetableGenerator rand courses subjects teachers classrooms) := by
  have h := Kept_foldl rand teachers classrooms courses [] initialState
    ⟨rfl, (by intro p hp; cases hp), (by intro p hp; cases hp)⟩
  rw [List.nil_append] at h
  exact h

/-- Claim C5. Every cell written by a lab placement into a grid that is returned (no
later course of the input has the short name of its course, so the grid is not
replaced) is in the returned grid at both positions of its pair; the pair is one of
(0,1), (2,3), (5,6), (7,8) of one day and the only one of them that contains the
position; both positions hold the same cell; the pair neither contains the Break index 4
nor lies on both sides of it. -/
theorem lab_cells_paired (rand : Nat → Nat) (courses : List Course)
    (subjects : List Subject) (teachers : List Teacher) (classrooms : List Classroom)
    (p : Placement)
    (hp : p ∈ (timetableGenerator rand courses subjects teachers classrooms).placements)
    (a b : Nat) (hlab : p.labPair = some (a, b))
    (hret : Returned (courses.map fun c => c.courseShortName) p) :
    (courses.map fun c => c.courseShortName)[p.courseNo]? = some p.course ∧
    (a, b) ∈ [(0, 1), (2, 3), (5, 6), (7, 8)] ∧ (p.slot = a ∨ p.slot = b) ∧ p.day ∈ days ∧
    cellAt (timetableGenerator rand courses subjects teachers classrooms) p.course p.day a
      = some p.cell ∧
    cellAt (timetableGenerator rand courses subjects teachers classrooms) p.course p.day b
      = some p.cell ∧
    (∀ pair ∈ labSlotPairs, p.slot = pair.1 ∨ p.slot = pair.2 → pair = (a, b)) ∧
    b = a + 1 ∧ a ≠ 4 ∧ b ≠ 4 ∧ ¬ (a < 4 ∧ 4 < b) := by
  have hinv := Inv_timetableGenerator rand courses subjects teachers classrooms
  obtain ⟨-, hnum, hlive⟩ := Kept_timetableGenerator rand courses subjects teachers classrooms
  obtain ⟨hmem, hslot⟩ := (hinv.wellPlaced p hp).lab a b hlab
  obtain ⟨ha, hb⟩ := (hlive p hp hret).2 a b hlab
  refine ⟨(hnum p hp).2, hmem, hslot, (hinv.wellPlaced p hp).day_mem,
    (cellAt_eq_some _ _ _ _ _).mpr ha, (cellAt_eq_some _ _ _ _ _).mpr hb, ?_⟩
  simp only [labSlotPairs, List.mem_cons, Prod.mk.injEq, List.mem_singleton, List.not_mem_nil,
    or_false] at hmem
  rcases hmem with ⟨rfl, rfl⟩ | ⟨rfl, rfl⟩ | ⟨rfl, rfl⟩ | ⟨rfl, rfl⟩
  all_goals
    refine ⟨?_, by decide, by decide, by decide, by decide⟩
    intro pair hpair hps
    simp only [labSlotPairs, List.mem_cons, List.mem_singleton, List.not_mem_nil,
      or_false] at hpair
    rcases hpair with rfl | rfl | rfl | rfl <;> rcases hslot with h | h <;>
      rcases hps with h2 | h2 <;> simp_all

theorem exampleLab_returned : Returned (exampleLabCourses.map fun c => c.courseShortName)
    exampleLabPlacement := by
  intro j hj
  cases j with
  | zero => exact absurd hj (Nat.lt_irrefl _)
  | succ j => simp [exampleLabCourses]

/-- Witness of claim C5: the lab of the example is placed on Monday in the pair (0,1). -/
theorem lab_cells_paired_witness :
    cellAt (timetableGenerator exampleRand exampleLabCourses [] [] [exampleLab]) "CS3" "Monday" 0
      = some ⟨"L1, Block", "Chem (Lab-1 (G1))", "TBA"⟩ ∧
    cellAt (timetableGenerator exampleRand exampleLabCourses [] [] [exampleLab]) "CS3" "Monday" 1
      = some ⟨"L1, Block", "Chem (Lab-1 (G1))", "TBA"⟩ :=
  ⟨(lab_cells_paired exampleRand exampleLabCourses [] [] [exampleLab]
      exampleLabPlacement (by decide) 0 1 rfl exampleLab_returned).2.2.2.2.1,
    (lab_cells_paired exampleRand exampleLabCourses [] [] [exampleLab]
      exampleLabPlacement (by decide) 0 1 rfl exampleLab_returned).2.2.2.2.2.1⟩

/-! ## Claim C6: one course with one lecture subject -/

theorem bindCourseRoom_assigned (ctx : Ctx) (r : Classroom) (rest : List Classroom)
    (st : GenState) (helig : ctx.eligibleRooms = r :: rest)
    (h : st.assignedRoomForCourse = none ∨ st.assignedRoomForCourse = some r.roomNumber) :
    (bindCourseRoom ctx st).assignedRoomForCourse = some r.roomNumber := by
  unfold bindCourseRoom
  split
  · simp [helig]
  · rename_i hn
    rcases h with h | h
    · rw [h] at hn
      exact absurd rfl hn
    · exact h

theorem chooseLectureRoom_free (ctx : Ctx) (r : Classroom) (rest : List Classroom)
    (st : GenState) (day : String) (slot : Nat) (helig : ctx.eligibleRooms = r :: rest)
    (ha : st.assignedRoomForCourse = some r.roomNumber)
    (hfree : st.roomSchedule day slot = []) :
    chooseLectureRoom ctx day slot st = some r := by
  unfold chooseLectureRoom
  rw [helig, ha, hfree]
  simp

theorem tryLectureSlot_free (ctx : Ctx) (r : Classroom) (rest : List Classroom)
    (st : GenState) (day : String) (slot : Nat) (helig : ctx.eligibleRooms = r :: rest)
    (havail : ∀ t d s, ctx.teacher = some t → isTeacherAvailable (some t) d s = true)
    (h : LectureRun ctx r st)
    (hnull : isNull (st.timetable ctx.courseName day) slot = true) :
    tryLectureSlot ctx day slot st =
      (placeLecture ctx day slot r (bindCourseRoom ctx st), true) := by
  have ht := bindCourseRoom_tweak ctx st
  obtain ⟨hr, hts⟩ := h.free day slot hnull
  have hroom : chooseLectureRoom ctx day slot (bindCourseRoom ctx st) = some r :=
    chooseLectureRoom_free ctx r rest _ day slot helig
      (bindCourseRoom_assigned ctx r rest st helig h.assigned) (by rw [ht.roomSchedule]; exact hr)
  unfold tryLectureSlot
  rw [if_pos hnull, hroom]
  simp only
  have hcond : (!(((bindCourseRoom ctx st).roomSchedule day slot).contains r.roomNumber) &&
      lectureTeacherFree ctx (bindCourseRoom ctx st) day slot) = true := by
    rw [ht.roomSchedule, hr]
    unfold lectureTeacherFree
    rw [ht.teacherSchedule, hts]
    cases hT : ctx.teacher with
    | none => simp
    | some t => simp [havail t day (slotTimeAt slot) hT]
  rw [if_pos hcond]

theorem setCell_same (tt : String → String → List (Option Cell)) (c d : String) (s : Nat)
    (cell : Cell) : setCell tt c d s cell c d = (tt c d).set s (some cell) := by
  unfold setCell
  simp

theorem setCell_other (tt : String → String → List (Option Cell)) (c d : String) (s : Nat)
    (cell : Cell) (c1 d1 : String) (h : ¬ (c1 = c ∧ d1 = d)) :
    setCell tt c d s cell c1 d1 = tt c1 d1 := by
  unfold setCell
  simp [h]

theorem sum_days_bump (f : String → Nat) (day : String) (hday : day ∈ days) :
    (days.map fun d => if d = day then f day + 1 else f d).sum = (days.map f).sum + 1 := by
  simp only [days, List.mem_cons, List.mem_singleton, List.not_mem_nil, or_false] at hday
  rcases hday with rfl | rfl | rfl | rfl | rfl <;>
    simp [days] <;> omega

theorem book_other (schedule : String → Nat → List String) (day : String) (slot : Nat)
    (x : String) (d : String) (s : Nat) (h : ¬ (d = day ∧ s = slot)) :
    book schedule day slot x d s = schedule d s := by
  unfold book
  simp [h]

theorem LectureRun_place (ctx : Ctx) (r : Classroom) (st : GenState) (day : String) (slot : Nat)
    (h : LectureRun ctx r st) (hday : day ∈ days)
    (hslot : slot ∈ firstHalfSlots ++ secondHalfSlots)
    (hnull : isNull (st.timetable ctx.courseName day) slot = true)
    (hlt : st.perDayPlacement day < 2) :
    LectureRun ctx r (placeLecture ctx day slot r (bindCourseRoom ctx st)) ∧
    (placeLecture ctx day slot r (bindCourseRoom ctx st)).scheduled = st.scheduled + 1 := by
  have ht := bindCourseRoom_tweak ctx st
  have hlen := lt_length_of_isNull hnull
  have hnone := (isNull_iff _ _).mp hnull
  have h4 : slot ≠ 4 := fun e => four_not_mem_slots (e ▸ hslot)
  refine ⟨⟨?_, ?_, ?_, ?_, ?_, ?_⟩, ?_⟩
  · intro d hd
    obtain ⟨h1, h2, h3⟩ := h.rows d hd
    simp only [placeLecture, ht.timetable]
    refine ⟨by rw [length_setCell]; exact h1, ?_, ?_⟩
    · rw [getElem?_setCell_ne _ _ _ _ _ _ _ _ (fun e => h4 e.2.2.symm)]
      exact h2
    · intro i hi hi4
      by_cases hpos : d = day ∧ i = slot
      · obtain ⟨rfl, rfl⟩ := hpos
        exact Or.inr (getElem?_setCell_self _ _ _ _ _ hlen)
      · rw [getElem?_setCell_ne _ _ _ _ _ _ _ _ (fun e => hpos ⟨e.2.1, e.2.2⟩)]
        exact h3 i hi hi4
  · intro d hd
    obtain ⟨h1, h2⟩ := h.perDay d hd
    simp only [placeLecture, ht.timetable, ht.perDayPlacement]
    by_cases hdd : d = day
    · subst hdd
      simp only [if_true]
      rw [setCell_same, List.count_set _ _ _ _ hlen]
      have hget : (st.timetable ctx.courseName d)[slot] = none := by
        rw [List.getElem?_eq_getElem hlen] at hnone
        exact Option.some.inj hnone
      rw [hget]
      simp only [lectureCell] at h1 ⊢
      simp
      omega
    · simp only [hdd, if_false]
      rw [setCell_other _ _ _ _ _ _ _ (fun e => hdd e.2)]
      exact ⟨h1, h2⟩
  · simp only [placeLecture, ht.scheduled, ht.perDayPlacement]
    rw [sum_days_bump _ _ hday, ← h.sched]
  · intro d s hn
    simp only [placeLecture, ht.timetable, ht.roomSchedule, ht.teacherSchedule] at hn ⊢
    have hpos : ¬ (d = day ∧ s = slot) := by
      rintro ⟨rfl, rfl⟩
      rw [isNull_iff, getElem?_setCell_self _ _ _ _ _ hlen] at hn
      cases hn
    have hn2 : isNull (st.timetable ctx.courseName d) s = true := by
      rw [isNull_iff] at hn ⊢
      rw [getElem?_setCell_ne _ _ _ _ _ _ _ _ (fun e => hpos ⟨e.2.1, e.2.2⟩)] at hn
      exact hn
    obtain ⟨h1, h2⟩ := h.free d s hn2
    constructor
    · rw [book_other _ _ _ _ _ _ hpos]
      exact h1
    · cases ctx.teacher with
      | none => exact h2
      | some t =>
        simp only
        rw [book_other _ _ _ _ _ _ hpos]
        exact h2
  · exact Or.inr rfl
  · simp only [placeLecture, ht.scheduled, ht.placements, List.length_append, List.length_singleton]
    refine ⟨by rw [h.placed.1], ?_⟩
    intro p hp
    rw [List.mem_append, List.mem_singleton] at hp
    rcases hp with hp | rfl
    · exact h.placed.2 p hp
    · exact ⟨rfl, rfl⟩
  · simp only [placeLecture, ht.scheduled]

theorem LectureRun_exists_null (ctx : Ctx) (r : Classroom) (st : GenState) (day : String)
    (h : LectureRun ctx r st) (hday : day ∈ days) (hlt : st.perDayPlacement day < 2) :
    ∃ s ∈ firstHalfSlots ++ secondHalfSlots,
      isNull (st.timetable ctx.courseName day) s = true := by
  obtain ⟨hlen, -, hpos⟩ := h.rows day hday
  obtain ⟨hcount, -⟩ := h.perDay day hday
  rcases hpos 0 (by omega) (by omega) with h0 | h0
  · exact ⟨0, by decide, (isNull_iff _ _).mpr h0⟩
  rcases hpos 1 (by omega) (by omega) with h1 | h1
  · exact ⟨1, by decide, (isNull_iff _ _).mpr h1⟩
  exfalso
  rcases hrow : st.timetable ctx.courseName day with _ | ⟨x0, _ | ⟨x1, tl⟩⟩
  · rw [hrow] at hlen; cases hlen
  · rw [hrow] at hlen; cases hlen
  · rw [hrow] at h0 h1 hcount
    simp only [List.getElem?_cons_zero, List.getElem?_cons_succ, Option.some.injEq] at h0 h1
    subst h0
    subst h1
    rw [List.count_cons_self, List.count_cons_self] at hcount
    omega

theorem tryLectureSlots_place (ctx : Ctx) (r : Classroom) (rest : List Classroom)
    (st : GenState) (day : String) (helig : ctx.eligibleRooms = r :: rest)
    (havail : ∀ t d s, ctx.teacher = some t → isTeacherAvailable (some t) d s = true)
    (h : LectureRun ctx r st) (l : List Nat) :
    (∃ s ∈ l, isNull (st.timetable ctx.courseName day) s = true) →
    ∃ s ∈ l, isNull (st.timetable ctx.courseName day) s = true ∧
      tryLectureSlots ctx day l st =
        (placeLecture ctx day s r (bindCourseRoom ctx st), true) := by
  induction l with
  | nil =>
    rintro ⟨s, hs, -⟩
    cases hs
  | cons s0 tl ih =>
    rintro ⟨s, hs, hnull⟩
    by_cases h0 : isNull (st.timetable ctx.courseName day) s0 = true
    · refine ⟨s0, List.mem_cons_self _ _, h0, ?_⟩
      unfold tryLectureSlots
      rw [tryLectureSlot_free ctx r rest st day s0 helig havail h h0]
    · have hs2 : s ∈ tl := by
        rcases List.mem_cons.mp hs with e | e
        · rw [e] at hnull
          exact absurd hnull h0
        · exact e
      obtain ⟨s1, hs1, hn1, he⟩ := ih ⟨s, hs2, hnull⟩
      refine ⟨s1, List.mem_cons_of_mem _ hs1, hn1, ?_⟩
      have hfail : tryLectureSlot ctx day s0 st = (st, false) := by
        unfold tryLectureSlot
        rw [if_neg h0]
      unfold tryLectureSlots
      rw [hfail]
      exact he

/-- One turn of the placement loop for a lecture subject alone in the run: the lecture is
placed on the first day of the list. -/
theorem tryDays_place (ctx : Ctx) (r : Classroom) (rest : List Classroom)
    (st : GenState) (helig : ctx.eligibleRooms = r :: rest) (hlec : ctx.subject.isLab = false)
    (havail : ∀ t d s, ctx.teacher = some t → isTeacherAvailable (some t) d s = true)
    (h : LectureRun ctx r st) (day : String) (tl : List String) (hday : day ∈ days)
    (hlt : st.perDayPlacement day < 2) :
    ∃ st1, tryDays ctx (day :: tl) st = (st1, true) ∧ LectureRun ctx r st1 ∧
      st1.scheduled = st.scheduled + 1 := by
  obtain ⟨s, hs, hnull, he⟩ := tryLectureSlots_place ctx r rest st day helig havail h
    (firstHalfSlots ++ secondHalfSlots) (LectureRun_exists_null ctx r st day h hday hlt)
  obtain ⟨h1, h2⟩ := LectureRun_place ctx r st day s h hday hs hnull hlt
  refine ⟨_, ?_, h1, h2⟩
  unfold tryDays
  simp only [hlec, Bool.false_eq_true, if_false]
  rw [he]

theorem LectureRun_frame (ctx : Ctx) (r : Classroom) (st : GenState) (n : Nat)
    (h : LectureRun ctx r st) : LectureRun ctx r { st with draws := n } :=
  ⟨h.rows, h.perDay, h.sched, h.free, h.assigned, h.placed⟩

theorem sum_days_le (f : String → Nat) (h : ∀ d ∈ days, f d ≤ 2) : (days.map f).sum ≤ 10 := by
  have h1 := h "Monday" (by decide)
  have h2 := h "Tuesday" (by decide)
  have h3 := h "Wednesday" (by decide)
  have h4 := h "Thursday" (by decide)
  have h5 := h "Friday" (by decide)
  simp only [days, List.map_cons, List.map_nil, List.sum_cons, List.sum_nil]
  omega

theorem sum_days_full (f : String → Nat) (h : ∀ d ∈ days, f d ≤ 2)
    (hfull : (days.filter fun day => decide (f day < 2)).length = 0) :
    (days.map f).sum = 10 := by
  have hnil := List.length_eq_zero.mp hfull
  rw [List.filter_eq_nil_iff] at hnil
  have g : ∀ d ∈ days, f d = 2 := by
    intro d hd
    have h1 := h d hd
    have h2 := hnil d hd
    simp only [decide_eq_true_eq] at h2
    omega
  have h1 := g "Monday" (by decide)
  have h2 := g "Tuesday" (by decide)
  have h3 := g "Wednesday" (by decide)
  have h4 := g "Thursday" (by decide)
  have h5 := g "Friday" (by decide)
  simp only [days, List.map_cons, List.map_nil, List.sum_cons, List.sum_nil]
  omega

theorem sessionLoop_lecture (ctx : Ctx) (r : Classroom) (rest : List Classroom)
    (helig : ctx.eligibleRooms = r :: rest) (hlec : ctx.subject.isLab = false)
    (havail : ∀ t d s, ctx.teacher = some t → isTeacherAvailable (some t) d s = true)
    (fuel : Nat) :
    ∀ st : GenState, LectureRun ctx r st → st.scheduled ≤ ctx.subject.count →
      ctx.subject.count ≤ st.scheduled + fuel →
      LectureRun ctx r (sessionLoop ctx fuel st) ∧
      (sessionLoop ctx fuel st).scheduled = min ctx.subject.count 10 := by
  induction fuel with
  | zero =>
    intro st h hle hge
    have h10 : st.scheduled ≤ 10 := by
      rw [h.sched]
      exact sum_days_le _ (fun d hd => (h.perDay d hd).2)
    refine ⟨h, ?_⟩
    simp only [sessionLoop]
    omega
  | succ fuel ih =>
    intro st h hle hge
    have h10 : st.scheduled ≤ 10 := by
      rw [h.sched]
      exact sum_days_le _ (fun d hd => (h.perDay d hd).2)
    unfold sessionLoop
    dsimp only
    split
    · rename_i hlt
      split
      · rename_i hfull
        refine ⟨h, ?_⟩
        have := sum_days_full _ (fun d hd => (h.perDay d hd).2) hfull
        rw [← h.sched] at this
        omega
      · rename_i hsome
        cases hsh : shuffle (ctx.rand st.draws)
            (days.filter fun day => decide (st.perDayPlacement day < 2)) with
        | nil =>
          exfalso
          apply hsome
          rw [← (shuffle_perm _ (ctx.rand st.draws)).length_eq, hsh]
          rfl
        | cons day tl =>
          have hmem : day ∈ days.filter fun day => decide (st.perDayPlacement day < 2) := by
            rw [← mem_shuffle (ctx.rand st.draws), hsh]
            exact List.mem_cons_self _ _
          obtain ⟨hday, hlt2⟩ := List.mem_filter.mp hmem
          simp only [decide_eq_true_eq] at hlt2
          obtain ⟨st1, he, hrun, hs1⟩ := tryDays_place ctx r rest { st with draws := st.draws + 1 }
            helig hlec havail (LectureRun_frame ctx r st _ h) day tl hday hlt2
          rw [he]
          simp only
          have hs2 : st1.scheduled = st.scheduled + 1 := hs1
          exact ih st1 hrun (by omega) (by omega)
    · refine ⟨h, ?_⟩
      omega

theorem comma_mem_roomLabel (r : Classroom) : ',' ∈ (roomLabel r).data := by
  simp [roomLabel, String.data_append]

theorem roomLabel_ne_Library (r : Classroom) : roomLabel r ≠ "Library" := by
  intro h
  have hc := comma_mem_roomLabel r
  rw [h] at hc
  revert hc
  decide

theorem roomLabel_ne_empty (r : Classroom) : roomLabel r ≠ "" := by
  intro h
  have hc := comma_mem_roomLabel r
  rw [h] at hc
  revert hc
  decide

theorem count_fillRow (dIndex : Nat) (c : Cell) (hc : c ≠ libraryCell)
    (row : List (Option Cell)) :
    ∀ k : Nat, (fillRow dIndex k row).count (some c) = row.count (some c) := by
  induction row with
  | nil => intro k; rfl
  | cons x tl ih =>
    intro k
    simp only [fillRow, List.count_cons, ih, fillCell_eq]
    congr 1
    by_cases h4 : k = 4
    · simp [h4]
    · cases x with
      | none =>
        have : libraryCell ≠ c := fun e => hc e.symm
        simp [h4, this]
      | some y => simp [h4]

theorem count_emptyRow (c : Cell) (hc : c ≠ breakCell) : emptyRow.count (some c) = 0 := by
  have hb : ¬ (breakCell = c) := fun e => hc e.symm
  rw [emptyRow_eq]
  simp [List.count_cons, hb]

theorem LectureRun_start (rand : Nat → Nat) (teachers : List Teacher)
    (classrooms : List Classroom) (course : Course) (subject : Subject) (r : Classroom) :
    LectureRun
      (subjectCtx rand teachers classrooms course (eligibleRoomsOf classrooms course) subject) r
      (subjectStart teachers course subject (courseStart course initialState)) where
  rows := by
    intro d hd
    simp only [subjectStart, courseStart, subjectCtx, if_true, hd]
    rw [emptyRow_eq]
    refine ⟨rfl, rfl, ?_⟩
    intro i hi hi4
    left
    rcases i with _ | _ | _ | _ | _ | _ | _ | _ | _ | i
    all_goals first | rfl | exact absurd rfl hi4 | omega
  perDay := by
    intro d hd
    simp only [subjectStart, courseStart, subjectCtx, if_true, hd]
    refine ⟨(count_emptyRow _ ?_).symm, Nat.zero_le _⟩
    intro e
    exact roomLabel_ne_empty r (congrArg Cell.room e)
  sched := by
    simp [subjectStart, days]
  free := by
    intro d s _
    exact ⟨rfl, rfl⟩
  assigned := Or.inl rfl
  placed := ⟨rfl, by intro p hp; cases hp⟩

theorem shuffle_singleton {α : Type} (k : Nat) (x : α) : shuffle k [x] = [x] := by
  simp [shuffle]

/-- Claim C6. For one course with exactly one subject, a lecture with `n` required
sessions whose teacher is missing or has no unavailability windows, and with a first
eligible classroom `r`, the run places, for every random stream, exactly `min n 10`
cells of the subject, all in the room `r`; every non-break position of the grid holds
that cell or the Library filler, and the two are different cells. -/
theorem single_lecture_run (rand : Nat → Nat) (course : Course) (subject : Subject)
    (subjects : List Subject) (teachers : List Teacher) (classrooms : List Classroom)
    (r : Classroom) (rest : List Classroom)
    (hsub : course.subjects = [subject]) (hlec : subject.isLab = false)
    (hteach : ∀ t, findTeacher teachers course subject = some t →
      t.timeOff = none ∨ t.timeOff = some [])
    (helig : eligibleRoomsOf classrooms course = r :: rest) :
    countCells (timetableGenerator rand [course] subjects teachers classrooms)
      course.courseShortName
      ⟨roomLabel r, subject.shortName, teacherLabel (findTeacher teachers course subject)⟩
      = min subject.count 10 ∧
    (∀ d ∈ days, ∀ i, i < 9 → i ≠ 4 →
      cellAt (timetableGenerator rand [course] subjects teachers classrooms)
          course.courseShortName d i =
        some ⟨roomLabel r, subject.shortName,
          teacherLabel (findTeacher teachers course subject)⟩ ∨
      cellAt (timetableGenerator rand [course] subjects teachers classrooms)
          course.courseShortName d i = some libraryCell) ∧
    (⟨roomLabel r, subject.shortName, teacherLabel (findTeacher teachers course subject)⟩ :
      Cell) ≠ libraryCell ∧
    (timetableGenerator rand [course] subjects teachers classrooms).placements.length
      = min subject.count 10 ∧
    ∀ p ∈ (timetableGenerator rand [course] subjects teachers classrooms).placements,
      p.room = r ∧
      p.cell = ⟨roomLabel r, subject.shortName,
        teacherLabel (findTeacher teachers course subject)⟩ := by
  have havail : ∀ t d s,
      (subjectCtx rand teachers classrooms course (eligibleRoomsOf classrooms course)
        subject).teacher = some t → isTeacherAvailable (some t) d s = true := by
    intro t d s ht
    exact isTeacherAvailable_noTimeOff t d s (hteach t ht)
  obtain ⟨hrun, hsched⟩ := sessionLoop_lecture
    (subjectCtx rand teachers classrooms course (eligibleRoomsOf classrooms course) subject)
    r rest helig hlec havail subject.count
    (subjectStart teachers course subject (courseStart course initialState))
    (LectureRun_start rand teachers classrooms course subject r) (Nat.zero_le _)
    (Nat.le_add_left _ _)
  have hne : (⟨roomLabel r, subject.shortName,
      teacherLabel (findTeacher teachers course subject)⟩ : Cell) ≠ libraryCell := by
    intro e
    exact roomLabel_ne_Library r (congrArg Cell.room e)
  have hbf : beforeFill rand teachers classrooms initialState course =
      scheduleSubject rand teachers classrooms course (eligibleRoomsOf classrooms course)
        (courseStart course initialState) subject := by
    unfold beforeFill
    rw [hsub, shuffle_singleton]
    rfl
  have hgen : timetableGenerator rand [course] subjects teachers classrooms =
      scheduleCourse rand teachers classrooms initialState course := rfl
  rw [hgen]
  have hrows := hrun.rows
  have hper := hrun.perDay
  have hs := hrun.sched
  have hpl := hrun.placed
  simp only [subjectCtx, lectureCell] at hrows hper hsched hpl hs
  refine ⟨?_, ?_, hne, ?_, ?_⟩
  · unfold countCells
    simp only [scheduleCourse, fillDays_eq, hbf, scheduleSubject, subjectCtx]
    rw [← hsched, hs]
    apply congrArg
    apply List.map_congr_left
    intro d hd
    simp only [hd, and_self, if_true]
    rw [count_fillRow 0 _ hne]
    exact (hper d hd).1.symm
  · intro d hd i hi hi4
    obtain ⟨hlen, -, hpos⟩ := hrows d hd
    simp only [cellAt_eq_some, scheduleCourse, fillDays_eq, hbf, scheduleSubject, hd, and_self,
      if_true, getElem?_fillRow, subjectCtx]
    rcases hpos i hi hi4 with h0 | h0
    · right
      rw [h0]
      simp [fillCell_eq, hi4]
    · left
      rw [h0]
      simp [fillCell_eq, hi4]
  · simp only [scheduleCourse, hbf, scheduleSubject, subjectCtx]
    rw [hpl.1, hsched]
  · simp only [scheduleCourse, hbf, scheduleSubject, subjectCtx]
    exact hpl.2

/-- Witness of claim C6, scenario 1 of the specification: course CS1 of strength 60,
subject Maths with 3 sessions and room R1 with capacity 40-80 give exactly 3 Maths cells
in R1, and 37 Library cells. -/
theorem single_lecture_run_witness :
    countCells (timetableGenerator scenarioRand [scenarioCourse] [] [] [scenarioRoom]) "CS1"
      ⟨"R1, Main", "Maths", "TBA"⟩ = 3 ∧
    countCells (timetableGenerator scenarioRand [scenarioCourse] [] [] [scenarioRoom]) "CS1"
      libraryCell = 37 :=
  ⟨(single_lecture_run scenarioRand scenarioCourse scenarioSubject [] [] [scenarioRoom]
      scenarioRoom [] rfl rfl (by decide) (by decide)).1, by decide⟩

/-! ## The editor: a rejected drop -/

theorem metaOf_clearHighlights (dom : Dom) (id : Nat) :
    metaOf (clearHighlights dom) id = metaOf dom id := by
  unfold metaOf clearHighlights
  by_cases h : attached dom id = true
  · simp only [h, if_true]
    cases dom.nodes id <;> rfl
  · simp [h]

theorem plain_clearHighlights (dom : Dom) (id : Nat) :
    ((clearHighlights dom).nodes id).map plain = (dom.nodes id).map plain := by
  unfold clearHighlights
  by_cases h : attached dom id = true
  · simp only [h, if_true]
    cases dom.nodes id <;> rfl
  · simp [h]

theorem pageView_clearHighlights (dom : Dom) : pageView (clearHighlights dom) = pageView dom := by
  unfold pageView
  simp only [metaOf_clearHighlights]
  rfl

/-- Claim C8. When a lab cell is dropped on a single cell whose right neighbour is
missing or is the Break cell, `onDrop` makes no structural edit: it ends with the alert
of the rejection (or, when the target is flagged orange and the user does not confirm,
with the refusal of the clash dialog), the rows hold the same elements in the same
order and every element is as before, up to its highlight classes; so all cells read by
`getMeta` are as before. -/
theorem lab_on_single_rejected (ans : Answers) (target src : Nat) (dom : Dom) (tgt : Td)
    (srcMeta tgtMeta : CellMeta)
    (hsrc : dom.dragSrc = some src) (hne : src ≠ target)
    (htgt : dom.nodes target = some tgt) (hcell : tgt.classCell = true)
    (hsm : metaOf dom src = some srcMeta) (hlab : srcMeta.isLab = true)
    (htm : metaOf dom target = some tgtMeta) (hsingle : tgtMeta.isLab = false)
    (hright : rightNeighbor dom target = none ∨
      ∃ r, rightNeighbor dom target = some r ∧ isBreakCell (dom.nodes r) = true) :
    (onDrop ans target dom).2 =
      (if tgt.orange && !ans.clash then Outcome.declined else Outcome.rejected) ∧
    (onDrop ans target dom).1.tables = dom.tables ∧
    (∀ id, ((onDrop ans target dom).1.nodes id).map plain = (dom.nodes id).map plain) ∧
    pageView (onDrop ans target dom).1 = pageView dom := by
  have hres : onDrop ans target dom =
      (clearHighlights dom,
        if tgt.orange && !ans.clash then Outcome.declined else Outcome.rejected) := by
    unfold onDrop
    simp only [hsrc, hne, if_false, htgt, isTTCell, hcell, Bool.not_true, Bool.false_eq_true,
      hsm, htm, hlab, hsingle, Bool.and_false, Bool.and_self, Bool.not_false, if_true]
    by_cases hc : (tgt.orange && !ans.clash) = true
    · simp only [hc, if_true]
    · simp only [hc, if_false, Bool.false_eq_true]
      rcases hright with hr | ⟨r, hr, hb⟩
      · rw [hr]
      · rw [hr]
        simp only [hb, Bool.or_true, if_true]
        split <;> rfl
  rw [hres]
  exact ⟨rfl, rfl, plain_clearHighlights dom, pageView_clearHighlights dom⟩

/-- Witness of claim C8: the lab of the example page dropped on the last single cell of
the row, which has no right neighbour, and the lab of the second example page dropped on
the single cell that stands right before the Break cell. -/
theorem lab_on_single_rejected_witness :
    ((onDrop ⟨true, true⟩ 4 examplePage).2 = Outcome.rejected ∧
      pageView (onDrop ⟨true, true⟩ 4 examplePage).1 = pageView examplePage) ∧
    ((onDrop ⟨true, true⟩ 2 examplePage3).2 = Outcome.rejected ∧
      pageView (onDrop ⟨true, true⟩ 2 examplePage3).1 = pageView examplePage3) :=
  ⟨⟨(lab_on_single_rejected ⟨true, true⟩ 4 2 examplePage
      (singleTd "CS1" "Monday" 5 "Phy" "T1" "R2")
      ⟨"CS1", "Monday", 2, 2, "Chem Lab", "T4", "L1", true⟩
      ⟨"CS1", "Monday", 5, 1, "Phy", "T1", "R2", false⟩
      rfl (by decide) rfl rfl rfl rfl rfl rfl (Or.inl rfl)).1,
    (lab_on_single_rejected ⟨true, true⟩ 4 2 examplePage
      (singleTd "CS1" "Monday" 5 "Phy" "T1" "R2")
      ⟨"CS1", "Monday", 2, 2, "Chem Lab", "T4", "L1", true⟩
      ⟨"CS1", "Monday", 5, 1, "Phy", "T1", "R2", false⟩
      rfl (by decide) rfl rfl rfl rfl rfl rfl (Or.inl rfl)).2.2.2⟩,
   ⟨(lab_on_single_rejected ⟨true, true⟩ 2 0 examplePage3
      (singleTd "CS1" "Monday" 3 "Eng" "T3" "R1")
      ⟨"CS1", "Monday", 0, 2, "Chem Lab", "T4", "L1", true⟩
      ⟨"CS1", "Monday", 3, 1, "Eng", "T3", "R1", false⟩
      rfl (by decide) rfl rfl rfl rfl rfl rfl (Or.inr ⟨3, rfl, rfl⟩)).1,
    (lab_on_single_rejected ⟨true, true⟩ 2 0 examplePage3
      (singleTd "CS1" "Monday" 3 "Eng" "T3" "R1")
      ⟨"CS1", "Monday", 0, 2, "Chem Lab", "T4", "L1", true⟩
      ⟨"CS1", "Monday", 3, 1, "Eng", "T3", "R1", false⟩
      rfl (by decide) rfl rfl rfl rfl rfl rfl (Or.inr ⟨3, rfl, rfl⟩)).2.2.2⟩⟩

/-! ## The editor: a lab dropped on a single cell -/

/-- Claim C9, the code at the failing input. The lab of the example page is dropped on
the first single cell, whose right neighbour is an ordinary single cell. The target and
its neighbour become one span-2 lab cell with the subject, teacher and room of the
source, but the two positions of the source hold the former contents of the target and
of its neighbour, not Library fillers, and `onDrop` ends with a TypeError:
`mergeSinglesIntoLab` has already replaced the source, so `splitLabIntoTwoLibraries`
finds it without a parent. -/
theorem lab_on_single_raises :
    (onDrop ⟨true, true⟩ 0 examplePage).2 = Outcome.typeError ∧
    pageView (onDrop ⟨true, true⟩ 0 examplePage).1 =
      [[[some ⟨"CS1", "Monday", 0, 2, "Chem Lab", "T4", "L1", true⟩,
         some ⟨"CS1", "Monday", 0, 1, "Maths", "T2", "R1", false⟩,
         some ⟨"CS1", "Monday", 1, 1, "Eng", "T3", "R1", false⟩,
         none,
         some ⟨"CS1", "Monday", 5, 1, "Phy", "T1", "R2", false⟩]]] := by
  decide

/-! ## The editor: a single cell dropped on a lab -/

theorem mem_of_nextSibling {id y : Nat} {cells : List Nat}
    (h : nextSibling id cells = some y) : y ∈ cells := by
  induction cells with
  | nil => cases h
  | cons x xs ih =>
    unfold nextSibling at h
    split at h
    · exact List.mem_cons_of_mem _ (List.mem_of_mem_head? h)
    · exact List.mem_cons_of_mem _ (ih h)

theorem removeChild_of_not_mem {id : Nat} {cells : List Nat} (h : id ∉ cells) :
    removeChild id cells = cells := by
  unfold removeChild
  rw [List.filter_eq_self]
  intro a ha
  simp only [decide_eq_true_eq]
  intro e
  exact h (e ▸ ha)

theorem substTwo_of_not_mem {labTd left right : Nat} {cells : List Nat} (h : labTd ∉ cells) :
    substTwo labTd left right cells = cells := by
  induction cells with
  | nil => rfl
  | cons x xs ih =>
    have hx : x ≠ labTd := fun e => h (e ▸ List.mem_cons_self _ _)
    have hxs : labTd ∉ xs := fun e => h (List.mem_cons_of_mem _ e)
    unfold substTwo at ih ⊢
    rw [List.flatMap_cons, ih hxs]
    simp [hx]

theorem mem_insertBefore {new y : Nat} {ref : Option Nat} {cells : List Nat}
    (h : y ∈ insertBefore new ref cells) : y = new ∨ y ∈ cells := by
  induction cells with
  | nil =>
    simp only [insertBefore, List.mem_singleton] at h
    exact Or.inl h
  | cons x xs ih =>
    unfold insertBefore at h
    split at h
    · rcases List.mem_cons.mp h with e | e
      · exact Or.inl e
      · exact Or.inr e
    · rcases List.mem_cons.mp h with e | e
      · exact Or.inr (e ▸ List.mem_cons_self _ _)
      · rcases ih e with e2 | e2
        · exact Or.inl e2
        · exact Or.inr (List.mem_cons_of_mem _ e2)

/-- The three calls that replace a lab by two new elements put them at its place. -/
theorem replaceByTwo_eq (labTd left right : Nat) (cells : List Nat) (hnd : cells.Nodup)
    (hl : left ∉ cells) (hr : right ∉ cells) (hlab : labTd ∈ cells) :
    replaceByTwo labTd left right cells = substTwo labTd left right cells := by
  induction cells with
  | nil => cases hlab
  | cons x xs ih =>
    have hxl : x ≠ left := fun e => hl (e ▸ List.mem_cons_self _ _)
    have hxr : x ≠ right := fun e => hr (e ▸ List.mem_cons_self _ _)
    have hl2 : left ∉ xs := fun e => hl (List.mem_cons_of_mem _ e)
    have hr2 : right ∉ xs := fun e => hr (List.mem_cons_of_mem _ e)
    obtain ⟨hx, hnd2⟩ := List.nodup_cons.mp hnd
    by_cases hxe : x = labTd
    · subst hxe
      have hleft : left ≠ x := fun e => hxl e.symm
      have hright : right ≠ x := fun e => hxr e.symm
      have h1 : insertBefore left (some x) (x :: xs) = left :: x :: xs := by
        simp [insertBefore]
      have h2 : nextSibling x (left :: x :: xs) = xs.head? := by
        simp [nextSibling, hleft]
      have h3 : insertBefore right xs.head? (left :: x :: xs) = left :: x :: right :: xs := by
        cases xs with
        | nil => simp [insertBefore]
        | cons y ys =>
          have hy1 : left ≠ y := fun e => hl2 (e ▸ List.mem_cons_self _ _)
          have hy2 : x ≠ y := fun e => hx (e ▸ List.mem_cons_self _ _)
          simp [insertBefore, hy1, hy2]
      unfold replaceByTwo
      rw [h1, h2, h3]
      unfold substTwo
      rw [List.flatMap_cons]
      have h4 := @substTwo_of_not_mem x left right xs hx
      unfold substTwo at h4
      rw [h4]
      have h5 := removeChild_of_not_mem hx
      unfold removeChild at h5 ⊢
      simp [List.filter_cons, hleft, hright, h5]
      intro a ha e
      exact hx (e ▸ ha)
    · have hlab2 : labTd ∈ xs := by
        rcases List.mem_cons.mp hlab with e | e
        · exact absurd e.symm hxe
        · exact e
      have h1 : insertBefore left (some labTd) (x :: xs) =
          x :: insertBefore left (some labTd) xs := by
        simp [insertBefore, hxe]
      have h2 : nextSibling labTd (x :: insertBefore left (some labTd) xs) =
          nextSibling labTd (insertBefore left (some labTd) xs) := by
        simp [nextSibling, hxe]
      have h3 : insertBefore right (nextSibling labTd (insertBefore left (some labTd) xs))
          (x :: insertBefore left (some labTd) xs) =
          x :: insertBefore right (nextSibling labTd (insertBefore left (some labTd) xs))
            (insertBefore left (some labTd) xs) := by
        have hne : ¬ (some x = nextSibling labTd (insertBefore left (some labTd) xs)) := by
          intro e
          rcases mem_insertBefore (mem_of_nextSibling e.symm) with e2 | e2
          · exact hxl e2
          · exact hx e2
        simp [insertBefore, hne]
      have h4 : removeChild labTd
          (x :: insertBefore right (nextSibling labTd (insertBefore left (some labTd) xs))
            (insertBefore left (some labTd) xs)) =
          x :: removeChild labTd
            (insertBefore right (nextSibling labTd (insertBefore left (some labTd) xs))
              (insertBefore left (some labTd) xs)) := by
        simp [removeChild, List.filter_cons, hxe]
      have ih2 := ih hnd2 hl2 hr2 hlab2
      unfold replaceByTwo at ih2 ⊢
      rw [h1, h2, h3, h4, ih2]
      unfold substTwo
      rw [List.flatMap_cons]
      simp [hxe]

theorem getMeta_applyMeta (td : Td) (m : CellMeta) :
    getMeta (applyMeta td m) =
      some { m with colspan := colspanOr1 m.colspan,
                    isLab := m.isLab || decide (colspanOr1 m.colspan = 2) } := by
  simp [getMeta, applyMeta]

theorem getMeta_libraryTd (refTd : Td) (slotIndex : Nat) :
    getMeta (libraryTd refTd slotIndex) =
      some ⟨refTd.course, refTd.day, slotIndex, 1, "Library", "", "", false⟩ := by
  simp [getMeta, libraryTd, blankTd]

theorem nodes_applyMetaToCell_ne (dom : Dom) (i j : Nat) (m : CellMeta) (h : j ≠ i) :
    (applyMetaToCell dom i m).nodes j = dom.nodes j := by
  simp [applyMetaToCell, h]

theorem nodes_applyMetaToCell_self (dom : Dom) (i : Nat) (m : CellMeta) :
    (applyMetaToCell dom i m).nodes i = (dom.nodes i).map fun td => applyMeta td m := by
  simp [applyMetaToCell]

theorem metaOf_applyMetaToCell_ne (dom : Dom) (i j : Nat) (m : CellMeta) (h : j ≠ i) :
    metaOf (applyMetaToCell dom i m) j = metaOf dom j := by
  unfold metaOf
  rw [nodes_applyMetaToCell_ne dom i j m h]

theorem metaOf_applyMetaToCell_self (dom : Dom) (i : Nat) (m : CellMeta) (td : Td)
    (h : dom.nodes i = some td) :
    metaOf (applyMetaToCell dom i m) i =
      some { m with colspan := colspanOr1 m.colspan,
                    isLab := m.isLab || decide (colspanOr1 m.colspan = 2) } := by
  unfold metaOf
  rw [nodes_applyMetaToCell_self, h]
  exact getMeta_applyMeta td m

theorem nodes_alloc (dom : Dom) (td : Td) (j : Nat) :
    (alloc dom td).nodes j = if j = dom.nextId then some td else dom.nodes j := rfl

theorem nodes_modifyParent (dom : Dom) (i : Nat) (f : List Nat → List Nat) :
    (modifyParent dom i f).nodes = dom.nodes := rfl

theorem modifyParent_substTwo (dom : Dom) (nodes : Nat → Option Td) (k : Nat)
    (dragSrc : Option Nat) (hwf : WellFormed dom) (target : Nat) :
    (modifyParent ⟨nodes, dom.tables, k, dragSrc⟩ target
      (replaceByTwo target dom.nextId (dom.nextId + 1))).tables =
    dom.tables.map fun t =>
      { t with rows := t.rows.map fun r =>
          { r with cells := substTwo target dom.nextId (dom.nextId + 1) r.cells } } := by
  unfold modifyParent
  simp only
  apply List.map_congr_left
  intro t ht
  congr 1
  apply List.map_congr_left
  intro r hr
  have hnd := hwf.nodup t ht r hr
  have hlt := hwf.rows_lt t ht r hr
  have hl : dom.nextId ∉ r.cells := fun e => Nat.lt_irrefl _ (hlt _ e)
  have hr2 : dom.nextId + 1 ∉ r.cells := fun e => by
    have := hlt _ e
    omega
  by_cases hc : target ∈ r.cells
  · have hc2 : r.cells.contains target = true := by simpa using hc
    rw [if_pos hc2, replaceByTwo_eq target _ _ r.cells hnd hl hr2 hc]
  · have hc2 : ¬ (r.cells.contains target = true) := by simpa using hc
    rw [if_neg hc2, substTwo_of_not_mem hc]

/-- Claim C10. When a single cell `S` is dropped on a lab cell `L` that is in a row (and
the user confirms the clash dialog if `L` is flagged orange), `onDrop` replaces `L`, at
its place in its row, by two new span-1 non-lab cells with the slot index of `L` and the
next one: the left one carries the subject, teacher and room of `S`, the right one is a
Library filler; the source carries the former subject, teacher and room of `L` as a
span-1 non-lab cell; every other element is as before up to its highlight classes. -/
theorem single_on_lab (ans : Answers) (target src : Nat) (dom : Dom) (tgt : Td)
    (srcMeta tgtMeta : CellMeta) (hwf : WellFormed dom)
    (hsrc : dom.dragSrc = some src) (hne : src ≠ target)
    (htgt : dom.nodes target = some tgt) (hcell : tgt.classCell = true)
    (hsm : metaOf dom src = some srcMeta) (hsingle : srcMeta.isLab = false)
    (htm : metaOf dom target = some tgtMeta) (hlab : tgtMeta.isLab = true)
    (hin : attached dom target = true)
    (hgo : tgt.orange = false ∨ ans.clash = true) :
    (onDrop ans target dom).2 = Outcome.singleMoved ∧
    (onDrop ans target dom).1.tables =
      (dom.tables.map fun t =>
        { t with rows := t.rows.map fun r =>
            { r with cells := substTwo target dom.nextId (dom.nextId + 1) r.cells } }) ∧
    metaOf (onDrop ans target dom).1 dom.nextId =
      some ⟨tgtMeta.course, tgtMeta.day, tgtMeta.slotIndex, 1,
        srcMeta.subject, srcMeta.teacher, srcMeta.room, false⟩ ∧
    metaOf (onDrop ans target dom).1 (dom.nextId + 1) =
      some ⟨tgtMeta.course, tgtMeta.day, tgtMeta.slotIndex + 1, 1, "Library", "", "", false⟩ ∧
    ((onDrop ans target dom).1.nodes (dom.nextId + 1)).map (fun td => td.shown) =
      some ⟨"Library", "Library", ""⟩ ∧
    metaOf (onDrop ans target dom).1 src =
      some ⟨srcMeta.course, srcMeta.day, srcMeta.slotIndex, 1,
        tgtMeta.subject, tgtMeta.teacher, tgtMeta.room, false⟩ ∧
    (∀ id, id ≠ src → id ≠ dom.nextId → id ≠ dom.nextId + 1 →
      ((onDrop ans target dom).1.nodes id).map plain = (dom.nodes id).map plain ∧
      metaOf (onDrop ans target dom).1 id = metaOf dom id) := by
  have hgm : getMeta tgt = some tgtMeta := by
    unfold metaOf at htm
    rw [htgt] at htm
    exact htm
  have hcond : (tgt.orange && !ans.clash) = false := by
    rcases hgo with h | h <;> simp [h]
  have hsn : src < dom.nextId := by
    apply hwf.nodes_lt
    intro e
    unfold metaOf at hsm
    rw [e] at hsm
    cases hsm
  have hs1 : src ≠ dom.nextId := by omega
  have hs2 : src ≠ dom.nextId + 1 := by omega
  have hcourse : tgtMeta.course = tgt.course ∧ tgtMeta.day = tgt.day := by
    unfold getMeta at hgm
    simp only [hcell, Bool.not_true, Bool.false_eq_true, if_false, Option.some.injEq] at hgm
    subst hgm
    exact ⟨rfl, rfl⟩
  have hsplit : splitLabIntoTwoSingles dom target =
      some (modifyParent
        (alloc (alloc dom (applyMeta (libraryTd tgt tgtMeta.slotIndex)
          { tgtMeta with colspan := 1, isLab := false }))
          (libraryTd tgt (tgtMeta.slotIndex + 1)))
        target (replaceByTwo target dom.nextId (dom.nextId + 1)), dom.nextId) := by
    unfold splitLabIntoTwoSingles
    simp only [htgt, hgm, hin, if_true]
  have hnodeL : (modifyParent
        (alloc (alloc dom (applyMeta (libraryTd tgt tgtMeta.slotIndex)
          { tgtMeta with colspan := 1, isLab := false }))
          (libraryTd tgt (tgtMeta.slotIndex + 1)))
        target (replaceByTwo target dom.nextId (dom.nextId + 1))).nodes dom.nextId =
      some (applyMeta (libraryTd tgt tgtMeta.slotIndex)
        { tgtMeta with colspan := 1, isLab := false }) := by
    simp [nodes_modifyParent, nodes_alloc, alloc]
  have hleft : metaOf (modifyParent
        (alloc (alloc dom (applyMeta (libraryTd tgt tgtMeta.slotIndex)
          { tgtMeta with colspan := 1, isLab := false }))
          (libraryTd tgt (tgtMeta.slotIndex + 1)))
        target (replaceByTwo target dom.nextId (dom.nextId + 1))) dom.nextId =
      some ⟨tgtMeta.course, tgtMeta.day, tgtMeta.slotIndex, 1, tgtMeta.subject,
        tgtMeta.teacher, tgtMeta.room, false⟩ := by
    have hg := getMeta_applyMeta (libraryTd tgt tgtMeta.slotIndex)
      { tgtMeta with colspan := 1, isLab := false }
    have hm : metaOf (modifyParent
        (alloc (alloc dom (applyMeta (libraryTd tgt tgtMeta.slotIndex)
          { tgtMeta with colspan := 1, isLab := false }))
          (libraryTd tgt (tgtMeta.slotIndex + 1)))
        target (replaceByTwo target dom.nextId (dom.nextId + 1))) dom.nextId =
        getMeta (applyMeta (libraryTd tgt tgtMeta.slotIndex)
          { tgtMeta with colspan := 1, isLab := false }) := by
      unfold metaOf
      rw [hnodeL]
    rw [hm, hg]
    simp [colspanOr1]
  have hres : onDrop ans target dom =
      (clearHighlights (applyMetaToCell (applyMetaToCell (modifyParent
        (alloc (alloc dom (applyMeta (libraryTd tgt tgtMeta.slotIndex)
          { tgtMeta with colspan := 1, isLab := false }))
          (libraryTd tgt (tgtMeta.slotIndex + 1)))
        target (replaceByTwo target dom.nextId (dom.nextId + 1))) dom.nextId
        ⟨tgtMeta.course, tgtMeta.day, tgtMeta.slotIndex, 1, srcMeta.subject,
          srcMeta.teacher, srcMeta.room, false⟩) src
        ⟨srcMeta.course, srcMeta.day, srcMeta.slotIndex, 1, tgtMeta.subject,
          tgtMeta.teacher, tgtMeta.room, false⟩), Outcome.singleMoved) := by
    unfold onDrop
    simp only [hsrc, hne, if_false, htgt, isTTCell, hcell, Bool.not_true, Bool.false_eq_true,
      hsm, htm, hcond, hsingle, hlab, Bool.and_true, Bool.false_and, Bool.and_false,
      Bool.not_false, Bool.and_self, if_true, hsplit, hleft]
  have hnodeS : ∃ std, (applyMetaToCell (modifyParent
        (alloc (alloc dom (applyMeta (libraryTd tgt tgtMeta.slotIndex)
          { tgtMeta with colspan := 1, isLab := false }))
          (libraryTd tgt (tgtMeta.slotIndex + 1)))
        target (replaceByTwo target dom.nextId (dom.nextId + 1))) dom.nextId
        ⟨tgtMeta.course, tgtMeta.day, tgtMeta.slotIndex, 1, srcMeta.subject,
          srcMeta.teacher, srcMeta.room, false⟩).nodes src = some std := by
    rw [nodes_applyMetaToCell_ne _ _ _ _ hs1, nodes_modifyParent]
    simp only [nodes_alloc, alloc, hs1, hs2, if_false]
    cases hn : dom.nodes src with
    | none =>
      unfold metaOf at hsm
      rw [hn] at hsm
      cases hsm
    | some std => exact ⟨std, rfl⟩
  obtain ⟨std, hstd⟩ := hnodeS
  rw [hres]
  refine ⟨rfl, ?_, ?_, ?_, ?_, ?_, ?_⟩
  · exact modifyParent_substTwo dom _ _ _ hwf target
  · rw [metaOf_clearHighlights, metaOf_applyMetaToCell_ne _ _ _ _ hs1.symm,
      metaOf_applyMetaToCell_self _ _ _ _ hnodeL]
    simp [colspanOr1]
  · rw [metaOf_clearHighlights, metaOf_applyMetaToCell_ne _ _ _ _ hs2.symm,
      metaOf_applyMetaToCell_ne _ _ _ _ (Nat.succ_ne_self _)]
    unfold metaOf
    simp only [nodes_modifyParent, nodes_alloc, alloc, if_true]
    rw [getMeta_libraryTd, hcourse.1, hcourse.2]
  · have h1 := plain_clearHighlights (applyMetaToCell (applyMetaToCell (modifyParent
        (alloc (alloc dom (applyMeta (libraryTd tgt tgtMeta.slotIndex)
          { tgtMeta with colspan := 1, isLab := false }))
          (libraryTd tgt (tgtMeta.slotIndex + 1)))
        target (replaceByTwo target dom.nextId (dom.nextId + 1))) dom.nextId
        ⟨tgtMeta.course, tgtMeta.day, tgtMeta.slotIndex, 1, srcMeta.subject,
          srcMeta.teacher, srcMeta.room, false⟩) src
        ⟨srcMeta.course, srcMeta.day, srcMeta.slotIndex, 1, tgtMeta.subject,
          tgtMeta.teacher, tgtMeta.room, false⟩) (dom.nextId + 1)
    rw [nodes_applyMetaToCell_ne _ _ _ _ hs2.symm,
      nodes_applyMetaToCell_ne _ _ _ _ (Nat.succ_ne_self _)] at h1
    simp only [nodes_modifyParent, nodes_alloc, alloc, if_true, Option.map_some'] at h1
    have h2 := congrArg (Option.map fun td : Td => td.shown) h1
    simp only [Option.map_map, Option.map_some'] at h2
    exact h2
  · rw [metaOf_clearHighlights, metaOf_applyMetaToCell_self _ _ _ _ hstd]
    simp [colspanOr1]
  · intro id h1 h2 h3
    constructor
    · rw [plain_clearHighlights, nodes_applyMetaToCell_ne _ _ _ _ h1,
        nodes_applyMetaToCell_ne _ _ _ _ h2, nodes_modifyParent]
      simp only [nodes_alloc, alloc, h2, h3, if_false]
    · rw [metaOf_clearHighlights, metaOf_applyMetaToCell_ne _ _ _ _ h1,
        metaOf_applyMetaToCell_ne _ _ _ _ h2]
      unfold metaOf
      rw [nodes_modifyParent]
      simp only [nodes_alloc, alloc, h2, h3, if_false]

theorem examplePage2_wellFormed : WellFormed examplePage2 where
  nodup := by decide
  rows_lt := by decide
  nodes_lt := by
    intro id h
    by_contra hlt
    apply h
    have h0 : id ≠ 0 := fun e => hlt (by rw [e]; decide)
    have h1 : id ≠ 1 := fun e => hlt (by rw [e]; decide)
    have h2 : id ≠ 2 := fun e => hlt (by rw [e]; decide)
    have h3 : id ≠ 3 := fun e => hlt (by rw [e]; decide)
    have h4 : id ≠ 4 := fun e => hlt (by rw [e]; decide)
    simp [examplePage2, examplePage, h0, h1, h2, h3, h4]

/-- Witness of claim C10, scenario 2 of the specification: the single cell (Phy, T1)
dropped on the lab (Chem Lab, span 2) gives (Phy, T1, span 1) and (Library, span 1) at
the place of the lab, and the source holds Chem Lab. -/
theorem single_on_lab_witness :
    (onDrop ⟨true, true⟩ 2 examplePage2).1.tables =
      [⟨"CS1", [⟨"Monday", [0, 1, 5, 6, 3, 4]⟩]⟩] ∧
    metaOf (onDrop ⟨true, true⟩ 2 examplePage2).1 5 =
      some ⟨"CS1", "Monday", 2, 1, "Phy", "T1", "R2", false⟩ ∧
    metaOf (onDrop ⟨true, true⟩ 2 examplePage2).1 6 =
      some ⟨"CS1", "Monday", 3, 1, "Library", "", "", false⟩ ∧
    metaOf (onDrop ⟨true, true⟩ 2 examplePage2).1 4 =
      some ⟨"CS1", "Monday", 5, 1, "Chem Lab", "T4", "L1", false⟩ :=
  ⟨(single_on_lab ⟨true, true⟩ 2 4 examplePage2 (labTd "CS1" "Monday" 2 "Chem Lab" "T4" "L1")
      ⟨"CS1", "Monday", 5, 1, "Phy", "T1", "R2", false⟩
      ⟨"CS1", "Monday", 2, 2, "Chem Lab", "T4", "L1", true⟩
      examplePage2_wellFormed rfl (by decide) rfl rfl rfl rfl rfl rfl (by decide)
      (Or.inl rfl)).2.1,
    (single_on_lab ⟨true, true⟩ 2 4 examplePage2 (labTd "CS1" "Monday" 2 "Chem Lab" "T4" "L1")
      ⟨"CS1", "Monday", 5, 1, "Phy", "T1", "R2", false⟩
      ⟨"CS1", "Monday", 2, 2, "Chem Lab", "T4", "L1", true⟩
      examplePage2_wellFormed rfl (by decide) rfl rfl rfl rfl rfl rfl (by decide)
      (Or.inl rfl)).2.2.1,
    (single_on_lab ⟨true, true⟩ 2 4 examplePage2 (labTd "CS1" "Monday" 2 "Chem Lab" "T4" "L1")
      ⟨"CS1", "Monday", 5, 1, "Phy", "T1", "R2", false⟩
      ⟨"CS1", "Monday", 2, 2, "Chem Lab", "T4", "L1", true⟩
      examplePage2_wellFormed rfl (by decide) rfl rfl rfl rfl rfl rfl (by decide)
      (Or.inl rfl)).2.2.2.1,
    (single_on_lab ⟨true, true⟩ 2 4 examplePage2 (labTd "CS1" "Monday" 2 "Chem Lab" "T4" "L1")
      ⟨"CS1", "Monday", 5, 1, "Phy", "T1", "R2", false⟩
      ⟨"CS1", "Monday", 2, 2, "Chem Lab", "T4", "L1", true⟩
      examplePage2_wellFormed rfl (by decide) rfl rfl rfl rfl rfl rfl (by decide)
      (Or.inl rfl)).2.2.2.2.2.1⟩

/-! ## The editor: swapping two cells -/

theorem colspanOr1_of_ne {n : Nat} (h : n ≠ 0) : colspanOr1 n = n := by
  simp [colspanOr1, h]

/-- What `applyMetaToCell` writes is read back as regular metadata. -/
theorem regular_applyMeta (td : Td) (m : CellMeta) :
    ∃ m', getMeta (applyMeta td m) = some m' ∧ Regular m' := by
  refine ⟨_, getMeta_applyMeta td m, ?_, ?_⟩
  · show colspanOr1 m.colspan ≠ 0
    unfold colspanOr1
    split <;> simp_all
  · intro h
    show (m.isLab || decide (colspanOr1 m.colspan = 2)) = true
    have h2 : colspanOr1 m.colspan = 2 := h
    simp [h2]

/-- The cell that `createLibraryCellFrom` makes is read as regular metadata. -/
theorem regular_libraryTd (refTd : Td) (slotIndex : Nat) :
    ∃ m', getMeta (libraryTd refTd slotIndex) = some m' ∧ Regular m' :=
  ⟨_, getMeta_libraryTd refTd slotIndex, by simp [Regular]⟩

theorem applied_regular (m : CellMeta) (h : Regular m) :
    ({ m with colspan := colspanOr1 m.colspan,
              isLab := m.isLab || decide (colspanOr1 m.colspan = 2) } : CellMeta) = m := by
  obtain ⟨h0, h2⟩ := h
  have hc : colspanOr1 m.colspan = m.colspan := colspanOr1_of_ne h0
  cases m with
  | mk course day slotIndex colspan subject teacher room isLab =>
    simp only [CellMeta.mk.injEq, true_and, and_true] at hc h2 ⊢
    refine ⟨hc, ?_⟩
    rw [hc]
    by_cases e : colspan = 2
    · simp [e, h2 e]
    · simp [e]

theorem metaOf_some_node {dom : Dom} {i : Nat} {m : CellMeta} (h : metaOf dom i = some m) :
    ∃ td, dom.nodes i = some td := by
  unfold metaOf at h
  cases hn : dom.nodes i with
  | none => rw [hn] at h; cases h
  | some td => exact ⟨td, rfl⟩

/-- What one call of `swapCells` does to the metadata of regular cells. -/
theorem swapCells_meta (dom : Dom) (a b : Nat) (am bm : CellMeta) (hab : a ≠ b)
    (ha : metaOf dom a = some am) (hb : metaOf dom b = some bm)
    (har : Regular am) (hbr : Regular bm) :
    ∃ dom1, swapCells dom a b = some dom1 ∧
      metaOf dom1 a =
        some { bm with course := am.course, day := am.day, slotIndex := am.slotIndex } ∧
      metaOf dom1 b =
        some { am with course := bm.course, day := bm.day, slotIndex := bm.slotIndex } ∧
      (∀ x, x ≠ a → x ≠ b → metaOf dom1 x = metaOf dom x) ∧
      dom1.tables = dom.tables := by
  obtain ⟨ta, hta⟩ := metaOf_some_node ha
  obtain ⟨tb, htb⟩ := metaOf_some_node hb
  refine ⟨applyMetaToCell (applyMetaToCell dom a
      { bm with day := am.day, slotIndex := am.slotIndex, course := am.course }) b
      { am with day := bm.day, slotIndex := bm.slotIndex, course := bm.course },
    by simp only [swapCells, ha, hb], ?_, ?_, ?_, rfl⟩
  · rw [metaOf_applyMetaToCell_ne _ b a _ hab, metaOf_applyMetaToCell_self dom a _ ta hta]
    have := applied_regular
      { bm with day := am.day, slotIndex := am.slotIndex, course := am.course } hbr
    exact congrArg some this
  · have htb1 : (applyMetaToCell dom a
        { bm with day := am.day, slotIndex := am.slotIndex, course := am.course }).nodes b =
        some tb := by
      rw [nodes_applyMetaToCell_ne _ a b _ (Ne.symm hab), htb]
    rw [metaOf_applyMetaToCell_self _ b _ tb htb1]
    have := applied_regular
      { am with day := bm.day, slotIndex := bm.slotIndex, course := bm.course } har
    exact congrArg some this
  · intro x hxa hxb
    rw [metaOf_applyMetaToCell_ne _ b x _ hxb, metaOf_applyMetaToCell_ne _ a x _ hxa]

/-- Claim C11, amended. For two different timetable cells `a` and `b` with regular
metadata (the span is at least one and a cell of span two is a lab, as for every cell that
the editor writes), `swapCells(a, b)` returns, the rows hold the same elements, `a` reads the
subject, teacher, room, span and lab flag that `b` had and `b` those that `a` had, each
with its own course, day and slot index, and no other element reads differently; a second
`swapCells(a, b)` returns too, and after it `getMeta` reads for every element, and so for
every position of every row, what it read before the first call. -/
theorem swapCells_twice (dom : Dom) (a b : Nat) (am bm : CellMeta) (hab : a ≠ b)
    (ha : metaOf dom a = some am) (hb : metaOf dom b = some bm)
    (har : Regular am) (hbr : Regular bm) :
    ∃ dom1 dom2, swapCells dom a b = some dom1 ∧ swapCells dom1 a b = some dom2 ∧
      dom1.tables = dom.tables ∧
      metaOf dom1 a =
        some { bm with course := am.course, day := am.day, slotIndex := am.slotIndex } ∧
      metaOf dom1 b =
        some { am with course := bm.course, day := bm.day, slotIndex := bm.slotIndex } ∧
      (∀ x, x ≠ a → x ≠ b → metaOf dom1 x = metaOf dom x) ∧
      (∀ x, metaOf dom2 x = metaOf dom x) ∧
      pageView dom2 = pageView dom := by
  obtain ⟨dom1, h1, h1a, h1b, h1x, h1t⟩ := swapCells_meta dom a b am bm hab ha hb har hbr
  have har1 : Regular
      { bm with course := am.course, day := am.day, slotIndex := am.slotIndex } := hbr
  have hbr1 : Regular
      { am with course := bm.course, day := bm.day, slotIndex := bm.slotIndex } := har
  obtain ⟨dom2, h2, h2a, h2b, h2x, h2t⟩ := swapCells_meta dom1 a b _ _ hab h1a h1b har1 hbr1
  have hall : ∀ x, metaOf dom2 x = metaOf dom x := by
    intro x
    by_cases hxa : x = a
    · rw [hxa, h2a, ha]
    · by_cases hxb : x = b
      · rw [hxb, h2b, hb]
      · rw [h2x x hxa hxb, h1x x hxa hxb]
  refine ⟨dom1, dom2, h1, h2, h1t, h1a, h1b, h1x, hall, ?_⟩
  unfold pageView
  rw [h2t, h1t]
  simp only [hall]

/-- The hypotheses of `swapCells_twice` hold for the single cell Maths and the lab of the
example page. -/
theorem swapCells_twice_witness :
    ∃ dom1 dom2, swapCells examplePage 0 2 = some dom1 ∧ swapCells dom1 0 2 = some dom2 ∧
      dom1.tables = examplePage.tables ∧
      metaOf dom1 0 = some ⟨"CS1", "Monday", 0, 2, "Chem Lab", "T4", "L1", true⟩ ∧
      metaOf dom1 2 = some ⟨"CS1", "Monday", 2, 1, "Maths", "T2", "R1", false⟩ ∧
      (∀ x, x ≠ 0 → x ≠ 2 → metaOf dom1 x = metaOf examplePage x) ∧
      (∀ x, metaOf dom2 x = metaOf examplePage x) ∧
      pageView dom2 = pageView examplePage :=
  swapCells_twice examplePage 0 2 ⟨"CS1", "Monday", 0, 1, "Maths", "T2", "R1", false⟩
    ⟨"CS1", "Monday", 2, 2, "Chem Lab", "T4", "L1", true⟩ (by decide) (by decide) (by decide)
    (by simp [Regular]) (by simp [Regular])

/-- Claim C11 as stated fails. The first of the two single cells of the row has the
attribute `data-colspan="0"`, so `getMeta` reads the span 0 for it. `applyMetaToCell` writes
`meta.colspan || 1`: after `swapCells(a, b)` the second cell reads the span 1 and not the
span 0 that the first had, and after the second `swapCells(a, b)` the first cell reads the
span 1 where it read 0 before the first call. -/
theorem swapCells_span_counterexample :
    metaOf examplePageZero 0 = some ⟨"CS1", "Monday", 0, 0, "Maths", "T2", "R1", false⟩ ∧
    metaOf examplePageZero 1 = some ⟨"CS1", "Monday", 1, 1, "Eng", "T3", "R1", false⟩ ∧
    ((swapCells examplePageZero 0 1).bind fun d => metaOf d 1) =
      some ⟨"CS1", "Monday", 1, 1, "Maths", "T2", "R1", false⟩ ∧
    (((swapCells examplePageZero 0 1).bind fun d => swapCells d 0 1).bind fun d =>
        metaOf d 0) =
      some ⟨"CS1", "Monday", 0, 1, "Maths", "T2", "R1", false⟩ := by
  decide

/-! ## The editor: a lab split and merged again -/

/-- The page after `splitLabIntoTwoSingles(labTd)` for a lab that is in a row. -/
theorem splitLabIntoTwoSingles_eq (dom : Dom) (hwf : WellFormed dom) (labTd : Nat) (td : Td)
    (m : CellMeta) (hnode : dom.nodes labTd = some td) (hm : getMeta td = some m)
    (hin : attached dom labTd = true) :
    ∃ dom1, splitLabIntoTwoSingles dom labTd = some (dom1, dom.nextId) ∧
      dom1.dragSrc = dom.dragSrc ∧
      dom1.tables = (dom.tables.map fun t =>
        { t with rows := t.rows.map fun r =>
            { r with cells := substTwo labTd dom.nextId (dom.nextId + 1) r.cells } }) ∧
      dom1.nodes dom.nextId = some (applyMeta (libraryTd td m.slotIndex)
        { m with colspan := 1, isLab := false }) ∧
      dom1.nodes (dom.nextId + 1) = some (libraryTd td (m.slotIndex + 1)) ∧
      (∀ id, id ≠ dom.nextId → id ≠ dom.nextId + 1 → dom1.nodes id = dom.nodes id) := by
  refine ⟨modifyParent
      (alloc (alloc dom (applyMeta (libraryTd td m.slotIndex)
        { m with colspan := 1, isLab := false }))
        (libraryTd td (m.slotIndex + 1)))
      labTd (replaceByTwo labTd dom.nextId (dom.nextId + 1)), ?_, rfl, ?_, ?_, ?_, ?_⟩
  · unfold splitLabIntoTwoSingles
    simp only [hnode, hm, hin, if_true]
  · exact modifyParent_substTwo dom _ _ _ hwf labTd
  · simp [nodes_modifyParent, nodes_alloc, alloc]
  · simp [nodes_modifyParent, nodes_alloc, alloc]
  · intro id h1 h2
    simp [nodes_modifyParent, nodes_alloc, alloc, h1, h2]

/-- Removing the right one of the two elements put in place of `labTd` leaves the row
with `left` in place of `labTd`. -/
theorem removeChild_substTwo (labTd left right : Nat) (cells : List Nat)
    (hl : left ≠ right) (hr : right ∉ cells) :
    removeChild right (substTwo labTd left right cells) =
      cells.map fun id => if id = labTd then left else id := by
  induction cells with
  | nil => rfl
  | cons x xs ih =>
    have hx : x ≠ right := fun e => hr (e ▸ List.mem_cons_self _ _)
    have hxs : right ∉ xs := fun e => hr (List.mem_cons_of_mem _ e)
    have ih2 := ih hxs
    unfold removeChild substTwo at ih2 ⊢
    rw [List.flatMap_cons, List.filter_append, ih2, List.map_cons]
    by_cases e : x = labTd
    · simp [e, hl]
    · simp [e, hx]


/-- With no drag source `mergeSinglesIntoLab` ends after removing `right`. -/
theorem mergeSinglesIntoLab_done (dom : Dom) (left right : Nat) (labMeta : CellMeta)
    (leftTd : Td) (lm rm : CellMeta) (hdrag : dom.dragSrc = none)
    (hl : dom.nodes left = some leftTd) (hlm : metaOf dom left = some lm)
    (hrm : metaOf dom right = some rm) :
    mergeSinglesIntoLab dom left right labMeta =
      Run.done (modifyParent (applyMetaToCell dom left
        { labMeta with
          day := leftTd.day, slotIndex := leftTd.slotIndex, course := leftTd.course,
          colspan := 2, isLab := true }) right (removeChild right)) := by
  unfold mergeSinglesIntoLab
  simp only [hl, hlm, hrm]
  have hd : (modifyParent (applyMetaToCell dom left
        { labMeta with
          day := leftTd.day, slotIndex := leftTd.slotIndex, course := leftTd.course,
          colspan := 2, isLab := true }) right (removeChild right)).dragSrc = none := hdrag
  simp only [hd]

theorem tables_modifyParent_removeChild (dom d : Dom) (hwf : WellFormed dom) (labTd : Nat)
    (ht : d.tables = dom.tables.map fun t =>
        { t with rows := t.rows.map fun r =>
            { r with cells := substTwo labTd dom.nextId (dom.nextId + 1) r.cells } }) :
    (modifyParent d (dom.nextId + 1) (removeChild (dom.nextId + 1))).tables =
    dom.tables.map fun t =>
      { t with rows := t.rows.map fun r =>
          { r with cells := r.cells.map fun id => if id = labTd then dom.nextId else id } } := by
  unfold modifyParent
  simp only
  rw [ht]
  simp only [List.map_map]
  apply List.map_congr_left
  intro t ht
  simp only [Function.comp, List.map_map]
  congr 1
  apply List.map_congr_left
  intro r hr
  have hlt := hwf.rows_lt t ht r hr
  have hr2 : dom.nextId + 1 ∉ r.cells := fun e => by
    have := hlt _ e
    omega
  have hrm := removeChild_substTwo labTd dom.nextId (dom.nextId + 1) r.cells (by omega) hr2
  simp only [Function.comp]
  split
  · simp only [hrm]
  · rename_i hc
    have hnm : dom.nextId + 1 ∉ substTwo labTd dom.nextId (dom.nextId + 1) r.cells := by
      simpa using hc
    rw [← hrm, removeChild_of_not_mem hnm]

/-- Claim C12. For a lab cell `L` that is in a row and is read with span 2 and the lab
flag, on a page with no drag source: `splitLabIntoTwoSingles(L)` returns the first of two
new elements, `mergeSinglesIntoLab` called for the two new elements with the metadata that
`L` had ends normally, and afterwards every row has, position by position, the metadata
(course, day, slot index, span, subject, teacher, room, lab flag) it had before; the place
of `L` is taken by the first new element. -/
theorem split_then_merge (dom : Dom) (hwf : WellFormed dom) (labTd : Nat) (m : CellMeta)
    (hdrag : dom.dragSrc = none) (hin : attached dom labTd = true)
    (hm : metaOf dom labTd = some m) (hspan : m.colspan = 2) (hlab : m.isLab = true) :
    ∃ dom1 dom2, splitLabIntoTwoSingles dom labTd = some (dom1, dom.nextId) ∧
      mergeSinglesIntoLab dom1 dom.nextId (dom.nextId + 1) m = Run.done dom2 ∧
      pageView dom2 = pageView dom := by
  obtain ⟨td, hnode⟩ := metaOf_some_node hm
  have hgm : getMeta td = some m := by
    unfold metaOf at hm
    rw [hnode] at hm
    exact hm
  have hcell : td.classCell = true := by
    unfold getMeta at hgm
    by_contra hc
    simp [hc] at hgm
  have hcourse : td.course = m.course ∧ td.day = m.day := by
    unfold getMeta at hgm
    simp only [hcell, Bool.not_true, Bool.false_eq_true, if_false, Option.some.injEq] at hgm
    subst hgm
    exact ⟨rfl, rfl⟩
  obtain ⟨dom1, hsplit, hdrag1, htab1, hn, hn1, hnx⟩ :=
    splitLabIntoTwoSingles_eq dom hwf labTd td m hnode hgm hin
  have hlm : ∃ lm, metaOf dom1 dom.nextId = some lm := by
    unfold metaOf
    rw [hn]
    exact ⟨_, getMeta_applyMeta _ _⟩
  have hrm : ∃ rm, metaOf dom1 (dom.nextId + 1) = some rm := by
    unfold metaOf
    rw [hn1]
    exact ⟨_, getMeta_libraryTd _ _⟩
  obtain ⟨lm, hlm⟩ := hlm
  obtain ⟨rm, hrm⟩ := hrm
  have hmerge := mergeSinglesIntoLab_done dom1 dom.nextId (dom.nextId + 1) m _ lm rm
    (hdrag1.trans hdrag) hn hlm hrm
  refine ⟨dom1, _, hsplit, hmerge, ?_⟩
  have hleft : metaOf (modifyParent (applyMetaToCell dom1 dom.nextId
      { m with
        day := (applyMeta (libraryTd td m.slotIndex)
          { m with colspan := 1, isLab := false }).day,
        slotIndex := (applyMeta (libraryTd td m.slotIndex)
          { m with colspan := 1, isLab := false }).slotIndex,
        course := (applyMeta (libraryTd td m.slotIndex)
          { m with colspan := 1, isLab := false }).course,
        colspan := 2, isLab := true }) (dom.nextId + 1) (removeChild (dom.nextId + 1)))
      dom.nextId = some m := by
    have h := metaOf_applyMetaToCell_self dom1 dom.nextId
      { m with
        day := (applyMeta (libraryTd td m.slotIndex)
          { m with colspan := 1, isLab := false }).day,
        slotIndex := (applyMeta (libraryTd td m.slotIndex)
          { m with colspan := 1, isLab := false }).slotIndex,
        course := (applyMeta (libraryTd td m.slotIndex)
          { m with colspan := 1, isLab := false }).course,
        colspan := 2, isLab := true } _ hn
    unfold metaOf at h ⊢
    rw [nodes_modifyParent, h]
    cases m with
    | mk course day slotIndex colspan subject teacher room isLab =>
      simp only at hspan hlab
      subst hspan hlab
      simp [applyMeta, colspanOr1]
  have hother : ∀ id, id < dom.nextId → metaOf (modifyParent (applyMetaToCell dom1 dom.nextId
      { m with
        day := (applyMeta (libraryTd td m.slotIndex)
          { m with colspan := 1, isLab := false }).day,
        slotIndex := (applyMeta (libraryTd td m.slotIndex)
          { m with colspan := 1, isLab := false }).slotIndex,
        course := (applyMeta (libraryTd td m.slotIndex)
          { m with colspan := 1, isLab := false }).course,
        colspan := 2, isLab := true }) (dom.nextId + 1) (removeChild (dom.nextId + 1)))
      id = metaOf dom id := by
    intro id hid
    unfold metaOf
    rw [nodes_modifyParent, nodes_applyMetaToCell_ne _ _ _ _ (by omega),
      hnx id (by omega) (by omega)]
  unfold pageView
  rw [tables_modifyParent_removeChild dom (applyMetaToCell dom1 dom.nextId _) hwf labTd htab1]
  simp only [List.map_map]
  apply List.map_congr_left
  intro t ht
  simp only [Function.comp, List.map_map]
  apply List.map_congr_left
  intro r hr
  simp only [Function.comp, List.map_map]
  apply List.map_congr_left
  intro id hid
  simp only [Function.comp]
  by_cases e : id = labTd
  · rw [if_pos e, hleft, e, hm]
  · rw [if_neg e]
    exact hother id (hwf.rows_lt t ht r hr id hid)

theorem wellFormed_dragSrc {dom : Dom} (h : WellFormed dom) (d : Option Nat) :
    WellFormed { dom with dragSrc := d } :=
  ⟨h.nodup, h.rows_lt, h.nodes_lt⟩

/-- The hypotheses of `split_then_merge` hold for the lab of the example page when no
element is dragged. -/
theorem split_then_merge_witness :
    ∃ dom1 dom2, splitLabIntoTwoSingles examplePageIdle 2 = some (dom1, 5) ∧
      mergeSinglesIntoLab dom1 5 6 ⟨"CS1", "Monday", 2, 2, "Chem Lab", "T4", "L1", true⟩ =
        Run.done dom2 ∧
      pageView dom2 = pageView examplePageIdle :=
  split_then_merge examplePageIdle (wellFormed_dragSrc examplePage2_wellFormed none) 2
    ⟨"CS1", "Monday", 2, 2, "Chem Lab", "T4", "L1", true⟩ rfl (by decide) (by decide) rfl rfl

/-! ## The editor: two labs merged -/

/-- Claim C13, the code at the failing input. The lab without subject and teacher (room
L2) is dropped on the lab Chem Lab (teacher T4, room L1) and the user chooses MERGE.
`onDrop` completes, the source is replaced by two Library fillers and the target is a
span-2 lab; its teacher is `T4` and its room `L1 / L2`, but its subject is `Chem Lab / `
with the separator, not the only non-empty value `Chem Lab`. -/
theorem lab_merge_subject :
    (onDrop ⟨true, true⟩ 0 examplePageLabs).2 = Outcome.merged ∧
    pageView (onDrop ⟨true, true⟩ 0 examplePageLabs).1 =
      [[[some ⟨"CS1", "Monday", 0, 2, "Chem Lab / ", "T4", "L1 / L2", true⟩,
         some ⟨"CS1", "Monday", 2, 1, "Library", "", "", false⟩,
         some ⟨"CS1", "Monday", 3, 1, "Library", "", "", false⟩,
         none]]] := by
  decide

/-! ## The editor: the slots that a row covers -/

/-- Claim C14, the code at the failing input. On the example page the row of Monday is
serialized to six entries. The lab is dropped on the single cell Eng right before it, so
the right neighbour of the target is the lab itself: the target becomes a span-2 lab, the
neighbour is removed from the row, and `onDrop` ends with a TypeError. The row is then
serialized to five entries: it covers one slot less than before. -/
theorem lab_on_single_loses_slot :
    (serializeRow examplePage [0, 1, 2, 3, 4]).length = 6 ∧
    (onDrop ⟨true, true⟩ 1 examplePage).2 = Outcome.typeError ∧
    (onDrop ⟨true, true⟩ 1 examplePage).1.tables = [⟨"CS1", [⟨"Monday", [0, 1, 3, 4]⟩]⟩] ∧
    serializeRow (onDrop ⟨true, true⟩ 1 examplePage).1 [0, 1, 3, 4] =
      [some 0, some 1, some 1, none, some 4] := by
  decide

/-! ## The editor: conflict highlighting -/

theorem isTTCell_map_plain (o : Option Td) : isTTCell (o.map plain) = isTTCell o := by
  cases o <;> rfl

theorem isBreakCell_map_plain (o : Option Td) : isBreakCell (o.map plain) = isBreakCell o := by
  cases o <;> rfl

theorem cellCoversSlot_map_plain (o : Option Td) (slot : Nat) :
    cellCoversSlot (o.map plain) slot = cellCoversSlot o slot := by
  cases o <;> rfl

theorem redMatch_map_plain {toLowerCase : String → String} (teacher room : String) (o : Option Td) :
    redMatch toLowerCase teacher room (o.map plain) = redMatch toLowerCase teacher room o := by
  cases o <;> rfl

theorem SameCells.isTTCell {d1 d2 : Dom} (h : SameCells d1 d2) (i : Nat) :
    Schedulo.isTTCell (d1.nodes i) = Schedulo.isTTCell (d2.nodes i) := by
  rw [← isTTCell_map_plain (d1.nodes i), h i, isTTCell_map_plain]

theorem SameCells.isBreakCell {d1 d2 : Dom} (h : SameCells d1 d2) (i : Nat) :
    Schedulo.isBreakCell (d1.nodes i) = Schedulo.isBreakCell (d2.nodes i) := by
  rw [← isBreakCell_map_plain (d1.nodes i), h i, isBreakCell_map_plain]

theorem SameCells.cellCoversSlot {d1 d2 : Dom} (h : SameCells d1 d2) (i slot : Nat) :
    Schedulo.cellCoversSlot (d1.nodes i) slot = Schedulo.cellCoversSlot (d2.nodes i) slot := by
  rw [← cellCoversSlot_map_plain (d1.nodes i), h i, cellCoversSlot_map_plain]

theorem SameCells.redMatch {toLowerCase : String → String} {d1 d2 : Dom} (h : SameCells d1 d2)
    (teacher room : String)
    (i : Nat) :
    Schedulo.redMatch toLowerCase teacher room (d1.nodes i) =
        Schedulo.redMatch toLowerCase teacher room (d2.nodes i) := by
  rw [← redMatch_map_plain teacher room (d1.nodes i), h i, redMatch_map_plain]

theorem metaOf_eq_map_plain (dom : Dom) (i : Nat) :
    metaOf dom i = ((dom.nodes i).map plain).bind getMeta := by
  unfold metaOf
  cases dom.nodes i <;> rfl

theorem SameCells.metaOf {d1 d2 : Dom} (h : SameCells d1 d2) (i : Nat) :
    Schedulo.metaOf d1 i = Schedulo.metaOf d2 i := by
  rw [metaOf_eq_map_plain, metaOf_eq_map_plain, h i]

theorem SameCells.busyInRow {toLowerCase : String → String} {d1 d2 : Dom} (h : SameCells d1 d2)
    (teacher room : String)
    (isLab : Bool) (slot : Nat) (cells : List Nat) :
    Schedulo.busyInRow toLowerCase d1 teacher room isLab slot cells =
      Schedulo.busyInRow toLowerCase d2 teacher room isLab slot cells := by
  induction cells with
  | nil => rfl
  | cons oc rest ih =>
    unfold Schedulo.busyInRow
    rw [h.isTTCell, h.isBreakCell, h.cellCoversSlot, h.metaOf, ih]

theorem SameCells.overlapsBusy {toLowerCase : String → String} {d1 d2 : Dom} (h : SameCells d1 d2)
    (others : List Table)
    (teacher room : String) (isLab : Bool) (cm : CellMeta) :
    Schedulo.overlapsBusy toLowerCase d1 others teacher room isLab cm =
      Schedulo.overlapsBusy toLowerCase d2 others teacher room isLab cm := by
  unfold Schedulo.overlapsBusy
  simp only [h.busyInRow]

theorem SameCells.trans {d1 d2 d3 : Dom} (h : SameCells d1 d2) (g : SameCells d2 d3) :
    SameCells d1 d3 :=
  fun i => (h i).trans (g i)

theorem sameCells_clearHighlights (dom : Dom) : SameCells (clearHighlights dom) dom :=
  fun i => plain_clearHighlights dom i

theorem sameCells_addRed (dom : Dom) (p : Nat → Bool) : SameCells (addRed dom p) dom := by
  intro i
  unfold addRed
  simp only
  split
  · cases dom.nodes i <;> rfl
  · rfl

theorem sameCells_addOrange (dom : Dom) (p : Nat → Bool) :
    SameCells (addOrange dom p) dom := by
  intro i
  unfold addOrange
  simp only
  split
  · cases dom.nodes i <;> rfl
  · rfl

/-- The orange pass examines the first cell that `firstCovering` finds. -/
theorem busyInRow_eq {toLowerCase : String → String} (dom : Dom) (teacher room : String)
    (isLab : Bool) (slot : Nat)
    (cells : List Nat) :
    busyInRow toLowerCase dom teacher room isLab slot cells =
      match firstCovering dom slot cells with
      | none => false
      | some oc =>
        match metaOf dom oc with
        | none => false
        | some om =>
          (teacher != "" && norm toLowerCase om.teacher == teacher) ||
            (room != "" && norm toLowerCase om.room == room) || (isLab && om.isLab) := by
  induction cells with
  | nil => rfl
  | cons oc rest ih =>
    unfold busyInRow firstCovering
    rw [List.find?_cons]
    by_cases h1 : (isBreakCell (dom.nodes oc) || !isTTCell (dom.nodes oc)) = true
    · rw [if_pos h1]
      simp only [h1, Bool.not_true, Bool.false_and]
      exact ih
    · rw [if_neg h1]
      have h1f : (isBreakCell (dom.nodes oc) || !isTTCell (dom.nodes oc)) = false := by
        simpa using h1
      by_cases h2 : cellCoversSlot (dom.nodes oc) slot = true
      · simp only [h1f, h2, Bool.not_false, Bool.not_true, Bool.and_self, Bool.false_eq_true,
          if_false]
      · have h2f : cellCoversSlot (dom.nodes oc) slot = false := by simpa using h2
        simp only [h1f, h2f, Bool.not_false, Bool.and_false, if_true]
        exact ih

theorem nodes_clearHighlights_attached (dom : Dom) (x : Nat) (td : Td)
    (hx : attached dom x = true) (hn : dom.nodes x = some td) :
    (clearHighlights dom).nodes x = some (plain td) := by
  unfold clearHighlights
  simp only [hx, if_true, hn]
  rfl

theorem nodes_addRed (dom : Dom) (p : Nat → Bool) (x : Nat) (td : Td)
    (hn : dom.nodes x = some td) :
    ∃ td', (addRed dom p).nodes x = some td' ∧ td'.red = (p x || td.red) ∧
      td'.orange = td.orange := by
  unfold addRed
  simp only [hn]
  by_cases hp : p x = true
  · exact ⟨{ td with red := true }, by rw [if_pos hp]; rfl, by simp [hp], rfl⟩
  · have hpf : p x = false := by simpa using hp
    exact ⟨td, by rw [if_neg hp], by simp [hpf], rfl⟩

theorem nodes_addOrange (dom : Dom) (p : Nat → Bool) (x : Nat) (td : Td)
    (hn : dom.nodes x = some td) :
    ∃ td', (addOrange dom p).nodes x = some td' ∧ td'.red = td.red ∧
      td'.orange = (p x || td.orange) := by
  unfold addOrange
  simp only [hn]
  by_cases hp : p x = true
  · exact ⟨{ td with orange := true }, by rw [if_pos hp]; rfl, rfl, by simp [hp]⟩
  · have hpf : p x = false := by simpa using hp
    exact ⟨td, by rw [if_neg hp], rfl, by simp [hpf]⟩

theorem SameCells.orangeTest {toLowerCase : String → String} {d1 d2 : Dom} (h : SameCells d1 d2)
    (ht : d1.tables = d2.tables)
    (c : Nat) (m : CellMeta) (x : Nat) :
    (d1.tables.any (fun t => inTable t c && inTable t x) &&
      Schedulo.isTTCell (d1.nodes x) &&
      match Schedulo.metaOf d1 x with
      | none => false
      | some cm =>
        Schedulo.overlapsBusy toLowerCase d1 (otherTables d1 c) (norm toLowerCase m.teacher)
            (norm toLowerCase m.room) m.isLab cm) =
    (d2.tables.any (fun t => inTable t c && inTable t x) &&
      Schedulo.isTTCell (d2.nodes x) &&
      match Schedulo.metaOf d2 x with
      | none => false
      | some cm =>
        Schedulo.overlapsBusy toLowerCase d2 (otherTables d2 c) (norm toLowerCase m.teacher)
            (norm toLowerCase m.room) m.isLab cm) := by
  have ho : otherTables d1 c = otherTables d2 c := by
    unfold otherTables
    rw [ht]
  rw [ht, h.isTTCell, h.metaOf, ho]
  cases Schedulo.metaOf d2 x with
  | none => rfl
  | some cm => simp only [h.overlapsBusy]

/-- The page after `onCellClick` on a timetable cell that is in a table: the elements of
the rows carry the two highlight classes as the two passes decide. -/
theorem onCellClick_nodes {toLowerCase : String → String} (dom : Dom) (c : Nat) (m : CellMeta)
    (hin : attached dom c = true) (hm : metaOf dom c = some m) :
    ∃ dom', onCellClick toLowerCase dom c = some dom' ∧ dom'.tables = dom.tables ∧
        SameCells dom' dom ∧
      ∀ x td, attached dom x = true → dom.nodes x = some td →
        ∃ td', dom'.nodes x = some td' ∧
          td'.red = ((otherTables dom c).any (fun ot => inTable ot x) &&
            redMatch toLowerCase (norm toLowerCase m.teacher) (norm toLowerCase m.room)
                (dom.nodes x)) ∧
          td'.orange = ((norm toLowerCase m.teacher != "" || norm toLowerCase m.room != "" ||
              m.isLab) &&
            (dom.tables.any (fun t => inTable t c && inTable t x) &&
              isTTCell (dom.nodes x) &&
              match metaOf dom x with
              | none => false
              | some cm =>
                overlapsBusy toLowerCase dom (otherTables dom c) (norm toLowerCase m.teacher)
                    (norm toLowerCase m.room)
                  m.isLab cm)) := by
  have h0 : SameCells (clearHighlights dom) dom := sameCells_clearHighlights dom
  have hm0 : metaOf (clearHighlights dom) c = some m := by rw [h0.metaOf, hm]
  have h1 : SameCells (redPass toLowerCase (clearHighlights dom) c m) dom :=
    (sameCells_addRed _ _).trans h0
  have hred : ∀ x td, attached dom x = true → dom.nodes x = some td →
      ∃ td', (redPass toLowerCase (clearHighlights dom) c m).nodes x = some td' ∧
        td'.red = ((otherTables dom c).any (fun ot => inTable ot x) &&
            redMatch toLowerCase (norm toLowerCase m.teacher) (norm toLowerCase m.room)
                (dom.nodes x)) ∧
        td'.orange = false := by
    intro x td hx hn
    have hc := nodes_clearHighlights_attached dom x td hx hn
    obtain ⟨td1, hn1, hr1, ho1⟩ := nodes_addRed (clearHighlights dom) (fun i =>
      (otherTables (clearHighlights dom) c).any (fun ot => inTable ot i) &&
        redMatch toLowerCase (norm toLowerCase m.teacher) (norm toLowerCase m.room)
            ((clearHighlights dom).nodes i)) x _ hc
    refine ⟨td1, hn1, ?_, ho1⟩
    rw [hr1, h0.redMatch]
    show (_ || false) = _
    rw [Bool.or_false]
    rfl
  by_cases hg : (norm toLowerCase m.teacher != "" || norm toLowerCase m.room != "" || m.isLab) =
      true
  · refine ⟨orangePass toLowerCase (redPass toLowerCase (clearHighlights dom) c m) c m, by
        unfold onCellClick
        simp only [hin, Bool.not_true, Bool.false_eq_true, if_false, hm0, hg, if_true],
      rfl, (sameCells_addOrange _ _).trans h1, ?_⟩
    intro x td hx hn
    obtain ⟨td1, hn1, hr1, ho1⟩ := hred x td hx hn
    obtain ⟨td2, hn2, hr2, ho2⟩ := nodes_addOrange (redPass toLowerCase (clearHighlights dom) c m)
      (fun i =>
        (redPass toLowerCase (clearHighlights dom) c m).tables.any (fun t => inTable t c &&
            inTable t i) &&
          isTTCell ((redPass toLowerCase (clearHighlights dom) c m).nodes i) &&
          match metaOf (redPass toLowerCase (clearHighlights dom) c m) i with
          | none => false
          | some cm =>
            overlapsBusy toLowerCase (redPass toLowerCase (clearHighlights dom) c m)
              (otherTables (redPass toLowerCase (clearHighlights dom) c m) c)
                  (norm toLowerCase m.teacher)
              (norm toLowerCase m.room) m.isLab cm) x td1 hn1
    refine ⟨td2, hn2, hr2.trans hr1, ?_⟩
    rw [ho2, ho1, Bool.or_false, hg, Bool.true_and]
    exact h1.orangeTest rfl c m x
  · have hgf : (norm toLowerCase m.teacher != "" || norm toLowerCase m.room != "" || m.isLab) =
      false := by
      simpa using hg
    refine ⟨redPass toLowerCase (clearHighlights dom) c m, by
        unfold onCellClick
        simp only [hin, Bool.not_true, Bool.false_eq_true, if_false, hm0, hg],
      rfl, h1, ?_⟩
    intro x td hx hn
    obtain ⟨td1, hn1, hr1, ho1⟩ := hred x td hx hn
    refine ⟨td1, hn1, hr1, ?_⟩
    rw [ho1, hgf, Bool.false_and]

theorem attached_of_inTable {dom : Dom} {t : Table} {x : Nat} (ht : t ∈ dom.tables)
    (hx : inTable t x = true) : attached dom x = true := by
  unfold attached
  exact List.any_eq_true.2 ⟨t, ht, hx⟩

/-- On a page whose tables share no element, an element of the table `t` is in one of
the other tables exactly when `t` is not the table of the selected cell. -/
theorem otherTables_any_iff {dom : Dom} (hsep : Separate dom) {t : Table} {c x : Nat}
    (ht : t ∈ dom.tables) (hx : inTable t x = true) :
    (otherTables dom c).any (fun ot => inTable ot x) = true ↔ inTable t c = false := by
  unfold otherTables
  rw [List.any_eq_true]
  constructor
  · rintro ⟨t2, ht2, hx2⟩
    rw [List.mem_filter] at ht2
    by_cases e : t2 = t
    · rw [← e]
      simpa using ht2.2
    · have hsym : Symmetric fun t1 t2 : Table =>
          ∀ x, inTable t1 x = true → inTable t2 x = false := by
        intro a b hab y hy
        by_contra hn
        have hya : inTable a y = true := by simpa using hn
        rw [hab y hya] at hy
        cases hy
      have := List.Pairwise.forall hsym hsep ht2.1 ht e x hx2
      rw [this] at hx
      cases hx
  · intro hc
    exact ⟨t, List.mem_filter.2 ⟨ht, by simp [hc]⟩, hx⟩

theorem redMatch_cell {toLowerCase : String → String} (teacher room : String) (td : Td)
    (hcell : td.classCell = true)
    (hbreak : td.classBreak = false) :
    redMatch toLowerCase teacher room (some td) = true ↔
      (teacher ≠ "" ∧ norm toLowerCase td.teacher = teacher) ∨ (room ≠ "" ∧
          norm toLowerCase td.room = room) := by
  simp [redMatch, getMeta, hcell, hbreak]

/-- Claim C15. After `onCellClick` on a timetable cell `c` that is in a table, on a page
whose tables share no element: a timetable cell that is no Break cell, in a row of any
day at any place, is flagged red if and only if its table is not the table of `c` and
its normalized teacher is the non-empty normalized teacher of `c` or its normalized room
is the non-empty normalized room of `c`; no element of the table of `c` is flagged red.
Normalized is trimmed and lower-cased by the built-in `toLowerCase`, whatever function
that is. -/
theorem click_red (toLowerCase : String → String) (dom : Dom) (hsep : Separate dom) (c : Nat)
    (m : CellMeta)
    (hin : attached dom c = true) (hm : metaOf dom c = some m) :
    ∃ dom', onCellClick toLowerCase dom c = some dom' ∧
      ∀ t ∈ dom.tables, ∀ x, inTable t x = true → ∀ td, dom.nodes x = some td →
        ∃ td', dom'.nodes x = some td' ∧
          (inTable t c = true → td'.red = false) ∧
          (td.classCell = true → td.classBreak = false →
            (td'.red = true ↔ inTable t c = false ∧
              ((norm toLowerCase m.teacher ≠ "" ∧ norm toLowerCase td.teacher =
                  norm toLowerCase m.teacher) ∨
               (norm toLowerCase m.room ≠ "" ∧ norm toLowerCase td.room =
                   norm toLowerCase m.room)))) := by
  obtain ⟨dom', hclick, -, -, hnodes⟩ := onCellClick_nodes dom c m hin hm
  refine ⟨dom', hclick, ?_⟩
  intro t ht x hx td hn
  obtain ⟨td', hn', hred, -⟩ := hnodes x td (attached_of_inTable ht hx) hn
  refine ⟨td', hn', ?_, ?_⟩
  · intro hc
    rw [hred]
    have : ¬ ((otherTables dom c).any (fun ot => inTable ot x) = true) := by
      rw [otherTables_any_iff hsep ht hx, hc]
      simp
    simp [this]
  · intro hcell hbreak
    rw [hred, Bool.and_eq_true, otherTables_any_iff hsep ht hx, hn,
      redMatch_cell _ _ td hcell hbreak]

theorem examplePages_separate : Separate examplePages := by
  unfold Separate examplePages
  simp only [List.pairwise_cons, List.mem_cons, List.mem_singleton, forall_eq_or_imp,
    forall_eq, List.not_mem_nil, false_imp_iff, implies_true, List.Pairwise.nil, and_true]
  intro x hx
  simp [inTable] at hx ⊢
  omega

/-- Witness of claim C15, scenario 3 of the specification: a cell with the teacher
`Dr. Smith` is selected; the cells of the other table whose teacher normalizes to
`dr. smith`, on Monday and on Tuesday, are flagged red and no other element is. -/
theorem click_red_witness :
    (∃ dom', onCellClick asciiLower examplePages 0 = some dom' ∧
      ∀ t ∈ examplePages.tables, ∀ x, inTable t x = true → ∀ td,
        examplePages.nodes x = some td →
        ∃ td', dom'.nodes x = some td' ∧
          (inTable t 0 = true → td'.red = false) ∧
          (td.classCell = true → td.classBreak = false →
            (td'.red = true ↔ inTable t 0 = false ∧
              ((norm asciiLower "Dr. Smith" ≠ "" ∧ norm asciiLower td.teacher =
                  norm asciiLower "Dr. Smith") ∨
               (norm asciiLower "R1" ≠ "" ∧ norm asciiLower td.room = norm asciiLower "R1"))))) ∧
    norm asciiLower "Dr. Smith" = "dr. smith" ∧
    (flagsAfter (onCellClick asciiLower examplePages 0) 9).map (Option.map Prod.fst) =
      [some false, some false, some false, some false, some true, some false, some false,
        some false, some true] :=
  ⟨click_red asciiLower examplePages examplePages_separate 0
      ⟨"CS1", "Monday", 0, 1, "Maths", "Dr. Smith", "R1", false⟩ (by decide) (by decide),
    by decide, by decide⟩

/-! ## The editor: the orange pass -/

theorem mem_slotsCovered (cm : CellMeta) (slot : Nat) :
    slot ∈ slotsCovered cm ↔
      cm.slotIndex ≤ slot ∧ slot ≤ cm.slotIndex + colspanOr1 cm.colspan - 1 := by
  have hpos : 0 < colspanOr1 cm.colspan := by
    unfold colspanOr1
    split <;> omega
  unfold slotsCovered
  simp only [List.mem_map, List.mem_range]
  constructor
  · rintro ⟨s, hs, rfl⟩
    omega
  · rintro ⟨h1, h2⟩
    exact ⟨slot - cm.slotIndex, by omega, by omega⟩

theorem busyInRow_iff {toLowerCase : String → String} (dom : Dom) (teacher room : String)
    (isLab : Bool) (slot : Nat)
    (cells : List Nat) :
    busyInRow toLowerCase dom teacher room isLab slot cells = true ↔
      ∃ oc om, firstCovering dom slot cells = some oc ∧ metaOf dom oc = some om ∧
        ((teacher ≠ "" ∧ norm toLowerCase om.teacher = teacher) ∨ (room ≠ "" ∧
            norm toLowerCase om.room = room) ∨
          (isLab = true ∧ om.isLab = true)) := by
  rw [busyInRow_eq]
  cases hf : firstCovering dom slot cells with
  | none => simp
  | some oc =>
    cases hm : metaOf dom oc with
    | none => simp [hm]
    | some om => simp [hm, or_assoc]

theorem overlapsBusy_iff {toLowerCase : String → String} (dom : Dom) (others : List Table)
    (teacher room : String)
    (isLab : Bool) (cm : CellMeta) :
    overlapsBusy toLowerCase dom others teacher room isLab cm = true ↔
      ∃ slot, cm.slotIndex ≤ slot ∧ slot ≤ cm.slotIndex + colspanOr1 cm.colspan - 1 ∧
        ∃ ot ∈ others, ∃ row, findRowForDay toLowerCase ot cm.day = some row ∧
          ∃ oc om, firstCovering dom slot row.cells = some oc ∧ metaOf dom oc = some om ∧
            ((teacher ≠ "" ∧ norm toLowerCase om.teacher = teacher) ∨
              (room ≠ "" ∧ norm toLowerCase om.room = room) ∨ (isLab = true ∧ om.isLab = true)) :=
                  by
  unfold overlapsBusy
  rw [List.any_eq_true]
  constructor
  · rintro ⟨slot, hs, h⟩
    rw [List.any_eq_true] at h
    obtain ⟨ot, hot, h⟩ := h
    rw [mem_slotsCovered] at hs
    cases hr : findRowForDay toLowerCase ot cm.day with
    | none => rw [hr] at h; cases h
    | some row =>
      rw [hr] at h
      exact ⟨slot, hs.1, hs.2, ot, hot, row, hr, (busyInRow_iff _ _ _ _ _ _).1 h⟩
  · rintro ⟨slot, h1, h2, ot, hot, row, hr, h⟩
    refine ⟨slot, (mem_slotsCovered cm slot).2 ⟨h1, h2⟩, ?_⟩
    rw [List.any_eq_true]
    refine ⟨ot, hot, ?_⟩
    rw [hr]
    exact (busyInRow_iff _ _ _ _ _ _).2 h

/-- Claim C16 as stated fails. On the example page the single cell of Dr. Smith is
selected. The lab of its table covers the slots 2 and 3 of Monday, and so does a lab of
the other table: by the stated rule the lab is flagged, being a lab that overlaps a lab.
`onCellClick` does not flag it (the third pair of the list): the selected cell is no lab
and the other lab has neither its teacher nor its room. -/
theorem click_orange_counterexample :
    orangeAsStated asciiLower examplePages 0 2 = true ∧
    flagsAfter (onCellClick asciiLower examplePages 0) 9 =
      [some (false, true), some (false, false), some (false, false), some (false, false),
        some (true, false), some (false, false), some (false, false), some (false, false),
        some (true, false)] := by
  decide

/-- Claim C16, amended. After `onCellClick` on a timetable cell `c` that is in a table, a
timetable cell `c2` of the table of `c` is flagged orange if and only if `c` has a
non-empty normalized teacher or a non-empty normalized room or is a lab, and there are a
slot in the range [slotIndex, slotIndex+span-1] of `c2` and another table with a row for
the day of `c2` itself such that the first timetable cell of that row that is no Break
cell and covers the slot has the non-empty normalized teacher of `c`, or the non-empty
normalized room of `c`, or is a lab while `c` is a lab. An element of the table of `c`
that is no timetable cell is not flagged orange. Normalized is trimmed and lower-cased by
the built-in `toLowerCase`, whatever function that is. -/
theorem click_orange (toLowerCase : String → String) (dom : Dom) (c : Nat) (m : CellMeta)
    (hin : attached dom c = true) (hm : metaOf dom c = some m) :
    ∃ dom', onCellClick toLowerCase dom c = some dom' ∧
      ∀ t ∈ dom.tables, inTable t c = true → ∀ x, inTable t x = true →
        ∀ td, dom.nodes x = some td →
        ∃ td', dom'.nodes x = some td' ∧
          (getMeta td = none → td'.orange = false) ∧
          ∀ cm, getMeta td = some cm →
            (td'.orange = true ↔
              (norm toLowerCase m.teacher ≠ "" ∨ norm toLowerCase m.room ≠ "" ∨ m.isLab = true) ∧
              ∃ slot, cm.slotIndex ≤ slot ∧ slot ≤ cm.slotIndex + colspanOr1 cm.colspan - 1 ∧
                ∃ ot ∈ dom.tables, inTable ot c = false ∧
                  ∃ row, findRowForDay toLowerCase ot cm.day = some row ∧
                    ∃ oc om, firstCovering dom slot row.cells = some oc ∧
                      metaOf dom oc = some om ∧
                      ((norm toLowerCase m.teacher ≠ "" ∧ norm toLowerCase om.teacher =
                          norm toLowerCase m.teacher) ∨
                        (norm toLowerCase m.room ≠ "" ∧ norm toLowerCase om.room =
                            norm toLowerCase m.room) ∨
                        (m.isLab = true ∧ om.isLab = true))) := by
  obtain ⟨dom', hclick, -, -, hnodes⟩ := onCellClick_nodes dom c m hin hm
  refine ⟨dom', hclick, ?_⟩
  intro t ht hc x hx td hn
  obtain ⟨td', hn', -, hor⟩ := hnodes x td (attached_of_inTable ht hx) hn
  have hany : dom.tables.any (fun t => inTable t c && inTable t x) = true :=
    List.any_eq_true.2 ⟨t, ht, by simp [hc, hx]⟩
  have hmx : metaOf dom x = getMeta td := by
    unfold metaOf
    rw [hn]
  refine ⟨td', hn', ?_, ?_⟩
  · intro hnone
    rw [hor, hmx, hnone]
    simp
  · intro cm hcm
    have hcell : isTTCell (dom.nodes x) = true := by
      rw [hn]
      unfold getMeta at hcm
      by_contra hcl
      simp [isTTCell] at hcl
      simp [hcl] at hcm
    rw [hor, hany, hcell, hmx, hcm]
    simp only [Bool.true_and, Bool.and_eq_true, Bool.or_eq_true, bne_iff_ne, ne_eq]
    rw [overlapsBusy_iff]
    simp only [otherTables, List.mem_filter, Bool.not_eq_true', ne_eq, or_assoc]
    constructor
    · rintro ⟨hg, slot, h1, h2, ot, ⟨hot, hoc⟩, rest⟩
      exact ⟨hg, slot, h1, h2, ot, hot, hoc, rest⟩
    · rintro ⟨hg, slot, h1, h2, ot, hot, hoc, rest⟩
      exact ⟨hg, slot, h1, h2, ot, ⟨hot, hoc⟩, rest⟩

/-- The hypotheses of `click_orange` hold for the lab of the first table of the example
page; after the click on it the lab itself is flagged orange and no other element of its
table is, because a lab of the other table covers its slots on Monday. -/
theorem click_orange_witness :
    (∃ dom', onCellClick asciiLower examplePages 2 = some dom' ∧
      ∀ t ∈ examplePages.tables, inTable t 2 = true → ∀ x, inTable t x = true →
        ∀ td, examplePages.nodes x = some td →
        ∃ td', dom'.nodes x = some td' ∧
          (getMeta td = none → td'.orange = false) ∧
          ∀ cm, getMeta td = some cm →
            (td'.orange = true ↔
              (norm asciiLower "T4" ≠ "" ∨ norm asciiLower "L1" ≠ "" ∨ true = true) ∧
              ∃ slot, cm.slotIndex ≤ slot ∧ slot ≤ cm.slotIndex + colspanOr1 cm.colspan - 1 ∧
                ∃ ot ∈ examplePages.tables, inTable ot 2 = false ∧
                  ∃ row, findRowForDay asciiLower ot cm.day = some row ∧
                    ∃ oc om, firstCovering examplePages slot row.cells = some oc ∧
                      metaOf examplePages oc = some om ∧
                      ((norm asciiLower "T4" ≠ "" ∧ norm asciiLower om.teacher =
                          norm asciiLower "T4") ∨
                        (norm asciiLower "L1" ≠ "" ∧ norm asciiLower om.room =
                            norm asciiLower "L1") ∨
                        (true = true ∧ om.isLab = true)))) ∧
    flagsAfter (onCellClick asciiLower examplePages 2) 4 =
      [some (false, false), some (false, false), some (false, true), some (false, false)] :=
  ⟨click_orange asciiLower examplePages 2 ⟨"CS1", "Monday", 2, 2, "Chem Lab", "T4", "L1", true⟩
      (by decide) (by decide),
    by decide⟩

/-! ## The room of a lab attempt -/

theorem stickyLab_none_of_used (labs : List Classroom) (usedLabs : List String)
    (labType : Option String) (bound : Option String)
    (h : ∀ a, bound = some a → ∀ l ∈ labs, l.roomNumber = a →
      labTypeMatches labType l = true → l.roomNumber ∈ usedLabs) :
    stickyLab labs usedLabs labType bound = none := by
  unfold stickyLab
  cases bound with
  | none => rfl
  | some a =>
    simp only
    split
    · rfl
    · rw [List.find?_eq_none]
      intro l hl hp
      simp only [Bool.and_eq_true, decide_eq_true_eq, Bool.not_eq_true',
        contains_false_iff] at hp
      exact hp.2 (h a rfl l hl hp.1.1 hp.1.2)

/-- Claim C17. In a lab attempt, when the lab bound to the group of the subject is booked
in one of the two slots of the pair and some lab of the input has the sub-type that the
subject requires and is booked in neither slot, a room is chosen: it is a lab of the
input, it has the required sub-type, it is booked in neither slot (so the attempt passes
the room check) and its number is not that of the bound lab. -/
theorem bound_lab_booked (ctx : Ctx) (day : String) (slot1 slot2 : Nat) (st : GenState)
    (a : String)
    (hbound : st.assignedLabsForGroups (labGroupOf st.scheduled) = some a)
    (hused : a ∈ usedLabsOf st day slot1 slot2)
    (hfree : ∃ l ∈ labsOf ctx.classrooms, labTypeMatches ctx.subject.labType l = true ∧
      l.roomNumber ∉ usedLabsOf st day slot1 slot2) :
    ∃ room, chooseLabRoom ctx day slot1 slot2 st = some room ∧
      room ∈ labsOf ctx.classrooms ∧
      labTypeMatches ctx.subject.labType room = true ∧
      (∀ ty, ctx.subject.labType = some ty → ty ≠ "" → room.labType = some ty) ∧
      room.roomNumber ∉ st.roomSchedule day slot1 ∧
      room.roomNumber ∉ st.roomSchedule day slot2 ∧
      room.roomNumber ≠ a ∧
      labRoomFree (afterLabChoice ctx day slot1 slot2 st) day slot1 slot2 room = true := by
  have hsticky : stickyLab (labsOf ctx.classrooms) (usedLabsOf st day slot1 slot2)
      ctx.subject.labType (st.assignedLabsForGroups (labGroupOf st.scheduled)) = none := by
    apply stickyLab_none_of_used
    intro b hb l _ hl _
    rw [hbound] at hb
    cases hb
    rw [hl]
    exact hused
  obtain ⟨l0, hl0, hty0, hfree0⟩ := hfree
  have hmem0 : l0 ∈ (labsOf ctx.classrooms).filter fun l =>
      labTypeMatches ctx.subject.labType l &&
        !((usedLabsOf st day slot1 slot2).contains l.roomNumber) := by
    rw [List.mem_filter]
    refine ⟨hl0, ?_⟩
    simp [hty0, hfree0]
  have hne : shuffle (ctx.rand st.draws) ((labsOf ctx.classrooms).filter fun l =>
      labTypeMatches ctx.subject.labType l &&
        !((usedLabsOf st day slot1 slot2).contains l.roomNumber)) ≠ [] := by
    intro e
    have := (mem_shuffle (ctx.rand st.draws) _ l0).mpr hmem0
    rw [e] at this
    cases this
  obtain ⟨room, rest, hsh⟩ := List.exists_cons_of_ne_nil hne
  have hchoose : chooseLabRoom ctx day slot1 slot2 st = some room := by
    unfold chooseLabRoom
    rw [hsticky]
    unfold getLabForGroup
    simp only [hsh]
  have hroom : room ∈ (labsOf ctx.classrooms).filter fun l =>
      labTypeMatches ctx.subject.labType l &&
        !((usedLabsOf st day slot1 slot2).contains l.roomNumber) := by
    rw [← mem_shuffle (ctx.rand st.draws), hsh]
    exact List.mem_cons_self _ _
  rw [List.mem_filter] at hroom
  obtain ⟨hin, hp⟩ := hroom
  simp only [Bool.and_eq_true, Bool.not_eq_true', contains_false_iff] at hp
  obtain ⟨hty, hnu⟩ := hp
  have hn1 : room.roomNumber ∉ st.roomSchedule day slot1 := fun e =>
    hnu (List.mem_append_left _ e)
  have hn2 : room.roomNumber ∉ st.roomSchedule day slot2 := fun e =>
    hnu (List.mem_append_right _ e)
  refine ⟨room, hchoose, hin, hty, ?_, hn1, hn2, ?_, ?_⟩
  · intro ty hsome hne2
    unfold labTypeMatches at hty
    rw [hsome] at hty
    simpa [hne2] using hty
  · intro e
    exact hnu (e ▸ hused)
  · have ht := afterLabChoice_tweak ctx day slot1 slot2 st
    unfold labRoomFree
    rw [ht.roomSchedule]
    simp [hn1, hn2]

/-- Witness of claim C17, scenario 4 of the specification: the sub-type Physics is
required, the group Lab-1 is bound to L1, L1 is booked in the pair and the Physics lab L2
is free: L2 is chosen. -/
theorem bound_lab_booked_witness :
    (∃ room, chooseLabRoom scenarioLabCtx "Monday" 0 1 scenarioLabState = some room ∧
      room ∈ labsOf scenarioLabCtx.classrooms ∧
      labTypeMatches scenarioLabCtx.subject.labType room = true ∧
      (∀ ty, scenarioLabCtx.subject.labType = some ty → ty ≠ "" → room.labType = some ty) ∧
      room.roomNumber ∉ scenarioLabState.roomSchedule "Monday" 0 ∧
      room.roomNumber ∉ scenarioLabState.roomSchedule "Monday" 1 ∧
      room.roomNumber ≠ "L1" ∧
      labRoomFree (afterLabChoice scenarioLabCtx "Monday" 0 1 scenarioLabState) "Monday" 0 1
        room = true) ∧
    chooseLabRoom scenarioLabCtx "Monday" 0 1 scenarioLabState =
      some ⟨"L2", "Block", "lab", none, some "Physics"⟩ :=
  ⟨bound_lab_booked scenarioLabCtx "Monday" 0 1 scenarioLabState "L1" (by decide) (by decide)
      ⟨⟨"L2", "Block", "lab", none, some "Physics"⟩, by decide, by decide, by decide⟩,
    by decide⟩

/-! ## The room of a lab attempt when no lab of the sub-type is free -/

/-- Claim C20 as stated fails. The subject requires a Physics lab; the Physics labs L1
and L2 are booked on Monday in the first slot, no lab is bound, and the Chemistry lab L3
is booked in neither slot of the pair. The room chosen is L1, the first Physics lab of the
list, not the free lab L3: the room check fails and nothing is placed. -/
theorem other_subtype_lab_counterexample :
    (∀ l ∈ labsOf scenarioLabCtx.classrooms, l.labType = some "Physics" →
      l.roomNumber ∈ usedLabsOf scenarioLabState2 "Monday" 0 1) ∧
    (⟨"L3", "Block", "lab", none, some "Chemistry"⟩ : Classroom) ∈
      labsOf scenarioLabCtx.classrooms ∧
    "L3" ∉ usedLabsOf scenarioLabState2 "Monday" 0 1 ∧
    scenarioLabState2.assignedLabsForGroups (labGroupOf scenarioLabState2.scheduled) = none ∧
    chooseLabRoom scenarioLabCtx "Monday" 0 1 scenarioLabState2 =
      some ⟨"L1", "Block", "lab", none, some "Physics"⟩ ∧
    labRoomFree (afterLabChoice scenarioLabCtx "Monday" 0 1 scenarioLabState2) "Monday" 0 1
      ⟨"L1", "Block", "lab", none, some "Physics"⟩ = false ∧
    (tryLabPair scenarioLabCtx "Monday" (0, 1) scenarioLabState2).2 = false := by
  decide

/-- Claim C20, amended. In a lab attempt, when every lab of the input that has the
sub-type required by the subject is booked in one of the two slots of the pair, the room
chosen is the first lab of the input with that sub-type, when there is one: it is booked
in one of the slots, the room check fails and nothing is placed, whether or not a lab of
another sub-type is free. When the input has no lab of the sub-type, the room chosen is
the first lab of the input. -/
theorem no_typed_lab_free (ctx : Ctx) (day : String) (slot1 slot2 : Nat) (st : GenState)
    (hnone : ∀ l ∈ labsOf ctx.classrooms, labTypeMatches ctx.subject.labType l = true →
      l.roomNumber ∈ usedLabsOf st day slot1 slot2) :
    (∀ room, (labsOf ctx.classrooms).find? (labTypeMatches ctx.subject.labType) = some room →
      chooseLabRoom ctx day slot1 slot2 st = some room ∧
      labRoomFree (afterLabChoice ctx day slot1 slot2 st) day slot1 slot2 room = false ∧
      (tryLabPair ctx day (slot1, slot2) st).2 = false) ∧
    ((labsOf ctx.classrooms).find? (labTypeMatches ctx.subject.labType) = none →
      chooseLabRoom ctx day slot1 slot2 st = (labsOf ctx.classrooms).head?) := by
  have hsticky : stickyLab (labsOf ctx.classrooms) (usedLabsOf st day slot1 slot2)
      ctx.subject.labType (st.assignedLabsForGroups (labGroupOf st.scheduled)) = none := by
    apply stickyLab_none_of_used
    intro b _ l hl _ hty
    exact hnone l hl hty
  have havail : ((labsOf ctx.classrooms).filter fun l =>
      labTypeMatches ctx.subject.labType l &&
        !((usedLabsOf st day slot1 slot2).contains l.roomNumber)) = [] := by
    rw [List.filter_eq_nil_iff]
    intro l hl hp
    simp only [Bool.and_eq_true, Bool.not_eq_true', contains_false_iff] at hp
    exact hp.2 (hnone l hl hp.1)
  constructor
  · intro room hfind
    have hc : chooseLabRoom ctx day slot1 slot2 st = some room := by
      unfold chooseLabRoom
      rw [hsticky]
      unfold getLabForGroup
      simp only [havail, shuffle, hfind]
    have hused := hnone room (List.mem_of_find?_eq_some hfind)
      (by simpa using List.find?_some hfind)
    have hfree : labRoomFree (afterLabChoice ctx day slot1 slot2 st) day slot1 slot2 room =
        false := by
      have ht := afterLabChoice_tweak ctx day slot1 slot2 st
      unfold labRoomFree
      rw [ht.roomSchedule]
      unfold usedLabsOf at hused
      rcases List.mem_append.mp hused with h | h
      · simp [h]
      · simp [h]
    refine ⟨hc, hfree, ?_⟩
    unfold tryLabPair
    simp only [hc, hfree, Bool.false_and]
    split <;> rfl
  · intro hfind
    unfold chooseLabRoom
    rw [hsticky]
    unfold getLabForGroup
    simp only [havail, shuffle, hfind]

/-- The hypothesis of `no_typed_lab_free` holds in the state of the counterexample: L1 is
chosen and the attempt fails. -/
theorem no_typed_lab_free_witness :
    (∀ room, (labsOf scenarioLabCtx.classrooms).find?
        (labTypeMatches scenarioLabCtx.subject.labType) = some room →
      chooseLabRoom scenarioLabCtx "Monday" 0 1 scenarioLabState2 = some room ∧
      labRoomFree (afterLabChoice scenarioLabCtx "Monday" 0 1 scenarioLabState2) "Monday" 0 1
        room = false ∧
      (tryLabPair scenarioLabCtx "Monday" (0, 1) scenarioLabState2).2 = false) ∧
    ((labsOf scenarioLabCtx.classrooms).find?
        (labTypeMatches scenarioLabCtx.subject.labType) = none →
      chooseLabRoom scenarioLabCtx "Monday" 0 1 scenarioLabState2 =
        (labsOf scenarioLabCtx.classrooms).head?) :=
  no_typed_lab_free scenarioLabCtx "Monday" 0 1 scenarioLabState2 (by decide)

/-! ## The rooms of the placements -/

theorem mem_eligibleRoomsOf {classrooms : List Classroom} {course : Course} {r : Classroom}
    (h : r ∈ eligibleRoomsOf classrooms course) :
    ∃ n, r ∈ getEligibleRoomsForCourse classrooms n ∨ r ∈ fallbackRooms classrooms n := by
  unfold eligibleRoomsOf at h
  split at h
  · exact ⟨_, Or.inr h⟩
  · exact ⟨_, Or.inl h⟩

theorem RoomsFrom_stepClosed (rand : Nat → Nat) (teachers : List Teacher)
    (classrooms : List Classroom) (course : Course) (subject : Subject) :
    StepClosed
      (subjectCtx rand teachers classrooms course (eligibleRoomsOf classrooms course) subject)
      (RoomsFrom classrooms) where
  frame := by
    intro st st1 ht h p hp
    rw [ht.placements] at hp
    exact h p hp
  lab := by
    intro st day pair group room _ hg h p hp
    simp only [placeLab, List.mem_append, List.mem_cons, List.mem_singleton,
      List.not_mem_nil, or_false] at hp
    rcases hp with hp | hp | hp
    · exact h p hp
    · subst hp
      exact ⟨(fun e => by cases e), fun _ => hg.room_mem⟩
    · subst hp
      exact ⟨(fun e => by cases e), fun _ => hg.room_mem⟩
  lecture := by
    intro st day slot room _ hg h p hp
    simp only [placeLecture, List.mem_append, List.mem_singleton] at hp
    rcases hp with hp | hp
    · exact h p hp
    · subst hp
      exact ⟨fun _ => mem_eligibleRoomsOf hg.room_mem, fun e => absurd rfl e⟩

theorem RoomsFrom_scheduleCourse (rand : Nat → Nat) (teachers : List Teacher)
    (classrooms : List Classroom) (course : Course) (st : GenState)
    (h : RoomsFrom classrooms st) :
    RoomsFrom classrooms (scheduleCourse rand teachers classrooms st course) := by
  have hsub : ∀ (subjects : List Subject) (st : GenState), RoomsFrom classrooms st →
      RoomsFrom classrooms (subjects.foldl
        (scheduleSubject rand teachers classrooms course (eligibleRoomsOf classrooms course))
        st) := by
    intro subjects
    induction subjects with
    | nil => intro st h; exact h
    | cons subject rest ih =>
      intro st h
      rw [List.foldl_cons]
      apply ih
      have h0 : RoomsFrom classrooms (subjectStart teachers course subject st) := h
      exact sessionLoop_closed
        (RoomsFrom_stepClosed rand teachers classrooms course subject) subject.count _ h0
  exact hsub _ (courseStart course st) h

theorem RoomsFrom_timetableGenerator (rand : Nat → Nat) (courses : List Course)
    (subjects : List Subject) (teachers : List Teacher) (classrooms : List Classroom) :
    RoomsFrom classrooms (timetableGenerator rand courses subjects teachers classrooms) := by
  have hfold : ∀ (courses : List Course) (st : GenState), RoomsFrom classrooms st →
      RoomsFrom classrooms (courses.foldl (scheduleCourse rand teachers classrooms) st) := by
    intro courses
    induction courses with
    | nil => intro st h; exact h
    | cons course rest ih =>
      intro st h
      rw [List.foldl_cons]
      exact ih _ (RoomsFrom_scheduleCourse rand teachers classrooms course st h)
  apply hfold
  intro p hp
  cases hp

/-- Without classrooms nothing is placed. -/
theorem placements_nil (rand : Nat → Nat) (courses : List Course)
    (subjects : List Subject) (teachers : List Teacher) :
    (timetableGenerator rand courses subjects teachers []).placements = [] := by
  rw [List.eq_nil_iff_forall_not_mem]
  intro p hp
  have h := RoomsFrom_timetableGenerator rand courses subjects teachers [] p hp
  by_cases e : p.labPair = none
  · obtain ⟨n, h1 | h1⟩ := h.1 e
    · simp [getEligibleRoomsForCourse] at h1
    · simp [fallbackRooms] at h1
  · have h2 := h.2 e
    simp [labsOf] at h2

/-! ## The subject-teacher summary -/

theorem summary_stepClosed (ctx : Ctx) (f : String → List SummaryRow) :
    StepClosed ctx (fun st => st.subjectTeachers = f) where
  frame := by
    intro st st1 ht h
    rw [ht.subjectTeachers]
    exact h
  lab := by
    intro st day pair group room _ _ h
    exact h
  lecture := by
    intro st day slot room _ _ h
    exact h

theorem summary_scheduleSubject (rand : Nat → Nat) (teachers : List Teacher)
    (classrooms : List Classroom) (course : Course) (eligibleRooms : List Classroom)
    (st : GenState) (subject : Subject) :
    (scheduleSubject rand teachers classrooms course eligibleRooms st subject).subjectTeachers =
      fun c =>
        if c = course.courseShortName then
          st.subjectTeachers course.courseShortName ++ [summaryRowOf teachers course subject]
        else st.subjectTeachers c :=
  sessionLoop_closed
    (summary_stepClosed (subjectCtx rand teachers classrooms course eligibleRooms subject) _)
    subject.count (subjectStart teachers course subject st) rfl

theorem summary_foldl_scheduleSubject (rand : Nat → Nat) (teachers : List Teacher)
    (classrooms : List Classroom) (course : Course) (eligibleRooms : List Classroom)
    (subjects : List Subject) :
    ∀ st : GenState,
      (subjects.foldl (scheduleSubject rand teachers classrooms course eligibleRooms)
        st).subjectTeachers =
      fun c =>
        if c = course.courseShortName then
          st.subjectTeachers course.courseShortName ++
            subjects.map (summaryRowOf teachers course)
        else st.subjectTeachers c := by
  induction subjects with
  | nil =>
    intro st
    funext c
    by_cases hc : c = course.courseShortName
    · simp [hc]
    · simp [hc]
  | cons subject rest ih =>
    intro st
    rw [List.foldl_cons, ih, summary_scheduleSubject]
    funext c
    by_cases hc : c = course.courseShortName
    · simp [hc]
    · simp [hc]

/-- The summary of a course after its turn holds the rows of its subjects in the order
in which they were scheduled; the summaries of the other names are as before. -/
theorem summary_scheduleCourse (rand : Nat → Nat) (teachers : List Teacher)
    (classrooms : List Classroom) (st : GenState) (course : Course) :
    (scheduleCourse rand teachers classrooms st course).subjectTeachers =
      fun c =>
        if c = course.courseShortName then
          (shuffle (rand st.draws) course.subjects).map (summaryRowOf teachers course)
        else st.subjectTeachers c := by
  show (beforeFill rand teachers classrooms st course).subjectTeachers = _
  unfold beforeFill
  rw [summary_foldl_scheduleSubject]
  funext c
  by_cases hc : c = course.courseShortName
  · simp [hc, courseStart]
  · simp [hc, courseStart]

theorem summary_foldl_other (rand : Nat → Nat) (teachers : List Teacher)
    (classrooms : List Classroom) (name : String) (courses : List Course) :
    ∀ st : GenState, (∀ c ∈ courses, c.courseShortName ≠ name) →
      (courses.foldl (scheduleCourse rand teachers classrooms) st).subjectTeachers name =
        st.subjectTeachers name := by
  induction courses with
  | nil => intro st _; rfl
  | cons course rest ih =>
    intro st h
    rw [List.foldl_cons, ih _ (fun c hc => h c (List.mem_cons_of_mem _ hc)),
      summary_scheduleCourse]
    have hne : name ≠ course.courseShortName :=
      fun e => h course (List.mem_cons_self _ _) e.symm
    simp [hne]

theorem summary_timetableGenerator (rand : Nat → Nat) (subjects : List Subject)
    (teachers : List Teacher) (classrooms : List Classroom) (pre post : List Course)
    (course : Course) (hpost : ∀ c ∈ post, c.courseShortName ≠ course.courseShortName) :
    ((timetableGenerator rand (pre ++ course :: post) subjects teachers
      classrooms).subjectTeachers course.courseShortName).Perm
      (course.subjects.map (summaryRowOf teachers course)) := by
  unfold timetableGenerator
  rw [List.foldl_append, List.foldl_cons, summary_foldl_other _ _ _ _ _ _ hpost,
    summary_scheduleCourse]
  simp only [if_true]
  exact (shuffle_perm _ _).map _

/-! ## The scheduler raises no error when the time strings have a colon -/

theorem timeOffBlocksE_read (day : String) (a b : Nat) (off : TimeOffIn)
    (hs : off.start ≠ .noColon) (he : off.stop ≠ .noColon) :
    timeOffBlocksE day a b off = some (timeOffBlocks day a b off.read) := by
  obtain ⟨d, s, e⟩ := off
  cases d with
  | none => rfl
  | some d =>
    by_cases hd : d = ""
    · cases s <;> cases e <;>
        simp [timeOffBlocksE, timeOffBlocks, TimeOffIn.read, TimeField.read, hd]
    · by_cases hday : d = day
      · cases s <;> cases e <;>
          simp_all [timeOffBlocksE, timeOffBlocks, TimeOffIn.read, TimeField.read,
            timeToMinutesE]
      · cases s <;> cases e <;>
          simp_all [timeOffBlocksE, timeOffBlocks, TimeOffIn.read, TimeField.read,
            timeToMinutesE]

theorem someE_eq {α : Type} (f : α → Option Bool) (g : α → Bool) (l : List α)
    (h : ∀ x ∈ l, f x = some (g x)) : someE f l = some (l.any g) := by
  induction l with
  | nil => rfl
  | cons x xs ih =>
    have hx := h x (List.mem_cons_self _ _)
    have hxs := ih fun y hy => h y (List.mem_cons_of_mem _ hy)
    unfold someE
    rw [hx]
    cases hg : g x
    · simp [hxs, hg]
    · simp [hg]

theorem any_map_eq {α β : Type} (f : α → β) (p : β → Bool) (l : List α) :
    (l.map f).any p = l.any fun x => p (f x) := by
  induction l with
  | nil => rfl
  | cons x xs ih => simp only [List.map_cons, List.any_cons, ih]

theorem isTeacherAvailableE_read (t : TeacherIn) (h : wellTimed t = true) (day : String)
    (slotTime : SlotTime) :
    isTeacherAvailableE (some t) day slotTime =
      some (isTeacherAvailable (some t.read) day slotTime) := by
  obtain ⟨sn, n, as, offs⟩ := t
  cases offs with
  | none => rfl
  | some offs =>
    simp only [wellTimed, List.all_eq_true, Bool.and_eq_true, decide_eq_true_eq] at h
    show (if offs.length = 0 then some true
        else
          match someE (timeOffBlocksE day (timeToMinutes slotTime.start)
              (timeToMinutes slotTime.stop)) offs with
          | none => none
          | some b => some (!b)) =
      some (if (offs.map TimeOffIn.read).length = 0 then true
        else !((offs.map TimeOffIn.read).any (timeOffBlocks day
          (timeToMinutes slotTime.start) (timeToMinutes slotTime.stop))))
    rw [List.length_map]
    by_cases h0 : offs.length = 0
    · simp [h0]
    · rw [if_neg h0, if_neg h0,
        someE_eq _ (fun off => timeOffBlocks day (timeToMinutes slotTime.start)
          (timeToMinutes slotTime.stop) off.read) offs
          (fun off ho => timeOffBlocksE_read _ _ _ off (h off ho).1 (h off ho).2)]
      rw [any_map_eq]

theorem labTeacherFreeE_read (ctx : Ctx) (teacher : Option TeacherIn)
    (hw : ∀ t, teacher = some t → wellTimed t = true)
    (hctx : ctx.teacher = teacher.map TeacherIn.read) (st : GenState) (day : String)
    (slot1 slot2 : Nat) :
    labTeacherFreeE teacher st day slot1 slot2 =
      some (labTeacherFree ctx st day slot1 slot2) := by
  unfold labTeacherFreeE labTeacherFree
  cases teacher with
  | none =>
    have hc : ctx.teacher = none := hctx
    rw [hc]
  | some t =>
    have h := hw t rfl
    have hc : ctx.teacher = some t.read := hctx
    rw [hc]
    simp only [isTeacherAvailableE_read t h]
    have hn : t.read.shortName = t.shortName := rfl
    rw [hn]
    cases (st.teacherSchedule day slot1).contains t.shortName <;>
      cases (st.teacherSchedule day slot2).contains t.shortName <;>
      cases isTeacherAvailable (some t.read) day (slotTimeAt slot1) <;> simp

theorem lectureTeacherFreeE_read (ctx : Ctx) (teacher : Option TeacherIn)
    (hw : ∀ t, teacher = some t → wellTimed t = true)
    (hctx : ctx.teacher = teacher.map TeacherIn.read) (st : GenState) (day : String)
    (slot : Nat) :
    lectureTeacherFreeE teacher st day slot = some (lectureTeacherFree ctx st day slot) := by
  unfold lectureTeacherFreeE lectureTeacherFree
  cases teacher with
  | none =>
    have hc : ctx.teacher = none := hctx
    rw [hc]
  | some t =>
    have h := hw t rfl
    have hc : ctx.teacher = some t.read := hctx
    rw [hc]
    simp only [isTeacherAvailableE_read t h]
    have hn : t.read.shortName = t.shortName := rfl
    rw [hn]
    cases (st.teacherSchedule day slot).contains t.shortName <;> simp

theorem tryLabPairE_read (ctx : Ctx) (teacher : Option TeacherIn)
    (hw : ∀ t, teacher = some t → wellTimed t = true)
    (hctx : ctx.teacher = teacher.map TeacherIn.read) (day : String) (pair : Nat × Nat)
    (st : GenState) :
    tryLabPairE ctx teacher day pair st = some (tryLabPair ctx day pair st) := by
  unfold tryLabPairE tryLabPair
  simp only [labTeacherFreeE_read ctx teacher hw hctx]
  split
  · cases chooseLabRoom ctx day pair.1 pair.2 st with
    | none => rfl
    | some room =>
      simp only []
      split <;> rfl
  · rfl

theorem tryLabPairsE_read (ctx : Ctx) (teacher : Option TeacherIn)
    (hw : ∀ t, teacher = some t → wellTimed t = true)
    (hctx : ctx.teacher = teacher.map TeacherIn.read) (day : String)
    (pairs : List (Nat × Nat)) :
    ∀ st, tryLabPairsE ctx teacher day pairs st = some (tryLabPairs ctx day pairs st) := by
  induction pairs with
  | nil => intro st; rfl
  | cons pair rest ih =>
    intro st
    unfold tryLabPairsE tryLabPairs
    rw [tryLabPairE_read ctx teacher hw hctx]
    rcases tryLabPair ctx day pair st with ⟨st1, b⟩
    cases b
    · exact ih st1
    · rfl

theorem tryLectureSlotE_read (ctx : Ctx) (teacher : Option TeacherIn)
    (hw : ∀ t, teacher = some t → wellTimed t = true)
    (hctx : ctx.teacher = teacher.map TeacherIn.read) (day : String) (slot : Nat)
    (st : GenState) :
    tryLectureSlotE ctx teacher day slot st = some (tryLectureSlot ctx day slot st) := by
  unfold tryLectureSlotE tryLectureSlot
  simp only [lectureTeacherFreeE_read ctx teacher hw hctx]
  split
  · cases chooseLectureRoom ctx day slot (bindCourseRoom ctx st) with
    | none => rfl
    | some room =>
      simp only []
      split <;> rfl
  · rfl

theorem tryLectureSlotsE_read (ctx : Ctx) (teacher : Option TeacherIn)
    (hw : ∀ t, teacher = some t → wellTimed t = true)
    (hctx : ctx.teacher = teacher.map TeacherIn.read) (day : String) (l : List Nat) :
    ∀ st, tryLectureSlotsE ctx teacher day l st = some (tryLectureSlots ctx day l st) := by
  induction l with
  | nil => intro st; rfl
  | cons slot rest ih =>
    intro st
    unfold tryLectureSlotsE tryLectureSlots
    rw [tryLectureSlotE_read ctx teacher hw hctx]
    rcases tryLectureSlot ctx day slot st with ⟨st1, b⟩
    cases b
    · exact ih st1
    · rfl

theorem tryDaysE_read (ctx : Ctx) (teacher : Option TeacherIn)
    (hw : ∀ t, teacher = some t → wellTimed t = true)
    (hctx : ctx.teacher = teacher.map TeacherIn.read) (l : List String) :
    ∀ st, tryDaysE ctx teacher l st = some (tryDays ctx l st) := by
  induction l with
  | nil => intro st; rfl
  | cons day rest ih =>
    intro st
    unfold tryDaysE tryDays
    rw [tryLabPairsE_read ctx teacher hw hctx, tryLectureSlotsE_read ctx teacher hw hctx]
    split
    · rcases tryLabPairs ctx day labSlotPairs st with ⟨st1, b⟩
      cases b
      · exact ih st1
      · rfl
    · rcases tryLectureSlots ctx day (firstHalfSlots ++ secondHalfSlots) st with ⟨st1, b⟩
      cases b
      · exact ih st1
      · rfl

theorem sessionLoopE_read (ctx : Ctx) (teacher : Option TeacherIn)
    (hw : ∀ t, teacher = some t → wellTimed t = true)
    (hctx : ctx.teacher = teacher.map TeacherIn.read) (fuel : Nat) :
    ∀ st, sessionLoopE ctx teacher fuel st = some (sessionLoop ctx fuel st) := by
  induction fuel with
  | zero => intro st; rfl
  | succ fuel ih =>
    intro st
    unfold sessionLoopE sessionLoop
    simp only [tryDaysE_read ctx teacher hw hctx]
    split
    · split
      · rfl
      · rcases tryDays ctx _ _ with ⟨st1, b⟩
        cases b
        · rfl
        · exact ih st1
    · rfl

theorem findTeacherIn_read (teachers : List TeacherIn) (course : Course) (subject : Subject) :
    findTeacher (teachers.map TeacherIn.read) course subject =
      (findTeacherIn teachers course subject).map TeacherIn.read := by
  unfold findTeacher findTeacherIn
  induction teachers with
  | nil => rfl
  | cons t rest ih =>
    simp only [List.map_cons, List.find?_cons]
    have ha : t.read.assignments = t.assignments := rfl
    rw [ha]
    split
    · rfl
    · exact ih

theorem findTeacherIn_mem {teachers : List TeacherIn} {course : Course} {subject : Subject}
    {t : TeacherIn} (h : findTeacherIn teachers course subject = some t) : t ∈ teachers :=
  List.mem_of_find?_eq_some h

theorem scheduleSubjectE_read (rand : Nat → Nat) (teachers : List TeacherIn)
    (hw : ∀ t ∈ teachers, wellTimed t = true) (classrooms : List Classroom) (course : Course)
    (eligibleRooms : List Classroom) (st : GenState) (subject : Subject) :
    scheduleSubjectE rand teachers classrooms course eligibleRooms st subject =
      some (scheduleSubject rand (teachers.map TeacherIn.read) classrooms course eligibleRooms
        st subject) := by
  unfold scheduleSubjectE
  rw [sessionLoopE_read _ _ (fun t ht => hw t (findTeacherIn_mem ht))
    (findTeacherIn_read teachers course subject)]
  rfl

theorem scheduleSubjectsE_read (rand : Nat → Nat) (teachers : List TeacherIn)
    (hw : ∀ t ∈ teachers, wellTimed t = true) (classrooms : List Classroom) (course : Course)
    (eligibleRooms : List Classroom) (l : List Subject) :
    ∀ st, scheduleSubjectsE rand teachers classrooms course eligibleRooms l st =
      some (l.foldl
        (scheduleSubject rand (teachers.map TeacherIn.read) classrooms course eligibleRooms)
        st) := by
  induction l with
  | nil => intro st; rfl
  | cons subject rest ih =>
    intro st
    unfold scheduleSubjectsE
    rw [scheduleSubjectE_read rand teachers hw]
    exact ih _

theorem scheduleCourseE_read (rand : Nat → Nat) (teachers : List TeacherIn)
    (hw : ∀ t ∈ teachers, wellTimed t = true) (classrooms : List Classroom) (st : GenState)
    (course : Course) :
    scheduleCourseE rand teachers classrooms st course =
      some (scheduleCourse rand (teachers.map TeacherIn.read) classrooms st course) := by
  unfold scheduleCourseE
  rw [scheduleSubjectsE_read rand teachers hw]
  rfl

theorem scheduleCoursesE_read (rand : Nat → Nat) (teachers : List TeacherIn)
    (hw : ∀ t ∈ teachers, wellTimed t = true) (classrooms : List Classroom)
    (l : List Course) :
    ∀ st, scheduleCoursesE rand teachers classrooms l st =
      some (l.foldl (scheduleCourse rand (teachers.map TeacherIn.read) classrooms) st) := by
  induction l with
  | nil => intro st; rfl
  | cons course rest ih =>
    intro st
    unfold scheduleCoursesE
    rw [scheduleCourseE_read rand teachers hw]
    exact ih _

/-- With no time string without a colon the call returns, and what it returns is the
result of `timetableGenerator` as embedded above. -/
theorem timetableGeneratorE_read (rand : Nat → Nat) (courses : List Course)
    (subjects : List Subject) (teachers : List TeacherIn)
    (hw : ∀ t ∈ teachers, wellTimed t = true) (classrooms : List Classroom) :
    timetableGeneratorE rand courses subjects teachers classrooms =
      some (timetableGenerator rand courses subjects (teachers.map TeacherIn.read)
        classrooms) :=
  scheduleCoursesE_read rand teachers hw classrooms courses initialState

/-! ## Claim C18: a run without classrooms -/

/-- Claim C18 as stated fails in two ways. First, the input has every list that the claim
asks for: two courses with a subject list, a teacher with an assignment list, and no
classroom. The time-off window of the teacher on Monday has the start `'9'`. The first
lecture attempt on Monday calls `isTeacherAvailable`, `normalizeTime('9')` calls `padStart`
of `undefined`, and the call of `timetableGenerator` ends with a TypeError. Second, for two
courses with the same short name the call returns, and the summary kept under that name
has the one row of the second course: the two subjects of the first course have no row. -/
theorem no_classrooms_counterexample :
    (timetableGeneratorE exampleRand exampleCourses [] [hastyTeacher] []).isNone = true ∧
    (timetableGeneratorE exampleRand namesakeCourses [] [] []).map
        (fun st => st.subjectTeachers "CS1") =
      some [⟨"Physics", "Physics", "TBA", "To Be Assigned"⟩] := by
  decide

/-- Claim C18, amended. The input has no time-off field that is a string without a colon.
Then the call of `timetableGenerator` returns for every random stream, and what it returns
is the result of the embedding without errors. The `while` loop of a subject returns, and
is never cut short by the number of turns it is given. When the classroom list is empty
nothing is placed: the grid of every course has, on each day, the Break marker at index 4
and the Library filler at each of the eight other positions. For every classroom list, the
summary of a course that no later course of the input shares its short name with has
exactly one row for each of its subjects. -/
theorem no_classrooms_library (rand : Nat → Nat) (courses : List Course)
    (subjects : List Subject) (teachers : List TeacherIn)
    (hw : ∀ t ∈ teachers, wellTimed t = true) :
    (∀ classrooms : List Classroom,
      timetableGeneratorE rand courses subjects teachers classrooms =
        some (timetableGenerator rand courses subjects (teachers.map TeacherIn.read)
          classrooms)) ∧
    (∀ (classrooms eligibleRooms : List Classroom) (course : Course) (subject : Subject)
      (st : GenState) (k : Nat),
      ∃ st1,
        sessionLoopE
            (subjectCtx rand (teachers.map TeacherIn.read) classrooms course eligibleRooms
              subject)
            (findTeacherIn teachers course subject) subject.count
            (subjectStart (teachers.map TeacherIn.read) course subject st) = some st1 ∧
        sessionLoopE
            (subjectCtx rand (teachers.map TeacherIn.read) classrooms course eligibleRooms
              subject)
            (findTeacherIn teachers course subject) (subject.count + k)
            (subjectStart (teachers.map TeacherIn.read) course subject st) = some st1) ∧
    (∃ result, timetableGeneratorE rand courses subjects teachers [] = some result ∧
      result.placements = [] ∧
      ∀ course ∈ courses, ∀ day ∈ days,
        (result.timetable course.courseShortName day).length = 9 ∧
        ∀ i, i < 9 →
          cellAt result course.courseShortName day i =
            some (if i = 4 then breakCell else libraryCell)) ∧
    (∀ classrooms : List Classroom,
      ∃ result, timetableGeneratorE rand courses subjects teachers classrooms = some result ∧
        ∀ (pre post : List Course) (course : Course),
          courses = pre ++ course :: post →
          (∀ c ∈ post, c.courseShortName ≠ course.courseShortName) →
          (result.subjectTeachers course.courseShortName).Perm
            (course.subjects.map (summaryRowOf (teachers.map TeacherIn.read) course))) := by
  refine ⟨timetableGeneratorE_read rand courses subjects teachers hw, ?_,
    ⟨_, timetableGeneratorE_read rand courses subjects teachers hw [],
      placements_nil rand courses subjects _, ?_⟩, ?_⟩
  · intro classrooms eligibleRooms course subject st k
    refine ⟨_, sessionLoopE_read _ _ (fun t ht => hw t (findTeacherIn_mem ht))
      (findTeacherIn_read teachers course subject) _ _, ?_⟩
    rw [sessionLoopE_read _ _ (fun t ht => hw t (findTeacherIn_mem ht))
      (findTeacherIn_read teachers course subject)]
    exact congrArg some (sessionLoop_fuel _ subject.count k _ (Nat.le_add_left _ _))
  · intro course hc day hd
    have hinv := Inv_timetableGenerator rand courses subjects (teachers.map TeacherIn.read) []
    have hnil := placements_nil rand courses subjects (teachers.map TeacherIn.read)
    obtain ⟨hlen, h4, hall⟩ :=
      Filled_foldl_mem rand (teachers.map TeacherIn.read) [] courses initialState course hc
        day hd
    refine ⟨hlen, ?_⟩
    intro i hi
    rw [cellAt_eq_some]
    by_cases hi4 : i = 4
    · rw [if_pos hi4, hi4]
      exact h4
    · rw [if_neg hi4]
      obtain ⟨cell, hcell⟩ := hall i hi
      rcases hinv.origin _ _ _ _ hcell with h1 | h1 | ⟨p, hp, -⟩
      · exact absurd h1.1 hi4
      · rw [← h1]
        exact hcell
      · rw [hnil] at hp
        cases hp
  · intro classrooms
    refine ⟨_, timetableGeneratorE_read rand courses subjects teachers hw classrooms, ?_⟩
    intro pre post course hcs hpost
    rw [hcs]
    exact summary_timetableGenerator rand subjects _ classrooms pre post course hpost

/-- The hypothesis of `no_classrooms_library` holds for the two courses of the examples
and the teacher who is away on Monday from `'9:00'` to `'10:30'`: the run without
classrooms returns and the first position of Monday of CS1 is the Library filler; the run
with the rooms of the examples returns and the summary of CS1 has the row of its
subject. -/
theorem no_classrooms_library_witness :
    (∀ t ∈ [exampleTeacherIn], wellTimed t = true) ∧
    (∃ result,
      timetableGeneratorE exampleRand exampleCourses [] [exampleTeacherIn] [] = some result ∧
      cellAt result "CS1" "Monday" 0 = some libraryCell) ∧
    (∃ result,
      timetableGeneratorE exampleRand exampleCourses [] [exampleTeacherIn] exampleRooms =
        some result ∧
      (result.subjectTeachers "CS1").Perm [⟨"Maths", "Mathematics", "DS", "Dr. Smith"⟩]) := by
  have h := no_classrooms_library exampleRand exampleCourses [] [exampleTeacherIn]
    (by decide)
  refine ⟨by decide, ?_, ?_⟩
  · obtain ⟨result, he, -, hg⟩ := h.2.2.1
    exact ⟨result, he,
      (hg ⟨some "c1", "CS1", some 60, none,
          [⟨some "s1", "Maths", "Mathematics", false, 1, none⟩]⟩
        (by decide) "Monday" (by decide)).2 0 (by decide)⟩
  · obtain ⟨result, he, hs⟩ := h.2.2.2 exampleRooms
    exact ⟨result, he,
      (hs []
        [⟨some "c2", "CS2", some 50, none,
          [⟨some "s2", "Physics", "Physics", false, 1, none⟩]⟩]
        ⟨some "c1", "CS1", some 60, none,
          [⟨some "s1", "Maths", "Mathematics", false, 1, none⟩]⟩
        rfl (by decide)).trans (List.Perm.of_eq (by decide))⟩

/-! ## Claim C19: a capacity range that cannot be parsed -/

/-- Claim C19 as stated fails. The only classroom of the input has the capacity range
`abc`. The call returns: the grid of the course is complete, every position other than
the Break is the Library filler, the summary has the row of the subject; no error is
raised. -/
theorem unparsable_range_counterexample :
    (timetableGenerator exampleRand [scenarioCourse] [] [] [unparsableRoom]).timetable
        "CS1" "Monday" =
      [some libraryCell, some libraryCell, some libraryCell, some libraryCell, some breakCell,
        some libraryCell, some libraryCell, some libraryCell, some libraryCell] ∧
    (timetableGenerator exampleRand [scenarioCourse] [] [] [unparsableRoom]).subjectTeachers
        "CS1" = [⟨"Maths", "Mathematics", "TBA", "To Be Assigned"⟩] ∧
    (timetableGenerator exampleRand [scenarioCourse] [] [] [unparsableRoom]).placements = [] := by
  decide

/-- Claim C19, amended. When a classroom has a capacity range of which the minimum or the
maximum is not a number, `timetableGenerator` raises no error and returns a complete grid
for every course (9 positions on each day, each holding a cell); the classroom is not
among the eligible rooms of any strength, and when `parseInt` of the maximum fails too,
it is not among the fallback rooms and no lecture is placed in it. -/
theorem unparsable_range_skipped (rand : Nat → Nat) (courses : List Course)
    (subjects : List Subject) (teachers : List Teacher) (classrooms : List Classroom)
    (r : Classroom) (cr : CapacityRange) (hr : r.capacityRange = some cr)
    (hbad : cr.min = none ∨ cr.max = none) :
    (∀ course ∈ courses, ∀ day ∈ days,
      ((timetableGenerator rand courses subjects teachers classrooms).timetable
        course.courseShortName day).length = 9 ∧
      ∀ i, i < 9 → ∃ cell,
        cellAt (timetableGenerator rand courses subjects teachers classrooms)
          course.courseShortName day i = some cell) ∧
    (∀ n, r ∉ getEligibleRoomsForCourse classrooms n) ∧
    (cr.maxInt = none → (∀ n, r ∉ fallbackRooms classrooms n) ∧
      ∀ p ∈ (timetableGenerator rand courses subjects teachers classrooms).placements,
        p.labPair = none → p.room ≠ r) := by
  have helig : ∀ n, r ∉ getEligibleRoomsForCourse classrooms n := by
    intro n hmem
    unfold getEligibleRoomsForCourse at hmem
    rw [List.mem_filter] at hmem
    have h2 := hmem.2
    rw [hr] at h2
    rcases hbad with h | h
    · simp [h] at h2
    · cases hmin : cr.min <;> simp [h, hmin] at h2
  have hfall : cr.maxInt = none → ∀ n, r ∉ fallbackRooms classrooms n := by
    intro hmax n hmem
    unfold fallbackRooms at hmem
    rw [List.mem_filter] at hmem
    have h2 := hmem.2
    rw [hr] at h2
    simp [hmax] at h2
  refine ⟨?_, helig, fun hmax => ⟨hfall hmax, ?_⟩⟩
  · intro course hc day hd
    obtain ⟨hlen, -, hall⟩ :=
      Filled_foldl_mem rand teachers classrooms courses initialState course hc day hd
    refine ⟨hlen, ?_⟩
    intro i hi
    obtain ⟨cell, hcell⟩ := hall i hi
    exact ⟨cell, (cellAt_eq_some _ _ _ _ _).mpr hcell⟩
  · intro p hp hlec e
    obtain ⟨n, h1 | h1⟩ :=
      (RoomsFrom_timetableGenerator rand courses subjects teachers classrooms p hp).1 hlec
    · exact helig n (e ▸ h1)
    · exact hfall hmax n (e ▸ h1)

/-- The hypotheses of `unparsable_range_skipped` hold for the input of the
counterexample. -/
theorem unparsable_range_skipped_witness :
    (∀ course ∈ [scenarioCourse], ∀ day ∈ days,
      ((timetableGenerator exampleRand [scenarioCourse] [] [] [unparsableRoom]).timetable
        course.courseShortName day).length = 9 ∧
      ∀ i, i < 9 → ∃ cell,
        cellAt (timetableGenerator exampleRand [scenarioCourse] [] [] [unparsableRoom])
          course.courseShortName day i = some cell) ∧
    (∀ n, unparsableRoom ∉ getEligibleRoomsForCourse [unparsableRoom] n) ∧
    ((none : Option Nat) = none → (∀ n, unparsableRoom ∉ fallbackRooms [unparsableRoom] n) ∧
      ∀ p ∈ (timetableGenerator exampleRand [scenarioCourse] [] []
          [unparsableRoom]).placements,
        p.labPair = none → p.room ≠ unparsableRoom) :=
  unparsable_range_skipped exampleRand [scenarioCourse] [] [] [unparsableRoom] unparsableRoom
    ⟨none, none, none⟩ rfl (Or.inl rfl)

/-! ## The binding of the lab groups -/

/-- Claim C24 as stated fails. No lab is bound; the Physics labs are booked, so the room
chosen for the attempt at the first pair of Monday is the booked lab L1 and the room check
fails: nothing is placed, and yet the group Lab-1 is bound to L1 after the attempt. -/
theorem lab_binding_counterexample :
    scenarioLabState2.assignedLabsForGroups "Lab-1" = none ∧
    (tryLabPair scenarioLabCtx "Monday" (0, 1) scenarioLabState2).2 = false ∧
    (tryLabPair scenarioLabCtx "Monday" (0, 1) scenarioLabState2).1.placements = [] ∧
    (tryLabPair scenarioLabCtx "Monday" (0, 1) scenarioLabState2).1.assignedLabsForGroups
      "Lab-1" = some "L1" := by
  decide

/-- Claim C24, amended. A lab attempt binds the group of the attempt to the room it
chooses, before the room and teacher checks: when both positions of the pair are empty
and a room is chosen, the group `scheduled < 2 ? 'Lab-1' : 'Lab-2'` is bound to the number
of that room after the attempt, whether the lab is placed or not, and the binding of the
other group is as before; when a position of the pair is occupied or no room is chosen,
every binding is as before. -/
theorem lab_binding (ctx : Ctx) (day : String) (pair : Nat × Nat) (st : GenState) :
    (∀ room, isNull (st.timetable ctx.courseName day) pair.1 = true →
      isNull (st.timetable ctx.courseName day) pair.2 = true →
      chooseLabRoom ctx day pair.1 pair.2 st = some room →
      (tryLabPair ctx day pair st).1.assignedLabsForGroups (labGroupOf st.scheduled) =
        some room.roomNumber ∧
      ∀ g, g ≠ labGroupOf st.scheduled →
        (tryLabPair ctx day pair st).1.assignedLabsForGroups g = st.assignedLabsForGroups g) ∧
    (isNull (st.timetable ctx.courseName day) pair.1 = true →
      isNull (st.timetable ctx.courseName day) pair.2 = true →
      chooseLabRoom ctx day pair.1 pair.2 st = none →
      (tryLabPair ctx day pair st).1.assignedLabsForGroups = st.assignedLabsForGroups) ∧
    ((isNull (st.timetable ctx.courseName day) pair.1 &&
        isNull (st.timetable ctx.courseName day) pair.2) = false →
      (tryLabPair ctx day pair st).1 = st) := by
  refine ⟨?_, ?_, ?_⟩
  · intro room h1 h2 hroom
    have hbind : (afterLabChoice ctx day pair.1 pair.2 st).assignedLabsForGroups =
        fun g => if g = labGroupOf st.scheduled then some room.roomNumber
          else st.assignedLabsForGroups g := by
      simp only [afterLabChoice, hroom]
    have hres : (tryLabPair ctx day pair st).1.assignedLabsForGroups =
        (afterLabChoice ctx day pair.1 pair.2 st).assignedLabsForGroups := by
      unfold tryLabPair
      simp only [h1, h2, Bool.and_self, if_true, hroom]
      split <;> rfl
    rw [hres, hbind]
    refine ⟨by simp, ?_⟩
    intro g hg
    simp [hg]
  · intro h1 h2 hroom
    unfold tryLabPair
    simp only [h1, h2, Bool.and_self, if_true, hroom, afterLabChoice]
  · intro h
    unfold tryLabPair
    simp only [h, Bool.false_eq_true, if_false]

/-- The first two hypotheses of `lab_binding` hold in the state of the counterexample,
with the room L1. -/
theorem lab_binding_witness :
    (tryLabPair scenarioLabCtx "Monday" (0, 1) scenarioLabState2).1.assignedLabsForGroups
        (labGroupOf scenarioLabState2.scheduled) = some "L1" ∧
    ∀ g, g ≠ labGroupOf scenarioLabState2.scheduled →
      (tryLabPair scenarioLabCtx "Monday" (0, 1) scenarioLabState2).1.assignedLabsForGroups g =
        scenarioLabState2.assignedLabsForGroups g :=
  (lab_binding scenarioLabCtx "Monday" (0, 1) scenarioLabState2).1
    ⟨"L1", "Block", "lab", none, some "Physics"⟩ (by decide) (by decide) (by decide)

/-! ## The editor: whose data the orange pass reads -/

/-- The orange flag after the click, as a value. -/
theorem orange_after_click {toLowerCase : String → String} (dom : Dom) (c : Nat) (m : CellMeta)
    (hin : attached dom c = true) (hm : metaOf dom c = some m) :
    ∃ dom', onCellClick toLowerCase dom c = some dom' ∧
      ∀ t ∈ dom.tables, inTable t c = true → ∀ x, inTable t x = true →
        ∀ td cm, dom.nodes x = some td → getMeta td = some cm →
        ∃ td', dom'.nodes x = some td' ∧
          td'.orange = ((norm toLowerCase m.teacher != "" || norm toLowerCase m.room != "" ||
              m.isLab) &&
            overlapsBusy toLowerCase dom (otherTables dom c) (norm toLowerCase m.teacher)
                (norm toLowerCase m.room) m.isLab cm) := by
  obtain ⟨dom', hclick, -, -, hnodes⟩ := onCellClick_nodes dom c m hin hm
  refine ⟨dom', hclick, ?_⟩
  intro t ht hc x hx td cm hn hcm
  obtain ⟨td', hn', -, hor⟩ := hnodes x td (attached_of_inTable ht hx) hn
  have hany : dom.tables.any (fun t => inTable t c && inTable t x) = true :=
    List.any_eq_true.2 ⟨t, ht, by simp [hc, hx]⟩
  have hmx : metaOf dom x = some cm := by
    unfold metaOf
    rw [hn]
    exact hcm
  have hcell : isTTCell (dom.nodes x) = true := by
    rw [hn]
    unfold getMeta at hcm
    by_contra hcl
    simp [isTTCell] at hcl
    simp [hcl] at hcm
  refine ⟨td', hn', ?_⟩
  rw [hor, hany, hcell, hmx]
  simp

/-- `overlapsBusy` reads of the tested cell its day and the slots it covers only. -/
theorem overlapsBusy_same_place {toLowerCase : String → String} (dom : Dom) (others : List Table)
    (teacher room : String)
    (isLab : Bool) (cm1 cm2 : CellMeta) (hday : cm1.day = cm2.day)
    (hslot : cm1.slotIndex = cm2.slotIndex)
    (hspan : colspanOr1 cm1.colspan = colspanOr1 cm2.colspan) :
    overlapsBusy toLowerCase dom others teacher room isLab cm1 =
      overlapsBusy toLowerCase dom others teacher room isLab cm2 := by
  unfold overlapsBusy slotsCovered
  rw [hday, hslot, hspan]

/-- On a page whose tables share no element, two elements of one table have the same other
tables. -/
theorem otherTables_same_table {dom : Dom} (hsep : Separate dom) {t : Table} {c c' : Nat}
    (ht : t ∈ dom.tables) (hc : inTable t c = true) (hc' : inTable t c' = true) :
    otherTables dom c' = otherTables dom c := by
  unfold otherTables
  apply List.filter_congr
  intro t2 ht2
  have hsym : Symmetric fun t1 t2 : Table =>
      ∀ x, inTable t1 x = true → inTable t2 x = false := by
    intro a b hab y hy
    by_contra hn
    have hya : inTable a y = true := by simpa using hn
    rw [hab y hya] at hy
    cases hy
  by_cases e : t2 = t
  · rw [e, hc, hc']
  · have h := List.Pairwise.forall hsym hsep ht ht2 (Ne.symm e)
    rw [h c hc, h c' hc']

/-- Claim C25. After `onCellClick` on a timetable cell `c` that is in a table, a timetable
cell `c2` of the table of `c` (on a page whose tables share no element) is flagged orange
if and only if `c` has a non-empty normalized teacher or room or is a lab, and for some
slot covered by `c2` and some other table, the first cell (a timetable cell, no Break
cell) that covers the slot in the row which that table has for the day of `c2` has the
non-empty normalized teacher of `c`, or the non-empty normalized room of `c`, or is a lab
while `c` is a lab. The test reads the teacher, the room and the lab flag of `c` and not
those of `c2`: two cells of the table with the same day, slot index and span get the same
flag. It reads the day of `c2` and not that of `c`: selecting another cell of the table
with the same normalized teacher and room and the same lab flag, whatever its day and
slot, flags the same cells. Normalized is trimmed and lower-cased by the built-in
`toLowerCase`, whatever function that is; the rows are found by the normalized name of
the day. -/
theorem click_orange_rule (toLowerCase : String → String) (dom : Dom) (hsep : Separate dom)
    (c : Nat) (m : CellMeta)
    (hin : attached dom c = true) (hm : metaOf dom c = some m) :
    ∃ dom', onCellClick toLowerCase dom c = some dom' ∧
      (∀ t ∈ dom.tables, inTable t c = true → ∀ x, inTable t x = true →
        ∀ td cm, dom.nodes x = some td → getMeta td = some cm →
        ∃ td', dom'.nodes x = some td' ∧
          (td'.orange = true ↔
            (norm toLowerCase m.teacher ≠ "" ∨ norm toLowerCase m.room ≠ "" ∨ m.isLab = true) ∧
            ∃ slot ∈ slotsCovered cm, ∃ ot ∈ otherTables dom c,
              ∃ row, findRowForDay toLowerCase ot cm.day = some row ∧
                ∃ oc om, firstCovering dom slot row.cells = some oc ∧
                  metaOf dom oc = some om ∧
                  ((norm toLowerCase m.teacher ≠ "" ∧ norm toLowerCase om.teacher =
                      norm toLowerCase m.teacher) ∨
                    (norm toLowerCase m.room ≠ "" ∧ norm toLowerCase om.room =
                        norm toLowerCase m.room) ∨
                    (m.isLab = true ∧ om.isLab = true)))) ∧
      (∀ t ∈ dom.tables, inTable t c = true → ∀ x y, inTable t x = true → inTable t y = true →
        ∀ tdx tdy cmx cmy, dom.nodes x = some tdx → dom.nodes y = some tdy →
        getMeta tdx = some cmx → getMeta tdy = some cmy →
        cmx.day = cmy.day → cmx.slotIndex = cmy.slotIndex →
        colspanOr1 cmx.colspan = colspanOr1 cmy.colspan →
        ∃ tdx' tdy', dom'.nodes x = some tdx' ∧ dom'.nodes y = some tdy' ∧
          tdx'.orange = tdy'.orange) ∧
      (∀ t ∈ dom.tables, inTable t c = true → ∀ c' m', inTable t c' = true →
        metaOf dom c' = some m' → norm toLowerCase m'.teacher = norm toLowerCase m.teacher →
        norm toLowerCase m'.room = norm toLowerCase m.room → m'.isLab = m.isLab →
        ∃ dom'', onCellClick toLowerCase dom c' = some dom'' ∧
          ∀ x, inTable t x = true → ∀ td cm, dom.nodes x = some td → getMeta td = some cm →
            ∃ td' td'', dom'.nodes x = some td' ∧ dom''.nodes x = some td'' ∧
              td'.orange = td''.orange) := by
  obtain ⟨dom', hclick, hflag⟩ := orange_after_click dom c m hin hm
  refine ⟨dom', hclick, ?_, ?_, ?_⟩
  · intro t ht hc x hx td cm hn hcm
    obtain ⟨td', hn', hor⟩ := hflag t ht hc x hx td cm hn hcm
    refine ⟨td', hn', ?_⟩
    rw [hor, Bool.and_eq_true, overlapsBusy_iff]
    simp only [Bool.or_eq_true, bne_iff_ne, ne_eq, or_assoc]
    constructor
    · rintro ⟨hg, slot, h1, h2, rest⟩
      exact ⟨hg, slot, (mem_slotsCovered cm slot).2 ⟨h1, h2⟩, rest⟩
    · rintro ⟨hg, slot, hs, rest⟩
      have := (mem_slotsCovered cm slot).1 hs
      exact ⟨hg, slot, this.1, this.2, rest⟩
  · intro t ht hc x y hx hy tdx tdy cmx cmy hnx hny hcx hcy hday hslot hspan
    obtain ⟨tdx', hnx', horx⟩ := hflag t ht hc x hx tdx cmx hnx hcx
    obtain ⟨tdy', hny', hory⟩ := hflag t ht hc y hy tdy cmy hny hcy
    refine ⟨tdx', tdy', hnx', hny', ?_⟩
    rw [horx, hory, overlapsBusy_same_place dom _ _ _ _ cmx cmy hday hslot hspan]
  · intro t ht hc c' m' hc' hm' hte hro hlab
    obtain ⟨dom'', hclick', hflag'⟩ :=
      orange_after_click dom c' m' (attached_of_inTable ht hc') hm'
    refine ⟨dom'', hclick', ?_⟩
    intro x hx td cm hn hcm
    obtain ⟨td', hn', hor⟩ := hflag t ht hc x hx td cm hn hcm
    obtain ⟨td'', hn'', hor'⟩ := hflag' t ht hc' x hx td cm hn hcm
    refine ⟨td', td'', hn', hn'', ?_⟩
    rw [hor, hor', hte, hro, hlab, otherTables_same_table hsep ht hc hc']

/-- The hypotheses of `click_orange_rule` hold for the single cell of Dr. Smith on the
example page: after the click the cell itself is flagged orange (the other table has a
cell of Dr. Smith at its slot on Monday) and no other element of its table is. -/
theorem click_orange_rule_witness :
    (∃ dom', onCellClick asciiLower examplePages 0 = some dom' ∧
      ∀ t ∈ examplePages.tables, inTable t 0 = true → ∀ x, inTable t x = true →
        ∀ td cm, examplePages.nodes x = some td → getMeta td = some cm →
        ∃ td', dom'.nodes x = some td' ∧
          (td'.orange = true ↔
            (norm asciiLower "Dr. Smith" ≠ "" ∨ norm asciiLower "R1" ≠ "" ∨ false = true) ∧
            ∃ slot ∈ slotsCovered cm, ∃ ot ∈ otherTables examplePages 0,
              ∃ row, findRowForDay asciiLower ot cm.day = some row ∧
                ∃ oc om, firstCovering examplePages slot row.cells = some oc ∧
                  metaOf examplePages oc = some om ∧
                  ((norm asciiLower "Dr. Smith" ≠ "" ∧ norm asciiLower om.teacher =
                      norm asciiLower "Dr. Smith") ∨
                    (norm asciiLower "R1" ≠ "" ∧ norm asciiLower om.room = norm asciiLower "R1") ∨
                    (false = true ∧ om.isLab = true)))) ∧
    flagsAfter (onCellClick asciiLower examplePages 0) 4 =
      [some (false, true), some (false, false), some (false, false), some (false, false)] :=
  ⟨(click_orange_rule asciiLower examplePages examplePages_separate 0
      ⟨"CS1", "Monday", 0, 1, "Maths", "Dr. Smith", "R1", false⟩ (by decide) (by decide)).elim
      fun dom' h => ⟨dom', h.1, h.2.1⟩,
    by decide⟩

/-! ## The editor: the recorded positions -/

/-- Claim C26, the code at the failing input. The example page has the positional
invariant. The lab (slot index 2) is dropped on the first single cell (Maths, slot index
0), whose right neighbour is the single cell Eng (slot index 1). Afterwards the two cells
that stand at the former place of the lab, at the slots 2 and 3, record the slot indices
0 and 1 of the target and of its neighbour: the page does not have the invariant. -/
theorem lab_on_single_positions :
    positioned asciiLower examplePage = true ∧
    pageView (onDrop ⟨true, true⟩ 0 examplePage).1 =
      [[[some ⟨"CS1", "Monday", 0, 2, "Chem Lab", "T4", "L1", true⟩,
         some ⟨"CS1", "Monday", 0, 1, "Maths", "T2", "R1", false⟩,
         some ⟨"CS1", "Monday", 1, 1, "Eng", "T3", "R1", false⟩,
         none,
         some ⟨"CS1", "Monday", 5, 1, "Phy", "T1", "R2", false⟩]]] ∧
    positioned asciiLower (onDrop ⟨true, true⟩ 0 examplePage).1 = false := by
  decide

/-! ## Claim C21: the rooms for the lectures of a course -/

theorem mem_getEligibleRoomsForCourse (classrooms : List Classroom) (s : Nat) (r : Classroom) :
    r ∈ getEligibleRoomsForCourse classrooms s ↔
      r ∈ classrooms ∧ r.classOrLab = "class" ∧
        ∃ cr mn mx, r.capacityRange = some cr ∧ cr.min = some mn ∧ cr.max = some mx ∧
          mn ≤ s ∧ s ≤ mx := by
  unfold getEligibleRoomsForCourse
  rw [List.mem_filter]
  apply and_congr_right
  intro _
  by_cases hk : r.classOrLab = "class"
  · cases hcr : r.capacityRange with
    | none => simp [hk]
    | some cr =>
      cases hmin : cr.min <;> cases hmax : cr.max <;> simp [hk, hmin, hmax]
  · simp [hk]

theorem mem_fallbackRooms (classrooms : List Classroom) (s : Nat) (r : Classroom) :
    r ∈ fallbackRooms classrooms s ↔
      r ∈ classrooms ∧ r.classOrLab = "class" ∧
        ∃ cr mx, r.capacityRange = some cr ∧ cr.maxInt = some mx ∧ s ≤ mx := by
  unfold fallbackRooms
  rw [List.mem_filter]
  apply and_congr_right
  intro _
  by_cases hk : r.classOrLab = "class"
  · cases hcr : r.capacityRange with
    | none => simp [hk]
    | some cr =>
      cases hmax : cr.maxInt <;> simp [hk, hmax]
  · simp [hk]

theorem LectureRoomsOf_stepClosed (rand : Nat → Nat) (teachers : List Teacher)
    (classrooms : List Classroom) (courses : List Course) (course : Course)
    (hc : course ∈ courses) (subject : Subject) :
    StepClosed
      (subjectCtx rand teachers classrooms course (eligibleRoomsOf classrooms course) subject)
      (LectureRoomsOf classrooms courses) where
  frame := by
    intro st st1 ht h p hp
    rw [ht.placements] at hp
    exact h p hp
  lab := by
    intro st day pair group room _ _ h p hp
    simp only [placeLab, List.mem_append, List.mem_cons, List.mem_singleton,
      List.not_mem_nil, or_false] at hp
    rcases hp with hp | hp | hp
    · exact h p hp
    · subst hp
      intro e
      cases e
    · subst hp
      intro e
      cases e
  lecture := by
    intro st day slot room _ hg h p hp
    simp only [placeLecture, List.mem_append, List.mem_singleton] at hp
    rcases hp with hp | hp
    · exact h p hp
    · subst hp
      intro _
      exact ⟨course, hc, rfl, hg.room_mem⟩

theorem LectureRoomsOf_scheduleCourse (rand : Nat → Nat) (teachers : List Teacher)
    (classrooms : List Classroom) (courses : List Course) (course : Course)
    (hc : course ∈ courses) (st : GenState) (h : LectureRoomsOf classrooms courses st) :
    LectureRoomsOf classrooms courses (scheduleCourse rand teachers classrooms st course) := by
  have hsub : ∀ (subjects : List Subject) (st : GenState),
      LectureRoomsOf classrooms courses st →
      LectureRoomsOf classrooms courses (subjects.foldl
        (scheduleSubject rand teachers classrooms course (eligibleRoomsOf classrooms course))
        st) := by
    intro subjects
    induction subjects with
    | nil => intro st h; exact h
    | cons subject rest ih =>
      intro st h
      rw [List.foldl_cons]
      apply ih
      have h0 : LectureRoomsOf classrooms courses (subjectStart teachers course subject st) := h
      exact sessionLoop_closed
        (LectureRoomsOf_stepClosed rand teachers classrooms courses course hc subject)
        subject.count _ h0
  exact hsub _ (courseStart course st) h

theorem LectureRoomsOf_timetableGenerator (rand : Nat → Nat) (courses : List Course)
    (subjects : List Subject) (teachers : List Teacher) (classrooms : List Classroom) :
    LectureRoomsOf classrooms courses
      (timetableGenerator rand courses subjects teachers classrooms) := by
  have hfold : ∀ (l : List Course) (st : GenState), (∀ c ∈ l, c ∈ courses) →
      LectureRoomsOf classrooms courses st →
      LectureRoomsOf classrooms courses (l.foldl (scheduleCourse rand teachers classrooms) st) := by
    intro l
    induction l with
    | nil => intro st _ h; exact h
    | cons course rest ih =>
      intro st hl h
      rw [List.foldl_cons]
      exact ih _ (fun c hc => hl c (List.mem_cons_of_mem _ hc))
        (LectureRoomsOf_scheduleCourse rand teachers classrooms courses course
          (hl course (List.mem_cons_self _ _)) st h)
  apply hfold courses initialState (fun c hc => hc)
  intro p hp
  cases hp

/-- Claim C21, amended. `getEligibleRoomsForCourse` returns, in the order of the input,
exactly the classrooms of kind `class` with a capacity range whose two numbers satisfy
`min <= strength <= max`. `timetableGenerator` uses that list for a course when it is not empty, and
otherwise the classrooms of kind `class`, in the order of the input, for which `parseInt`
of the second piece of the range is at least the strength; a room of that fallback list
whose range consists of two numbers (a minimum, and a maximum that `Number` and `parseInt`
read alike) has `min > strength`. The room of every lecture placed is a room of the list
of a course of the input with the short name of the lecture. -/
theorem eligible_rooms_spec (classrooms : List Classroom) :
    (∀ s, (getEligibleRoomsForCourse classrooms s).Sublist classrooms ∧
      ∀ r, r ∈ getEligibleRoomsForCourse classrooms s ↔
        r ∈ classrooms ∧ r.classOrLab = "class" ∧
          ∃ cr mn mx, r.capacityRange = some cr ∧ cr.min = some mn ∧ cr.max = some mx ∧
            mn ≤ s ∧ s ≤ mx) ∧
    (∀ course : Course,
      getEligibleRoomsForCourse classrooms (courseStrengthOf course) ≠ [] →
      eligibleRoomsOf classrooms course =
        getEligibleRoomsForCourse classrooms (courseStrengthOf course)) ∧
    (∀ course : Course,
      getEligibleRoomsForCourse classrooms (courseStrengthOf course) = [] →
      (eligibleRoomsOf classrooms course).Sublist classrooms ∧
      (∀ r, r ∈ eligibleRoomsOf classrooms course ↔
        r ∈ classrooms ∧ r.classOrLab = "class" ∧
          ∃ cr mx, r.capacityRange = some cr ∧ cr.maxInt = some mx ∧
            courseStrengthOf course ≤ mx) ∧
      ∀ r ∈ eligibleRoomsOf classrooms course, ∀ cr mn, r.capacityRange = some cr →
        cr.min = some mn → cr.max = cr.maxInt → courseStrengthOf course < mn) ∧
    (∀ (rand : Nat → Nat) (courses : List Course) (subjects : List Subject)
      (teachers : List Teacher),
      ∀ p ∈ (timetableGenerator rand courses subjects teachers classrooms).placements,
        p.labPair = none →
        ∃ course ∈ courses, p.course = course.courseShortName ∧
          p.room ∈ eligibleRoomsOf classrooms course) := by
  refine ⟨?_, ?_, ?_, ?_⟩
  · intro s
    exact ⟨List.filter_sublist _, mem_getEligibleRoomsForCourse classrooms s⟩
  · intro course hne
    unfold eligibleRoomsOf
    rw [if_neg]
    intro h
    exact hne (List.length_eq_zero.mp h)
  · intro course hnil
    have he : eligibleRoomsOf classrooms course =
        fallbackRooms classrooms (courseStrengthOf course) := by
      unfold eligibleRoomsOf
      rw [if_pos]
      rw [hnil]
      rfl
    rw [he]
    refine ⟨List.filter_sublist _, mem_fallbackRooms classrooms _, ?_⟩
    intro r hr cr mn hcr hmin hmax
    obtain ⟨hin, hk, cr2, mx, hcr2, hmx, hle⟩ := (mem_fallbackRooms classrooms _ r).1 hr
    rw [hcr] at hcr2
    cases hcr2
    by_contra hlt
    have hmem : r ∈ getEligibleRoomsForCourse classrooms (courseStrengthOf course) :=
      (mem_getEligibleRoomsForCourse classrooms _ r).2
        ⟨hin, hk, cr, mn, mx, hcr, hmin, hmax.trans hmx, by omega, hle⟩
    rw [hnil] at hmem
    cases hmem
  · intro rand courses subjects teachers
    exact LectureRoomsOf_timetableGenerator rand courses subjects teachers classrooms

/-- Witness of the amended claim C21: for the course of strength 60 the room R1 (40-80) is the list
used, and when the only class room is R7 (70-90) the list is the fallback list and the
minimum 70 of R7 is above 60. -/
theorem eligible_rooms_spec_witness :
    eligibleRoomsOf [scenarioRoom, largeRoom] scenarioCourse = [scenarioRoom] ∧
    eligibleRoomsOf [largeRoom] scenarioCourse = [largeRoom] ∧
    courseStrengthOf scenarioCourse < 70 :=
  ⟨((eligible_rooms_spec [scenarioRoom, largeRoom]).2.1 scenarioCourse (by decide)).trans
      (by decide),
    by decide,
    ((eligible_rooms_spec [largeRoom]).2.2.1 scenarioCourse (by decide)).2.2 largeRoom
      (by decide) ⟨some 70, some 90, some 90⟩ 70 rfl rfl rfl⟩

/-- Claim C21 as stated fails in its last clause. The only class room has the capacity
range `'40-80 seats'` and the course has the strength 60. `Number('80 seats')` is `NaN`, so
`getEligibleRoomsForCourse` returns no room; `parseInt('80 seats')` is 80, so the room is
in the fallback list, and the three lectures of the course are placed in it. Its minimum
40 is not above the strength. -/
theorem fallback_min_counterexample :
    courseStrengthOf scenarioCourse = 60 ∧
    getEligibleRoomsForCourse [seatsRoom] 60 = [] ∧
    eligibleRoomsOf [seatsRoom] scenarioCourse = [seatsRoom] ∧
    seatsRoom.capacityRange.bind (fun cr => cr.min) = some 40 ∧
    (timetableGenerator exampleRand [scenarioCourse] [] [] [seatsRoom]).placements.map
        (fun p => p.room) = [seatsRoom, seatsRoom, seatsRoom] := by
  decide

/-! ## The placement loops keep every turn-closed property -/

theorem Tweak_trans {st st1 st2 : GenState} (h1 : Tweak st st1) (h2 : Tweak st1 st2) :
    Tweak st st2 :=
  ⟨h2.timetable.trans h1.timetable, h2.subjectTeachers.trans h1.subjectTeachers,
    h2.roomSchedule.trans h1.roomSchedule, h2.teacherSchedule.trans h1.teacherSchedule,
    h2.scheduled.trans h1.scheduled, h2.perDayPlacement.trans h1.perDayPlacement,
    h2.placements.trans h1.placements, h2.courseNo.trans h1.courseNo,
    h2.subjectNo.trans h1.subjectNo⟩

theorem tryLabPairs_turn {ctx : Ctx} {P : GenState → Prop} (hP : TurnClosed ctx P)
    {day : String} (hday : day ∈ days) (hlab : ctx.subject.isLab = true)
    (l : List (Nat × Nat)) (hl : ∀ pair ∈ l, pair ∈ labSlotPairs) :
    ∀ st : GenState, st.perDayPlacement day < 2 → st.scheduled < ctx.subject.count → P st →
      P (tryLabPairs ctx day l st).1 ∧
      ((tryLabPairs ctx day l st).2 = false → Tweak st (tryLabPairs ctx day l st).1) := by
  induction l with
  | nil =>
    intro st _ _ h
    exact ⟨h, fun _ => Tweak.refl st⟩
  | cons pair rest ih =>
    intro st hfree hpend h
    have hpair := hl pair (List.mem_cons_self _ _)
    unfold tryLabPairs
    rcases tryLabPair_cases ctx day hday pair st with ⟨st1, ht, he⟩ | ⟨st1, room, ht, hg, he⟩
    · rw [he]
      simp only
      have h1 := ih (fun q hq => hl q (List.mem_cons_of_mem _ hq)) st1
        (by rw [ht.perDayPlacement]; exact hfree) (by rw [ht.scheduled]; exact hpend)
        (hP.frame st st1 ht h)
      exact ⟨h1.1, fun hf => Tweak_trans ht (h1.2 hf)⟩
    · rw [he]
      simp only
      refine ⟨?_, fun hf => by cases hf⟩
      exact hP.lab st1 day pair _ room hpair hg hlab
        (by rw [ht.perDayPlacement]; exact hfree) (by rw [ht.scheduled]; exact hpend)
        (hP.frame st st1 ht h)

theorem tryLectureSlots_turn {ctx : Ctx} {P : GenState → Prop} (hP : TurnClosed ctx P)
    {day : String} (hday : day ∈ days) (hlec : ctx.subject.isLab = false)
    (l : List Nat) (hl : ∀ slot ∈ l, slot ∈ firstHalfSlots ++ secondHalfSlots) :
    ∀ st : GenState, st.perDayPlacement day < 2 → st.scheduled < ctx.subject.count → P st →
      P (tryLectureSlots ctx day l st).1 ∧
      ((tryLectureSlots ctx day l st).2 = false → Tweak st (tryLectureSlots ctx day l st).1) := by
  induction l with
  | nil =>
    intro st _ _ h
    exact ⟨h, fun _ => Tweak.refl st⟩
  | cons slot rest ih =>
    intro st hfree hpend h
    have hslot := hl slot (List.mem_cons_self _ _)
    unfold tryLectureSlots
    rcases tryLectureSlot_cases ctx day hday slot st with
      ⟨st1, ht, he⟩ | ⟨st1, room, ht, hg, he⟩
    · rw [he]
      simp only
      have h1 := ih (fun q hq => hl q (List.mem_cons_of_mem _ hq)) st1
        (by rw [ht.perDayPlacement]; exact hfree) (by rw [ht.scheduled]; exact hpend)
        (hP.frame st st1 ht h)
      exact ⟨h1.1, fun hf => Tweak_trans ht (h1.2 hf)⟩
    · rw [he]
      simp only
      refine ⟨?_, fun hf => by cases hf⟩
      exact hP.lecture st1 day slot room hslot hg hlec
        (by rw [ht.perDayPlacement]; exact hfree) (by rw [ht.scheduled]; exact hpend)
        (hP.frame st st1 ht h)

theorem tryDays_turn {ctx : Ctx} {P : GenState → Prop} (hP : TurnClosed ctx P)
    (l : List String) :
    ∀ st : GenState, (∀ day ∈ l, day ∈ days ∧ st.perDayPlacement day < 2) →
      st.scheduled < ctx.subject.count → P st → P (tryDays ctx l st).1 := by
  induction l with
  | nil => intro st _ _ h; exact h
  | cons day rest ih =>
    intro st hl hpend h
    obtain ⟨hday, hfree⟩ := hl day (List.mem_cons_self _ _)
    have hrest : ∀ st1, Tweak st st1 →
        (∀ d ∈ rest, d ∈ days ∧ st1.perDayPlacement d < 2) ∧
          st1.scheduled < ctx.subject.count := by
      intro st1 ht
      refine ⟨fun d hd => ?_, by rw [ht.scheduled]; exact hpend⟩
      rw [ht.perDayPlacement]
      exact hl d (List.mem_cons_of_mem _ hd)
    unfold tryDays
    split
    · rename_i hlab
      have h1 := tryLabPairs_turn hP hday hlab labSlotPairs (fun _ hq => hq) st hfree hpend h
      split
      · rename_i st1 he
        rw [he] at h1
        exact h1.1
      · rename_i st1 he
        rw [he] at h1
        obtain ⟨r1, r2⟩ := hrest st1 (h1.2 rfl)
        exact ih st1 r1 r2 h1.1
    · rename_i hlab
      have hlec : ctx.subject.isLab = false := by simpa using hlab
      have h1 := tryLectureSlots_turn hP hday hlec (firstHalfSlots ++ secondHalfSlots)
        (fun _ hq => hq) st hfree hpend h
      split
      · rename_i st1 he
        rw [he] at h1
        exact h1.1
      · rename_i st1 he
        rw [he] at h1
        obtain ⟨r1, r2⟩ := hrest st1 (h1.2 rfl)
        exact ih st1 r1 r2 h1.1

theorem sessionLoop_turn {ctx : Ctx} {P : GenState → Prop} (hP : TurnClosed ctx P)
    (fuel : Nat) : ∀ st : GenState, P st → P (sessionLoop ctx fuel st) := by
  induction fuel with
  | zero => intro st h; exact h
  | succ fuel ih =>
    intro st h
    unfold sessionLoop
    dsimp only
    split
    · rename_i hpend
      split
      · exact h
      · have h0 : P { st with draws := st.draws + 1 } :=
          hP.frame st _ ⟨rfl, rfl, rfl, rfl, rfl, rfl, rfl, rfl, rfl⟩ h
        have h1 := tryDays_turn hP
          (shuffle (ctx.rand st.draws)
            (days.filter fun day => decide (st.perDayPlacement day < 2)))
          { st with draws := st.draws + 1 }
          (fun d hd => by
            have hm := List.mem_filter.mp ((mem_shuffle _ _ d).mp hd)
            exact ⟨hm.1, by simpa using hm.2⟩)
          hpend h0
        split
        · rename_i st1 he
          rw [he] at h1
          exact ih st1 h1
        · rename_i st1 he
          rw [he] at h1
          exact h1
    · exact h

/-! ## The positions recorded for a subject -/

theorem tallyDay_placeLecture (ctx : Ctx) (day : String) (slot : Nat) (room : Classroom)
    (st : GenState) (cn sn : Nat) (d : String) :
    tallyDay (placeLecture ctx day slot room st) cn sn d =
      tallyDay st cn sn d +
        (if st.courseNo = cn ∧ st.subjectNo = sn ∧ day = d then 1 else 0) := by
  unfold tallyDay placeLecture
  simp only [List.countP_append, List.countP_cons, List.countP_nil, Nat.zero_add]
  congr 1
  by_cases h1 : st.courseNo = cn <;> by_cases h2 : st.subjectNo = sn <;>
    by_cases h3 : day = d <;> simp [h1, h2, h3]

theorem tally_placeLecture (ctx : Ctx) (day : String) (slot : Nat) (room : Classroom)
    (st : GenState) (cn sn : Nat) :
    tally (placeLecture ctx day slot room st) cn sn =
      tally st cn sn + (if st.courseNo = cn ∧ st.subjectNo = sn then 1 else 0) := by
  unfold tally placeLecture
  simp only [List.countP_append, List.countP_cons, List.countP_nil, Nat.zero_add]
  congr 1
  by_cases h1 : st.courseNo = cn <;> by_cases h2 : st.subjectNo = sn <;> simp [h1, h2]

theorem tallyDay_placeLab (ctx : Ctx) (day : String) (slot1 slot2 : Nat) (group : String)
    (room : Classroom) (st : GenState) (cn sn : Nat) (d : String) :
    tallyDay (placeLab ctx day slot1 slot2 group room st) cn sn d =
      tallyDay st cn sn d +
        (if st.courseNo = cn ∧ st.subjectNo = sn ∧ day = d then 2 else 0) := by
  unfold tallyDay placeLab
  simp only [List.countP_append, List.countP_cons, List.countP_nil, Nat.zero_add]
  congr 1
  by_cases h1 : st.courseNo = cn <;> by_cases h2 : st.subjectNo = sn <;>
    by_cases h3 : day = d <;> simp [h1, h2, h3]

theorem tally_placeLab (ctx : Ctx) (day : String) (slot1 slot2 : Nat) (group : String)
    (room : Classroom) (st : GenState) (cn sn : Nat) :
    tally (placeLab ctx day slot1 slot2 group room st) cn sn =
      tally st cn sn + (if st.courseNo = cn ∧ st.subjectNo = sn then 2 else 0) := by
  unfold tally placeLab
  simp only [List.countP_append, List.countP_cons, List.countP_nil, Nat.zero_add]
  congr 1
  by_cases h1 : st.courseNo = cn <;> by_cases h2 : st.subjectNo = sn <;> simp [h1, h2]

theorem tallyDay_congr {st st1 : GenState} (h : st1.placements = st.placements)
    (cn sn : Nat) (d : String) : tallyDay st1 cn sn d = tallyDay st cn sn d := by
  unfold tallyDay
  rw [h]

theorem tally_congr {st st1 : GenState} (h : st1.placements = st.placements)
    (cn sn : Nat) : tally st1 cn sn = tally st cn sn := by
  unfold tally
  rw [h]

theorem Bounded_congr {st st1 : GenState} (h : st1.placements = st.placements)
    (p : Placement) (hb : Bounded st p) : Bounded st1 p := by
  unfold Bounded
  rw [tally_congr h]
  exact hb

theorem tally_eq_zero {st : GenState} {cn sn : Nat}
    (h : ∀ p ∈ st.placements, ¬ (p.courseNo = cn ∧ p.subjectNo = sn)) : tally st cn sn = 0 := by
  unfold tally
  rw [List.countP_eq_zero]
  intro p hp
  have := h p hp
  simp only [Bool.and_eq_true, decide_eq_true_eq]
  exact this

theorem tallyDay_eq_zero {st : GenState} {cn sn : Nat} (d : String)
    (h : ∀ p ∈ st.placements, ¬ (p.courseNo = cn ∧ p.subjectNo = sn)) :
    tallyDay st cn sn d = 0 := by
  unfold tallyDay
  rw [List.countP_eq_zero]
  intro p hp
  have := h p hp
  simp only [Bool.and_eq_true, decide_eq_true_eq]
  intro hh
  exact this hh.1

theorem Tally_turnClosed (ctx : Ctx) : TurnClosed ctx (Tally ctx) where
  frame := by
    intro st st1 ht h
    have hp := ht.placements
    refine ⟨?_, ?_, ?_, ?_, ?_, ?_, ?_, ?_, ?_⟩
    · intro cn sn d
      rw [tallyDay_congr hp]
      exact h.perDay cn sn d
    · intro d
      rw [tallyDay_congr hp, ht.courseNo, ht.subjectNo, ht.perDayPlacement]
      exact h.today d
    · intro hl d
      rw [ht.perDayPlacement]
      exact h.labDay hl d
    · rw [tally_congr hp, ht.courseNo, ht.subjectNo, ht.scheduled]
      exact h.total
    · intro hl
      rw [ht.scheduled]
      exact h.lecture hl
    · intro hl
      rw [ht.scheduled]
      exact h.lab hl
    · intro p hpm
      rw [hp] at hpm
      rw [ht.courseNo, ht.subjectNo]
      exact h.own p hpm
    · intro p hpm hne
      rw [hp] at hpm
      rw [ht.courseNo, ht.subjectNo] at hne
      exact Bounded_congr hp p (h.past p hpm hne)
    · intro p hpm
      rw [hp] at hpm
      rw [ht.courseNo, ht.subjectNo]
      exact h.order p hpm
  lab := by
    intro st day pair group room _ _ hlab hfree hpend h
    have h0 : st.perDayPlacement day = 0 := by
      have := h.labDay hlab day
      omega
    have hmem : ∀ p, p ∈ (placeLab ctx day pair.1 pair.2 group room st).placements →
        p ∈ st.placements ∨
          (p.courseNo = st.courseNo ∧ p.subjectNo = st.subjectNo ∧ p.subject = ctx.subject) := by
      intro p hp
      simp only [placeLab, List.mem_append, List.mem_cons, List.mem_singleton,
        List.not_mem_nil, or_false] at hp
      rcases hp with hp | hp | hp
      · exact Or.inl hp
      · subst hp
        exact Or.inr ⟨rfl, rfl, rfl⟩
      · subst hp
        exact Or.inr ⟨rfl, rfl, rfl⟩
    refine ⟨?_, ?_, ?_, ?_, ?_, ?_, ?_, ?_, ?_⟩
    · intro cn sn d
      rw [tallyDay_placeLab]
      split
      · rename_i hc
        obtain ⟨h1, h2, h3⟩ := hc
        rw [← h1, ← h2, ← h3, h.today day, h0]
      · exact h.perDay cn sn d
    · intro d
      show tallyDay (placeLab ctx day pair.1 pair.2 group room st) st.courseNo st.subjectNo d =
        if d = day then st.perDayPlacement day + 2 else st.perDayPlacement d
      rw [tallyDay_placeLab, h.today d]
      by_cases e : d = day
      · simp [e]
      · have e2 : ¬ day = d := fun x => e x.symm
        simp [e, e2]
    · intro _ d
      show (if d = day then st.perDayPlacement day + 2 else st.perDayPlacement d) ≠ 1
      split
      · omega
      · exact h.labDay hlab d
    · show tally (placeLab ctx day pair.1 pair.2 group room st) st.courseNo st.subjectNo =
        st.scheduled + 2
      rw [tally_placeLab, h.total]
      simp
    · intro hl
      rw [hlab] at hl
      cases hl
    · intro _
      show st.scheduled + 2 ≤ ctx.subject.count + 1 ∧ (st.scheduled + 2) % 2 = 0
      have := (h.lab hlab).2
      omega
    · intro p hp hc hs
      rcases hmem p hp with hp | hp
      · exact h.own p hp hc hs
      · exact hp.2.2
    · intro p hp hne
      rcases hmem p hp with hp | hp
      · have hb := h.past p hp hne
        unfold Bounded at hb ⊢
        rw [tally_placeLab]
        have hcond : ¬ (st.courseNo = p.courseNo ∧ st.subjectNo = p.subjectNo) := by
          rintro ⟨a, b⟩
          rcases hne with hne | hne
          · exact hne a.symm
          · exact hne b.symm
        rw [if_neg hcond, Nat.add_zero]
        exact hb
      · rcases hne with hne | hne
        · exact absurd hp.1 hne
        · exact absurd hp.2.1 hne
    · intro p hp
      rcases hmem p hp with hp | hp
      · exact h.order p hp
      · exact Or.inr ⟨hp.1, Nat.le_of_eq hp.2.1⟩
  lecture := by
    intro st day slot room _ _ hlec hfree hpend h
    have hmem : ∀ p, p ∈ (placeLecture ctx day slot room st).placements →
        p ∈ st.placements ∨
          (p.courseNo = st.courseNo ∧ p.subjectNo = st.subjectNo ∧ p.subject = ctx.subject) := by
      intro p hp
      simp only [placeLecture, List.mem_append, List.mem_singleton] at hp
      rcases hp with hp | hp
      · exact Or.inl hp
      · subst hp
        exact Or.inr ⟨rfl, rfl, rfl⟩
    refine ⟨?_, ?_, ?_, ?_, ?_, ?_, ?_, ?_, ?_⟩
    · intro cn sn d
      rw [tallyDay_placeLecture]
      split
      · rename_i hc
        obtain ⟨h1, h2, h3⟩ := hc
        rw [← h1, ← h2, ← h3, h.today day]
        omega
      · exact h.perDay cn sn d
    · intro d
      show tallyDay (placeLecture ctx day slot room st) st.courseNo st.subjectNo d =
        if d = day then st.perDayPlacement day + 1 else st.perDayPlacement d
      rw [tallyDay_placeLecture, h.today d]
      by_cases e : d = day
      · simp [e]
      · have e2 : ¬ day = d := fun x => e x.symm
        simp [e, e2]
    · intro hl
      rw [hlec] at hl
      cases hl
    · show tally (placeLecture ctx day slot room st) st.courseNo st.subjectNo =
        st.scheduled + 1
      rw [tally_placeLecture, h.total]
      simp
    · intro _
      show st.scheduled + 1 ≤ ctx.subject.count
      omega
    · intro hl
      rw [hlec] at hl
      cases hl
    · intro p hp hc hs
      rcases hmem p hp with hp | hp
      · exact h.own p hp hc hs
      · exact hp.2.2
    · intro p hp hne
      rcases hmem p hp with hp | hp
      · have hb := h.past p hp hne
        unfold Bounded at hb ⊢
        rw [tally_placeLecture]
        have hcond : ¬ (st.courseNo = p.courseNo ∧ st.subjectNo = p.subjectNo) := by
          rintro ⟨a, b⟩
          rcases hne with hne | hne
          · exact hne a.symm
          · exact hne b.symm
        rw [if_neg hcond, Nat.add_zero]
        exact hb
      · rcases hne with hne | hne
        · exact absurd hp.1 hne
        · exact absurd hp.2.1 hne
    · intro p hp
      rcases hmem p hp with hp | hp
      · exact h.order p hp
      · exact Or.inr ⟨hp.1, Nat.le_of_eq hp.2.1⟩

theorem Tally_start (rand : Nat → Nat) (teachers : List Teacher) (classrooms : List Classroom)
    (course : Course) (eligibleRooms : List Classroom) (subject : Subject) (st : GenState)
    (h : Tallied st) :
    Tally (subjectCtx rand teachers classrooms course eligibleRooms subject)
      (subjectStart teachers course subject st) := by
  have hfresh : ∀ p ∈ st.placements, ¬ (p.courseNo = st.courseNo ∧ p.subjectNo = st.subjectNo) := by
    intro p hp hc
    rcases h.order p hp with ho | ho
    · omega
    · omega
  have hp : (subjectStart teachers course subject st).placements = st.placements := rfl
  refine ⟨?_, ?_, ?_, ?_, ?_, ?_, ?_, ?_, ?_⟩
  · intro cn sn d
    rw [tallyDay_congr hp]
    exact h.perDay cn sn d
  · intro d
    rw [tallyDay_congr hp]
    exact tallyDay_eq_zero d hfresh
  · intro _ d
    show (0 : Nat) ≠ 1
    omega
  · rw [tally_congr hp]
    exact tally_eq_zero hfresh
  · intro _
    exact Nat.zero_le _
  · intro _
    exact ⟨Nat.zero_le _, rfl⟩
  · intro p hpm hc hs
    exact absurd ⟨hc, hs⟩ (hfresh p hpm)
  · intro p hpm _
    exact Bounded_congr hp p (h.bounded p hpm)
  · intro p hpm
    rcases h.order p hpm with ho | ho
    · exact Or.inl ho
    · exact Or.inr ⟨ho.1, Nat.le_of_lt ho.2⟩

theorem Tallied_scheduleSubject (rand : Nat → Nat) (teachers : List Teacher)
    (classrooms : List Classroom) (course : Course) (eligibleRooms : List Classroom)
    (st : GenState) (subject : Subject) (h : Tallied st) :
    Tallied (scheduleSubject rand teachers classrooms course eligibleRooms st subject) := by
  have h1 := sessionLoop_turn
    (Tally_turnClosed (subjectCtx rand teachers classrooms course eligibleRooms subject))
    subject.count _ (Tally_start rand teachers classrooms course eligibleRooms subject st h)
  have hp : (scheduleSubject rand teachers classrooms course eligibleRooms st subject).placements =
      (sessionLoop (subjectCtx rand teachers classrooms course eligibleRooms subject)
        subject.count (subjectStart teachers course subject st)).placements := rfl
  refine ⟨?_, ?_, ?_⟩
  · intro cn sn d
    rw [tallyDay_congr hp]
    exact h1.perDay cn sn d
  · intro p hpm
    rw [hp] at hpm
    apply Bounded_congr hp
    by_cases hc : p.courseNo = (sessionLoop
        (subjectCtx rand teachers classrooms course eligibleRooms subject) subject.count
        (subjectStart teachers course subject st)).courseNo ∧
      p.subjectNo = (sessionLoop
        (subjectCtx rand teachers classrooms course eligibleRooms subject) subject.count
        (subjectStart teachers course subject st)).subjectNo
    · have hs := h1.own p hpm hc.1 hc.2
      unfold Bounded
      rw [hc.1, hc.2, h1.total, hs]
      exact ⟨h1.lecture, h1.lab⟩
    · apply h1.past p hpm
      by_contra hn
      apply hc
      constructor
      · by_contra e
        exact hn (Or.inl e)
      · by_contra e
        exact hn (Or.inr e)
  · intro p hpm
    rw [hp] at hpm
    show p.courseNo < _ ∨ (p.courseNo = _ ∧ p.subjectNo < _ + 1)
    rcases h1.order p hpm with ho | ho
    · exact Or.inl ho
    · exact Or.inr ⟨ho.1, Nat.lt_succ_of_le ho.2⟩

theorem Tallied_scheduleCourse (rand : Nat → Nat) (teachers : List Teacher)
    (classrooms : List Classroom) (st : GenState) (course : Course)
    (h : Tallied { st with subjectNo := 0 }) :
    Tallied { scheduleCourse rand teachers classrooms st course with subjectNo := 0 } := by
  have hsub : ∀ (subjects : List Subject) (st : GenState), Tallied st →
      Tallied (subjects.foldl
        (scheduleSubject rand teachers classrooms course (eligibleRoomsOf classrooms course))
        st) := by
    intro subjects
    induction subjects with
    | nil => intro st h; exact h
    | cons subject rest ih =>
      intro st h
      rw [List.foldl_cons]
      exact ih _ (Tallied_scheduleSubject rand teachers classrooms course _ st subject h)
  have h0 : Tallied (courseStart course st) := ⟨h.perDay, h.bounded, h.order⟩
  have h1 : Tallied (beforeFill rand teachers classrooms st course) := hsub _ _ h0
  refine ⟨h1.perDay, h1.bounded, ?_⟩
  intro p hp
  left
  show p.courseNo < (beforeFill rand teachers classrooms st course).courseNo + 1
  rcases h1.order p hp with ho | ho
  · omega
  · omega

theorem Tallied_timetableGenerator (rand : Nat → Nat) (courses : List Course)
    (subjects : List Subject) (teachers : List Teacher) (classrooms : List Classroom) :
    Tallied { timetableGenerator rand courses subjects teachers classrooms with
      subjectNo := 0 } := by
  have hfold : ∀ (l : List Course) (st : GenState), Tallied { st with subjectNo := 0 } →
      Tallied { l.foldl (scheduleCourse rand teachers classrooms) st with subjectNo := 0 } := by
    intro l
    induction l with
    | nil => intro st h; exact h
    | cons course rest ih =>
      intro st h
      rw [List.foldl_cons]
      exact ih _ (Tallied_scheduleCourse rand teachers classrooms st course h)
  apply hfold courses initialState
  refine ⟨?_, ?_, ?_⟩
  · intro cn sn d
    exact Nat.zero_le _
  · intro p hp
    cases hp
  · intro p hp
    cases hp

/-! ## Claims C22 and C23: how many positions a subject gets -/

/-- Claim C22. In every run, for every course (by its number in the input), every subject
of the course (by its number in the order in which the subjects are scheduled) and every
day, at most two positions are recorded for that subject on that day, a lab being
recorded at its two positions: so at most two lecture cells or one lab. -/
theorem at_most_two_per_day (rand : Nat → Nat) (courses : List Course)
    (subjects : List Subject) (teachers : List Teacher) (classrooms : List Classroom)
    (cn sn : Nat) (d : String) :
    tallyDay (timetableGenerator rand courses subjects teachers classrooms) cn sn d ≤ 2 ∧
    ((timetableGenerator rand courses subjects teachers classrooms).placements.filter
      fun p => decide (p.courseNo = cn) && decide (p.subjectNo = sn) &&
        decide (p.day = d)).length ≤ 2 := by
  have h := (Tallied_timetableGenerator rand courses subjects teachers classrooms).perDay cn sn d
  refine ⟨h, ?_⟩
  rw [← List.countP_eq_length_filter]
  exact h

/-- Claim C23 as stated fails. One session is required for the lab subject of the course,
and the run with the lab L1 places the lab on Monday at the slots 0 and 1: two positions
are filled for a subject that requires one. -/
theorem odd_lab_counterexample :
    (timetableGenerator exampleRand oddLabCourses [] [] [exampleLab]).timetable "CS3" "Monday" =
      [some ⟨"L1, Block", "Chem (Lab-1 (G1))", "TBA"⟩,
        some ⟨"L1, Block", "Chem (Lab-1 (G1))", "TBA"⟩,
        some libraryCell, some libraryCell, some breakCell,
        some libraryCell, some libraryCell, some libraryCell, some libraryCell] ∧
    tally (timetableGenerator exampleRand oddLabCourses [] [] [exampleLab]) 0 0 = 2 ∧
    ((timetableGenerator exampleRand oddLabCourses [] [] [exampleLab]).placements.map
      fun p => p.subject.count) = [1, 1] := by
  decide

/-- Claim C23, amended. In every run, the number of positions recorded over the week for
the subject of a placement is at most the required session count of the subject when it
is a lecture subject; for a lab subject, which is placed two positions at a time while
`scheduled < requiredSessions`, it is even and at most the required session count plus
one. -/
theorem sessions_bound (rand : Nat → Nat) (courses : List Course)
    (subjects : List Subject) (teachers : List Teacher) (classrooms : List Classroom) :
    ∀ p ∈ (timetableGenerator rand courses subjects teachers classrooms).placements,
      (p.subject.isLab = false →
        tally (timetableGenerator rand courses subjects teachers classrooms)
          p.courseNo p.subjectNo ≤ p.subject.count) ∧
      (p.subject.isLab = true →
        tally (timetableGenerator rand courses subjects teachers classrooms)
          p.courseNo p.subjectNo ≤ p.subject.count + 1 ∧
        tally (timetableGenerator rand courses subjects teachers classrooms)
          p.courseNo p.subjectNo % 2 = 0) := by
  intro p hp
  exact (Tallied_timetableGenerator rand courses subjects teachers classrooms).bounded p hp

/-- The hypotheses of `sessions_bound` hold for the first record of the lab of the
counterexample: two positions, an even number not above `1 + 1`. -/
theorem sessions_bound_witness :
    tally (timetableGenerator exampleRand oddLabCourses [] [] [exampleLab]) 0 0 ≤ 1 + 1 ∧
    tally (timetableGenerator exampleRand oddLabCourses [] [] [exampleLab]) 0 0 % 2 = 0 :=
  (sessions_bound exampleRand oddLabCourses [] [] [exampleLab]
    ⟨0, "CS3", 0, ⟨some "s3", "Chem", "Chemistry", true, 1, none⟩, none, "Monday", 0,
      exampleLab, some (0, 1), ⟨"L1, Block", "Chem (Lab-1 (G1))", "TBA"⟩⟩
    (by decide)).2 rfl

end Schedulo
